import Mathlib

/-!
Verification development for the hololive-bettel-royale-data-processing
repository: a shallow embedding of the message-to-event interpreter
(`part_000`, package main) together with proofs about its behaviour.

Texts are Lean `String`s; Go `time.Time` values are modelled as `Nat`
timestamps (only ordering and equality of times matter to the code);
the gorm-backed SQLite store is modelled as lists of rows with
`Create` = append-with-fresh-auto-id and gorm v2 `Save` = update row
with the same primary key, falling back to insert when absent.
-/

namespace Bettel

/-! ## Go string primitives (from the `strings` package uses in the source) -/

/-- strings.Contains on char lists. -/
def listHasInfix (hay needle : List Char) : Bool :=
  needle.isPrefixOf hay ||
    (match hay with
     | [] => false
     | _ :: t => listHasInfix t needle)

/-- strings.Contains. -/
def goContains (s sub : String) : Bool := listHasInfix s.data sub.data

/-- strings.HasPrefix. -/
def goStartsWith (s pre : String) : Bool := pre.data.isPrefixOf s.data

/-- strings.HasSuffix. -/
def goEndsWith (s suf : String) : Bool := suf.data.isSuffixOf s.data

/-- strings.Replace with count 1, on char lists: replace the first occurrence. -/
def replaceFirstL (s old new : List Char) : List Char :=
  if old.isPrefixOf s then new ++ s.drop old.length
  else
    match s with
    | [] => []
    | c :: t => c :: replaceFirstL t old new

/-- strings.Replace(s, old, new, 1). -/
def replaceFirst (s old new : String) : String :=
  ⟨replaceFirstL s.data old.data new.data⟩

/-- Fuelled worker for strings.ReplaceAll: left-to-right, non-overlapping. -/
def replaceAllAux : Nat → List Char → List Char → List Char → List Char
  | 0, s, _, _ => s
  | fuel + 1, s, old, new =>
    if old.isEmpty then s
    else if old.isPrefixOf s then new ++ replaceAllAux fuel (s.drop old.length) old new
    else
      match s with
      | [] => []
      | c :: t => c :: replaceAllAux fuel t old new

/-- strings.ReplaceAll (each step consumes at least one char, so length-based fuel suffices). -/
def replaceAll (s old new : String) : String :=
  ⟨replaceAllAux (s.data.length + 1) s.data old.data new.data⟩

/-- strings.SplitN(s, sep, 2) for non-empty sep: the pieces before and after
the first occurrence of sep, or none when sep does not occur. -/
def splitFirstL (s sep : List Char) : Option (List Char × List Char) :=
  if sep.isPrefixOf s then some ([], s.drop sep.length)
  else
    match s with
    | [] => none
    | c :: t => (splitFirstL t sep).map fun p => (c :: p.1, p.2)

/-- strings.SplitN(s, sep, 2): first field (the whole string when sep is absent). -/
def splitFirst (s sep : String) : Option (String × String) :=
  (splitFirstL s.data sep.data).map fun p => (⟨p.1⟩, ⟨p.2⟩)

/-- unicode.IsSpace (the whitespace runes: \t \n \v \f \r space NEL NBSP). -/
def goIsSpace (c : Char) : Bool :=
  c = ' ' || c = '\t' || c = '\n' || c = '\x0b' || c = '\x0c' || c = '\r' ||
  c = '\x85' || c = '\xa0'

/-- unicode.IsGraphic, exact on the ranges the archives exercise: ASCII
printables and everything from U+00A0 up are graphic, C0/C1 controls and
DEL are not.  (Unicode category tables above Latin-1 are approximated as
graphic; the interpreter only ever filters control characters out.) -/
def goIsGraphic (c : Char) : Bool :=
  (0x20 ≤ c.toNat && c.toNat ≤ 0x7e) || 0xa0 ≤ c.toNat

/-- filterGraphic from the source: keep graphic/space runes, drop the rest
(Go returns -1 to drop; modelled as Option). -/
def filterGraphic (c : Char) : Option Char :=
  if goIsGraphic c || goIsSpace c then some c else none

/-- strings.Map(filterGraphic, s). -/
def mapFilterGraphic (s : String) : String :=
  ⟨s.data.filterMap filterGraphic⟩

/-- filepath.Ext: the suffix starting at the final dot, or "" (paths in the
walked tree carry no separators in their final element's extension). -/
def goExt (s : String) : String :=
  let rev := s.data.reverse
  let afterDot := rev.takeWhile (fun c => c != '.')
  if afterDot.length = rev.length then "" else ⟨'.' :: afterDot.reverse⟩

/-- strings.EqualFold, ASCII simple fold (the only comparison in the source
is against ".json"). -/
def goEqualFold (a b : String) : Bool :=
  a.data.map Char.toLower == b.data.map Char.toLower

/-- unescapeMarkdown from the source: four sequential ReplaceAll passes. -/
def unescapeMarkdown (msg : String) : String :=
  let m1 := replaceAll msg "\\_" "_"
  let m2 := replaceAll m1 "\\*" "*"
  let m3 := replaceAll m2 "\\." "."
  replaceAll m3 "\\\\" "\\"

/-! ## A small regex engine (RE2 leftmost-first semantics for the
patterns the source compiles).

Go's regexp matches leftmost-first: scanning positions left to right, at
each position alternatives are tried in order and greedy (resp. lazy)
repetitions prefer longer (resp. shorter) consumption, backtracking into
the continuation.  The engine below enumerates candidate matches in
exactly that preference order; `matchRE` returns
(consumed, captures, rest) triples, most-preferred first. -/

inductive RE where
  | lit : List Char → RE
  | one : (Char → Bool) → RE
  | star : (Char → Bool) → RE
  | plus : (Char → Bool) → RE
  | plusLazy : (Char → Bool) → RE
  | opt : RE → RE
  | grp : Nat → RE → RE
  | cat : RE → RE → RE
  | alt : RE → RE → RE
  | look : (Option Char → List Char → Bool) → RE

/-- All splits of a maximal run of p-chars, longest consumed first. -/
def splitsDesc (p : Char → Bool) (s : List Char) : List (List Char × List Char) :=
  let run := s.takeWhile p
  ((List.range (run.length + 1)).reverse).map fun k => (run.take k, s.drop k)

/-- Last character of `consumed`, else the previous left-context char. -/
def lastCharAfter (prev : Option Char) (consumed : List Char) : Option Char :=
  match consumed.getLast? with
  | some c => some c
  | none => prev

/-- Candidate matches of a pattern at the current position, in RE2
preference order.  `prev` is the character just before the position
(left context for the multiline ^ assertion). -/
def matchRE : RE → Option Char → List Char → List (List Char × List (Nat × List Char) × List Char)
  | .lit cs, _, s => if cs.isPrefixOf s then [(cs, [], s.drop cs.length)] else []
  | .one p, _, s =>
    match s with
    | [] => []
    | c :: rest => if p c then [([c], [], rest)] else []
  | .star p, _, s => (splitsDesc p s).map fun q => (q.1, [], q.2)
  | .plus p, _, s =>
    ((splitsDesc p s).filter (fun q => !q.1.isEmpty)).map fun q => (q.1, [], q.2)
  | .plusLazy p, _, s =>
    (((splitsDesc p s).filter (fun q => !q.1.isEmpty)).reverse).map fun q => (q.1, [], q.2)
  | .opt r, prev, s => matchRE r prev s ++ [([], [], s)]
  | .grp i r, prev, s =>
    (matchRE r prev s).map fun t => (t.1, t.2.1 ++ [(i, t.1)], t.2.2)
  | .cat a b, prev, s =>
    (matchRE a prev s).flatMap fun t =>
      (matchRE b (lastCharAfter prev t.1) t.2.2).map fun u =>
        (t.1 ++ u.1, t.2.1 ++ u.2.1, u.2.2)
  | .alt a b, prev, s => matchRE a prev s ++ matchRE b prev s
  | .look f, prev, s => if f prev s then [([], [], s)] else []

/-- Sequence a list of pattern pieces. -/
def reCat (rs : List RE) : RE := rs.foldr RE.cat (.lit [])

/-- One submatch: the full matched text and the capture groups. -/
structure Submatch where
  full : String
  caps : List (Nat × String)
deriving Repr, DecidableEq

/-- Capture group i of a submatch ("" when the group did not participate,
as in Go). -/
def Submatch.get (m : Submatch) (i : Nat) : String :=
  (((m.caps.reverse).find? (fun p => p.1 = i)).map Prod.snd).getD ""

/-- FindAllStringSubmatch worker: leftmost match at each position,
non-overlapping, advancing one char past empty matches (fuelled; every
step consumes at least one character for the source's patterns). -/
def findAllAux (re : RE) : Nat → Option Char → List Char → List Submatch
  | 0, _, _ => []
  | fuel + 1, prev, s =>
    match (matchRE re prev s).head? with
    | some t =>
      let sm : Submatch := ⟨⟨t.1⟩, t.2.1.map fun p => (p.1, ⟨p.2⟩)⟩
      if t.1.isEmpty then
        match s with
        | [] => [sm]
        | c :: rest => sm :: findAllAux re fuel (some c) rest
      else sm :: findAllAux re fuel (lastCharAfter prev t.1) t.2.2
    | none =>
      match s with
      | [] => []
      | c :: rest => findAllAux re fuel (some c) rest

/-- regexp.FindAllStringSubmatch(s, -1). -/
def reFindAll (re : RE) (s : String) : List Submatch :=
  findAllAux re (s.data.length + 1) none s.data

/-- regexp.FindStringSubmatch: the leftmost match. -/
def reFind (re : RE) (s : String) : Option Submatch :=
  (reFindAll re s).head?

/-! ## The source's compiled patterns -/

/-- The char class [a-z0-9_\.\\] of rxStrDiscordUsername. -/
def userNameChar (c : Char) : Bool :=
  c.isLower || c.isDigit || c = '_' || c = '.' || c = '\\'

/-- The closing char class [a-z0-9_\.] (no backslash). -/
def userNameEndChar (c : Char) : Bool :=
  c.isLower || c.isDigit || c = '_' || c = '.'

/-- Go regexp \s = [\t\n\f\r ]. -/
def reSpaceChar (c : Char) : Bool :=
  c = '\t' || c = '\n' || c = '\x0c' || c = '\r' || c = ' '

/-- Go regexp . (any char except newline). -/
def reDotChar (c : Char) : Bool := c != '\n'

/-- rxStrDiscordUsername = ([a-z0-9_\.\\]*[a-z0-9_\.])(\s+[^\*]+)? with the
given capture group numbers. -/
def usernameRE (gName gSuffix : Nat) : RE :=
  reCat
    [ .grp gName (.cat (.star userNameChar) (.one userNameEndChar)),
      .opt (.grp gSuffix (.cat (.plus reSpaceChar) (.plus (fun c => c != '*')))) ]

/-- rxUserFormatted = (?:~~\*\*U\*\*~~|\*\*U\*\*) with groups 1,2 in the
struck-through alternative and 3,4 in the plain one. -/
def rxUserFormatted : RE :=
  .alt (reCat [.lit "~~**".data, usernameRE 1 2, .lit "**~~".data])
       (reCat [.lit "**".data, usernameRE 3 4, .lit "**".data])

/-- rxItemFormatted = __([^_]+)__ -/
def rxItemFormatted : RE :=
  reCat [.lit "__".data, .grp 1 (.plus (fun c => c != '_')), .lit "__".data]

/-- (?m)$ : at end of text or before a newline. -/
def eolLook (_ : Option Char) (s : List Char) : Bool :=
  s.isEmpty || s.head? = some '\n'

/-- (?m)^ : at start of text or after a newline. -/
def bolLook (prev : Option Char) (_ : List Char) : Bool :=
  prev.isNone || prev = some '\n'

/-- rxEra = (?m)Era:\s+(<:.+:.+>)?\s*([^\r\n]+?)\s*(?:$|\n) -/
def rxEra : RE :=
  reCat
    [ .lit "Era:".data, .plus reSpaceChar,
      .opt (.grp 1 (reCat [.lit "<:".data, .plus reDotChar, .lit ":".data,
                           .plus reDotChar, .lit ">".data])),
      .star reSpaceChar,
      .grp 2 (.plusLazy (fun c => c != '\r' && c != '\n')),
      .star reSpaceChar,
      .alt (.look eolLook) (.lit "\n".data) ]

/-- rxInteraction = (?m)^(<:.+:\d+>)\s+\|\s+([^\n]+?)\s*$ -/
def rxInteraction : RE :=
  reCat
    [ .look bolLook,
      .grp 1 (reCat [.lit "<:".data, .plus reDotChar, .lit ":".data,
                     .plus Char.isDigit, .lit ">".data]),
      .plus reSpaceChar, .lit "|".data, .plus reSpaceChar,
      .grp 2 (.plusLazy (fun c => c != '\n')),
      .star reSpaceChar, .look eolLook ]

/-- rxXPMultiplier = ([\d\.]+)x\s+XP\s+multiplier -/
def rxXPMultiplier : RE :=
  reCat
    [ .grp 1 (.plus (fun c => c.isDigit || c = '.')),
      .lit "x".data, .plus reSpaceChar, .lit "XP".data, .plus reSpaceChar,
      .lit "multiplier".data ]

/-- rxPrize = \*\*Prize:\*\*\s+(\d+) -/
def rxPrize : RE :=
  reCat [.lit "**Prize:**".data, .plus reSpaceChar, .grp 1 (.plus Char.isDigit)]

/-! ## Numeric parsing (strconv uses in the source) -/

/-- Digit-string to Nat (the callers' inputs are all-digit captures). -/
def natOfDigits (s : String) : Nat :=
  s.data.foldl (fun acc c => acc * 10 + (c.toNat - '0'.toNat)) 0

/-- strconv.ParseUint(s, 10, 64) succeeds on the all-digit capture of
rxPrize exactly when the value fits in 64 bits. -/
def goParseUintOk (s : String) : Bool :=
  s != "" && s.data.all Char.isDigit && natOfDigits s < 2 ^ 64

/-- strconv.ParseFloat(s, 32) on a [\d\.]+ capture: accepted when it has at
most one dot and at least one digit (exponent-range overflow of absurdly
long literals is not modelled; no claim touches it). -/
def goParseFloatOk (s : String) : Bool :=
  (s.data.filter (fun c => c = '.')).length ≤ 1 && s.data.any Char.isDigit

/-! ## Data model (internal/database rows, fields as the interpreter uses them) -/

/-- database.User: stable identity keyed by the platform-assigned ID. -/
structure DUser where
  id : String
deriving Repr, DecidableEq

/-- database.UserNameObservation rows (auto primary key modelled by list
position: gorm Last = last inserted matching row). -/
structure UserNameObservation where
  userID : String
  name : String
  time : Nat
deriving Repr, DecidableEq

/-- database.Game rows / the in-memory LastKnownGame (the XP multiplier,
a float32 in Go, is kept as the raw matched text: only parse success and
field identity matter to any claim). -/
structure Game where
  id : Nat := 0
  era : String := ""
  hostUserName : Option String := none
  hostUserID : Option String := none
  startTime : Option Nat := none
  endTime : Option Nat := none
  countdownStartTime : Nat := 0
  cancelled : Bool := false
  xpMultiplier : Option String := none
  rewardCoins : Nat := 0
  discordChannelID : String := ""
deriving Repr, DecidableEq

/-- database.Round rows (the embedded Game association adds no columns
beyond GameID). -/
structure Round where
  id : Nat := 0
  gameID : Nat := 0
  roundNumber : Nat := 0
  postTime : Nat := 0
deriving Repr, DecidableEq

/-- database.Item rows, keyed by name. -/
structure Item where
  name : String
deriving Repr, DecidableEq

/-- database.InteractionMessage rows. -/
structure InteractionMessage where
  id : Nat := 0
  text : String := ""
  event : String := ""
deriving Repr, DecidableEq

/-- database.InteractionUserMention rows. -/
structure InteractionUserMention where
  id : Nat := 0
  userName : String := ""
  userID : Option String := none
  killed : Bool := false
  suffix : String := ""
deriving Repr, DecidableEq

/-- database.Interaction rows (many2many association tables flattened to
id/name reference lists). -/
structure Interaction where
  id : Nat := 0
  roundID : Nat := 0
  messageID : Nat := 0
  userMentionIDs : List Nat := []
  itemNames : List String := []
deriving Repr, DecidableEq

/-- The persistent store. -/
structure DB where
  users : List DUser := []
  observations : List UserNameObservation := []
  games : List Game := []
  rounds : List Round := []
  interactions : List Interaction := []
  userMentions : List InteractionUserMention := []
  items : List Item := []
  interactionMessages : List InteractionMessage := []
deriving Repr, DecidableEq

/-- SQLite auto-increment: one more than the largest id in the table. -/
def nextID (ids : List Nat) : Nat := ids.foldr max 0 + 1

/-! ## Discord export records (internal/discord, fields the interpreter reads) -/

/-- A referenced discord user (id, display name). -/
structure DiscordUser where
  id : String
  name : String
deriving Repr, DecidableEq

/-- An embed: title/description/author-name, optional footer text. -/
structure Embed where
  title : String := ""
  description : String := ""
  authorName : String := ""
  footerText : Option String := none
deriving Repr, DecidableEq

/-- A reaction (only the reacting users are read). -/
structure Reaction where
  users : List DiscordUser
deriving Repr, DecidableEq

/-- A message (interaction collapsed to its invoking user). -/
structure Message where
  id : String := ""
  timestamp : Nat := 0
  content : String := ""
  author : DiscordUser
  interaction : Option DiscordUser := none
  mentions : List DiscordUser := []
  reactions : List Reaction := []
  embeds : List Embed := []
deriving Repr, DecidableEq

/-- A channel. -/
structure Channel where
  id : String
deriving Repr, DecidableEq

/-- discord.Backup: one export file's channel and ordered messages. -/
structure Backup where
  channel : Channel
  messages : List Message
deriving Repr, DecidableEq

/-! ## Processor state and errors -/

/-- The per-channel replay cursor (channelState in the source). -/
structure ChannelState where
  lastKnownIsGameRunning : Bool := false
  lastKnownGame : Game := {}
  lastKnownRound : Round := {}
deriving Repr, DecidableEq

/-- Processor: the store plus per-channel state and the process-local game
id counter.  The channels map is modelled as a total function (Go's
channelState inserts a default entry on first access, which is
observationally the same). -/
structure PState where
  db : DB := {}
  channels : String → ChannelState := fun _ => {}
  lastKnownGameID : Nat := 0

/-- The error taxonomy.  Abnormal terminations that Go does not surface as
error values are modelled as distinguished errors: fatalLog is the
log.Fatal call in observeUserName, nilInteraction the nil-pointer
dereference reachable in the balance branch, indexOOB an out-of-range
index. -/
inductive ProcErr where
  | emptyUserName
  | multiItem (msg : String)
  | winnerNoGame
  | cancelNoGame
  | roundNoGame
  | eventRoundNoGame
  | numParse (s : String)
  | fatalLog
  | nilInteraction
  | indexOOB
  | atMessage (id : String) (e : ProcErr)
deriving Repr, DecidableEq

def getChan (ps : PState) (cid : String) : ChannelState := ps.channels cid

def setChan (ps : PState) (cid : String) (cs : ChannelState) : PState :=
  { ps with channels := fun x => if x = cid then cs else ps.channels x }

/-! ## Store primitives (gorm calls as the source issues them) -/

/-- Save(&User): upsert by the string primary key. -/
def saveUser (db : DB) (u : DUser) : DB :=
  if db.users.any (fun v => v.id == u.id) then
    { db with users := db.users.map fun v => if v.id == u.id then u else v }
  else
    { db with users := db.users ++ [u] }

/-- lookupUserID: error on empty id; otherwise the stored user, creating
(and persisting) a fresh one when absent. -/
def lookupUserID (db : DB) (id : String) : Except ProcErr (DUser × DB) :=
  if id = "" then .error .emptyUserName
  else
    match db.users.find? (fun u => u.id == id) with
    | some u => .ok (u, db)
    | none => .ok (⟨id⟩, saveUser db ⟨id⟩)

/-- The last (most recently inserted) observation rows are gorm Last over
the auto primary key, i.e. last in insertion order. -/
def lastObsForUser (db : DB) (id : String) : Option UserNameObservation :=
  (db.observations.filter fun o => o.userID == id).getLast?

def lastObsForName (db : DB) (name : String) : Option UserNameObservation :=
  (db.observations.filter fun o => o.name == name).getLast?

/-- lookupUserName: empty names are an error; otherwise the user carried by
the most recent observation of that display name (next-best-guess), or
none (with a logged warning) when the name was never observed. -/
def lookupUserName (db : DB) (name : String) : Except ProcErr (Option DUser) :=
  if name = "" then .error .emptyUserName
  else
    match lastObsForName db name with
    | none => .ok none
    | some o => .ok (some ⟨o.userID⟩)

/-- lookupItem: First-or-create by name (storeItem's Save inserts the
fresh row). -/
def lookupItem (db : DB) (name : String) : Item × DB :=
  match db.items.find? (fun i => i.name == name) with
  | some i => (i, db)
  | none => (⟨name⟩, { db with items := db.items ++ [⟨name⟩] })

/-- lookupInteractionMessage: First where text and event match, creating
the row (with a fresh auto id) when absent. -/
def lookupInteractionMessage (db : DB) (text event : String) :
    InteractionMessage × DB :=
  match db.interactionMessages.find? (fun i => i.text == text && i.event == event) with
  | some i => (i, db)
  | none =>
    let im : InteractionMessage :=
      ⟨nextID (db.interactionMessages.map (fun i => i.id)), text, event⟩
    (im, { db with interactionMessages := db.interactionMessages ++ [im] })

/-- gorm v2 Save(&Game): with a zero primary key this is Create (auto id,
written back into the value); otherwise update-in-place, inserting when
the row is missing. -/
def saveGame (db : DB) (g : Game) : Game × DB :=
  if g.id = 0 then
    let g' := { g with id := nextID (db.games.map fun h => h.id) }
    (g', { db with games := db.games ++ [g'] })
  else if db.games.any (fun h => h.id == g.id) then
    (g, { db with games := db.games.map fun h => if h.id == g.id then g else h })
  else
    (g, { db with games := db.games ++ [g] })

/-- Create(&Round): insert with a fresh auto id (written back). -/
def createRound (db : DB) (r : Round) : Round × DB :=
  let r' := { r with id := nextID (db.rounds.map fun q => q.id) }
  (r', { db with rounds := db.rounds ++ [r'] })

/-- One association insert of Create(&Interaction): a mention row with a
fresh auto id. -/
def createMentionStep (acc : List Nat × DB) (m : InteractionUserMention) : List Nat × DB :=
  let mid := nextID (acc.2.userMentions.map fun r => r.id)
  (acc.1 ++ [mid],
   { acc.2 with userMentions := acc.2.userMentions ++ [{ m with id := mid }] })

/-- Creating an interaction's mention rows (the association inserts gorm
performs as part of Create(&Interaction)). -/
def createMentions (db : DB) (ms : List InteractionUserMention) : List Nat × DB :=
  ms.foldl createMentionStep ([], db)

/-- storeInteraction: Create(&Interaction) together with its user-mention
rows; item rows already exist (lookupItem), so only their names are
referenced. -/
def storeInteraction (db : DB) (roundID messageID : Nat)
    (ms : List InteractionUserMention) (items : List Item) : DB :=
  let p := createMentions db ms
  let iid := nextID (p.2.interactions.map fun i => i.id)
  { p.2 with
    interactions :=
      p.2.interactions ++ [⟨iid, roundID, messageID, p.1, items.map fun i => i.name⟩] }

/-! ## Identity observation (observeUserName) -/

/-- observeUserName: resolve/create the user; skip when the latest stored
observation already carries this name; otherwise append an observation,
backfill games with a null host id but matching host name, then backfill
unresolved user mentions with matching name — and hit the source's
log.Fatal when a "menardi" backfill finds nothing to fix. -/
def observeUserName (ps : PState) (m : Message) (id name : String) :
    Except ProcErr PState := do
  let (user, db1) ← lookupUserID ps.db id
  let skip :=
    match lastObsForUser db1 id with
    | some last => last.name == name
    | none => false
  if skip then
    return { ps with db := db1 }
  else
    let obs : UserNameObservation := { userID := user.id, name := name, time := m.timestamp }
    let db2 := { db1 with observations := db1.observations ++ [obs] }
    let gameMatch (g : Game) : Bool := g.hostUserID.isNone && g.hostUserName == some name
    let db3 :=
      { db2 with
        games := db2.games.map fun g =>
          if gameMatch g then { g with hostUserID := some user.id } else g }
    let recMatch (r : InteractionUserMention) : Bool := r.userID.isNone && r.userName == name
    if (db3.userMentions.filter recMatch).length > 0 then
      return { ps with db :=
        { db3 with
          userMentions := db3.userMentions.map fun r =>
            if recMatch r then { r with userID := some user.id } else r } }
    else if name == "menardi" then
      throw .fatalLog
    else
      return { ps with db := db3 }

/-! ## Text extractors -/

/-- The placeholder written for the user mention at position i. -/
def userPlaceholder (i : Nat) : String :=
  "\x7b\x7busers[" ++ toString i ++ "]\x7d\x7d"

/-- The mention derived from one rxUserFormatted submatch (the source's
switch on which alternative's name group is non-empty). -/
def mentionOfMatch (mt : Submatch) : InteractionUserMention :=
  if mt.get 1 ≠ "" then
    { userName := unescapeMarkdown (mt.get 1), killed := true, suffix := mt.get 2 }
  else if mt.get 3 ≠ "" then
    { userName := unescapeMarkdown (mt.get 3), suffix := mt.get 4 }
  else
    {}

/-- One iteration of the extractUsers loop: dedup against the accumulated
mention list via slices.Index and replace the first occurrence of the
matched text with the indexed placeholder (a repeat reuses the index of
its first occurrence, a new mention is appended). -/
def extractUsersStep (acc : String × List InteractionUserMention) (mt : Submatch) :
    String × List InteractionUserMention :=
  let ui := mentionOfMatch mt
  match acc.2.findIdx? (fun y => y == ui) with
  | some i => (replaceFirst acc.1 mt.full (userPlaceholder i), acc.2)
  | none => (replaceFirst acc.1 mt.full (userPlaceholder acc.2.length), acc.2 ++ [ui])

/-- First pass of extractUsers. -/
def extractUsersScan (msg : String) (mts : List Submatch) :
    String × List InteractionUserMention :=
  mts.foldl extractUsersStep (msg, [])

/-- One iteration of the fill-out loop of extractUsers: resolve the user
id where the display name resolves (read-only on the store). -/
def fillMentionStep (db : DB) (acc : List InteractionUserMention)
    (ui : InteractionUserMention) : Except ProcErr (List InteractionUserMention) := do
  let uOpt ← lookupUserName db ui.userName
  match uOpt with
  | some u => pure (acc ++ [{ ui with userID := some u.id }])
  | none => pure (acc ++ [ui])

/-- Second pass of extractUsers. -/
def fillMentions (db : DB) (ms : List InteractionUserMention) :
    Except ProcErr (List InteractionUserMention) :=
  ms.foldlM (fillMentionStep db) []

/-- extractUsers from the source. -/
def extractUsers (db : DB) (msg : String) :
    Except ProcErr (String × List InteractionUserMention) := do
  let scanned := extractUsersScan msg (reFindAll rxUserFormatted msg)
  let ms ← fillMentions db scanned.2
  return (scanned.1, ms)

/-- One iteration of the extractItems loop: look up / create the item and
replace the first occurrence of the matched text with the placeholder. -/
def extractItemStep (acc : String × List Item × DB) (mt : Submatch) :
    String × List Item × DB :=
  let p := lookupItem acc.2.2 (unescapeMarkdown (mt.get 1))
  (replaceFirst acc.1 mt.full "\x7b\x7bitem\x7d\x7d", acc.2.1 ++ [p.1], p.2)

/-- extractItems from the source: more than one __item__ mention is an
unsupported-multi-item error; otherwise each (hence at most one) mention
is looked up / created and replaced by the item placeholder. -/
def extractItems (db : DB) (msg : String) :
    Except ProcErr (String × List Item × DB) :=
  let mts := reFindAll rxItemFormatted msg
  if mts.length > 1 then .error (.multiItem msg)
  else .ok (mts.foldl extractItemStep (msg, [], db))

/-! ## Game lifecycle handlers -/

/-- The bot's own author id. -/
def botAuthorID : String := "693167035068317736"

/-- Save(&cs.LastKnownGame): the saved value (with any auto id gorm wrote
back) replaces the in-memory game. -/
def storeCurrentGame (ps : PState) (c : Channel) : PState :=
  let cs := getChan ps c.id
  let p := saveGame ps.db cs.lastKnownGame
  setChan { ps with db := p.2 } c.id { cs with lastKnownGame := p.1 }

/-- Create(&cs.LastKnownRound): the assigned auto id is written back into
the in-memory round. -/
def storeCurrentRound (ps : PState) (c : Channel) : PState :=
  let cs := getChan ps c.id
  let p := createRound ps.db cs.lastKnownRound
  setChan { ps with db := p.2 } c.id { cs with lastKnownRound := p.1 }

/-- createNewGame: bump the process-local counter, build the game (host id
resolved best-effort from the observation log), open the next round
context (Round zero value: RoundNumber 0) and clear the running flag. -/
def createNewGame (ps : PState) (c : Channel) (era : String)
    (hostName : Option String) : Except ProcErr PState := do
  let counter := ps.lastKnownGameID + 1
  let g0 : Game :=
    { id := counter, era := era, hostUserName := hostName, discordChannelID := c.id }
  let g ←
    match hostName with
    | some hn => do
      let uOpt ← lookupUserName ps.db hn
      pure (match uOpt with
            | some u => { g0 with hostUserID := some u.id }
            | none => g0)
    | none => pure g0
  let cs : ChannelState :=
    { lastKnownIsGameRunning := false,
      lastKnownGame := g,
      lastKnownRound := { gameID := g.id } }
  return setChan { ps with lastKnownGameID := counter } c.id cs

/-- createNewRound: open the context for the given round number of the
current game. -/
def createNewRound (ps : PState) (c : Channel) (roundNumber : Nat) : PState :=
  let cs := getChan ps c.id
  setChan ps c.id
    { cs with lastKnownRound := { gameID := cs.lastKnownGame.id, roundNumber := roundNumber } }

/-- processGameCountdownStart: parse era and host from the
graphic-filtered description/title, create the new game, and stamp the
countdown start time. -/
def processGameCountdownStart (ps : PState) (c : Channel) (m : Message)
    (e : Embed) : Except ProcErr PState := do
  let cleanDesc := mapFilterGraphic e.description
  let cleanTitle := mapFilterGraphic e.title
  let era :=
    match reFind rxEra cleanDesc with
    | some mt => mt.get 2
    | none => ""
  let hostUserName :=
    match splitFirst cleanTitle " hosted by " with
    | some p => some (unescapeMarkdown p.2)
    | none => none
  let ps1 ← createNewGame ps c era hostUserName
  let cs := getChan ps1 c.id
  return setChan ps1 c.id
    { cs with lastKnownGame := { cs.lastKnownGame with countdownStartTime := m.timestamp } }

/-- processGameWinner: with no running game, ignore (warning) when no game
was ever seen on the channel, otherwise fail; with a running game, stamp
the end time, persist, and leave Running. -/
def processGameWinner (ps : PState) (c : Channel) (m : Message) :
    Except ProcErr PState :=
  let cs := getChan ps c.id
  if !cs.lastKnownIsGameRunning then
    if cs.lastKnownGame.id = 0 then .ok ps
    else .error .winnerNoGame
  else
    let ps1 := setChan ps c.id
      { cs with lastKnownGame := { cs.lastKnownGame with endTime := some m.timestamp } }
    let ps2 := storeCurrentGame ps1 c
    let cs2 := getChan ps2 c.id
    .ok (setChan ps2 c.id { cs2 with lastKnownIsGameRunning := false })

/-- processGameCancelled: as the winner path, additionally setting the
cancelled flag. -/
def processGameCancelled (ps : PState) (c : Channel) (m : Message) :
    Except ProcErr PState :=
  let cs := getChan ps c.id
  if !cs.lastKnownIsGameRunning then
    if cs.lastKnownGame.id = 0 then .ok ps
    else .error .cancelNoGame
  else
    let ps1 := setChan ps c.id
      { cs with lastKnownGame :=
          { cs.lastKnownGame with endTime := some m.timestamp, cancelled := true } }
    let ps2 := storeCurrentGame ps1 c
    let cs2 := getChan ps2 c.id
    .ok (setChan ps2 c.id { cs2 with lastKnownIsGameRunning := false })

/-- processGameStart: mark running, stamp the start time, parse prize and
XP multiplier from the filtered description (parse failure is a hard
error), persist the game. -/
def processGameStart (ps : PState) (c : Channel) (m : Message) (e : Embed) :
    Except ProcErr PState := do
  let cleanDesc := mapFilterGraphic e.description
  let cs0 := getChan ps c.id
  let cs1 :=
    { cs0 with
      lastKnownIsGameRunning := true,
      lastKnownGame := { cs0.lastKnownGame with startTime := some m.timestamp } }
  let cs2 ←
    match reFind rxPrize cleanDesc with
    | some mt =>
      if goParseUintOk (mt.get 1) then
        pure { cs1 with lastKnownGame :=
          { cs1.lastKnownGame with rewardCoins := natOfDigits (mt.get 1) } }
      else throw (.numParse (mt.get 1))
    | none => pure cs1
  let cs3 ←
    match reFind rxXPMultiplier cleanDesc with
    | some mt =>
      if goParseFloatOk (mt.get 1) then
        pure { cs2 with lastKnownGame :=
          { cs2.lastKnownGame with xpMultiplier := some (mt.get 1) } }
      else throw (.numParse (mt.get 1))
    | none => pure cs2
  return storeCurrentGame (setChan ps c.id cs3) c

/-- processEventRound: persist the current round, then one aggregate
interaction built from the whole description, keyed by the dash-separated
event title, and open the next round context. -/
def processEventRound (ps : PState) (c : Channel) (m : Message) (e : Embed) :
    Except ProcErr PState := do
  let cs := getChan ps c.id
  if !cs.lastKnownIsGameRunning then
    if cs.lastKnownGame.id = 0 then .ok ps
    else .error .eventRoundNoGame
  else
    let psA := setChan ps c.id
      { cs with lastKnownRound := { cs.lastKnownRound with postTime := m.timestamp } }
    let psB := storeCurrentRound psA c
    let csB := getChan psB c.id
    let cleanDesc := mapFilterGraphic e.description
    let cleanTitle := mapFilterGraphic e.title
    let eventTitle ←
      match splitFirst cleanTitle " - " with
      | some p => pure p.2
      | none => throw .indexOOB
    let eventDescription :=
      match splitFirst cleanDesc "\n\n" with
      | some p => p.1
      | none => cleanDesc
    let eu ← extractUsers psB.db cleanDesc
    let ei ← extractItems psB.db eu.1
    let imp := lookupInteractionMessage ei.2.2 eventDescription eventTitle
    let db4 := storeInteraction imp.2 csB.lastKnownRound.id imp.1.id eu.2 ei.2.1
    return createNewRound { psB with db := db4 } c (csB.lastKnownRound.roundNumber + 1)

/-- One narrative line of processRound: extract users and items, dedup the
template, store one interaction under the current round. -/
def roundLineStep (roundID : Nat) (db : DB) (mt : Submatch) : Except ProcErr DB := do
  let eu ← extractUsers db (mt.get 2)
  let ei ← extractItems db eu.1
  let imp := lookupInteractionMessage ei.2.2 ei.1 ""
  pure (storeInteraction imp.2 roundID imp.1.id eu.2 ei.2.1)

/-- processRound: persist the current round, run every emoji-tagged
narrative line through the extractors as one interaction each, and open
the next round context; titles containing a dash-separated event name are
dispatched to processEventRound instead. -/
def processRound (ps : PState) (c : Channel) (m : Message) (e : Embed) :
    Except ProcErr PState := do
  let cs := getChan ps c.id
  if !cs.lastKnownIsGameRunning then
    if cs.lastKnownGame.id = 0 then .ok ps
    else .error .roundNoGame
  else if goContains e.title " - " then
    processEventRound ps c m e
  else
    let psA := setChan ps c.id
      { cs with lastKnownRound := { cs.lastKnownRound with postTime := m.timestamp } }
    let psB := storeCurrentRound psA c
    let csB := getChan psB c.id
    let db4 ←
      (reFindAll rxInteraction e.description).foldlM
        (roundLineStep csB.lastKnownRound.id) psB.db
    return createNewRound { psB with db := db4 } c (csB.lastKnownRound.roundNumber + 1)

/-! ## Message classification and the replay loop -/

/-- The behaviourally distinct classes of the embed switch.  The source's
first seven cases are reproduced condition-for-condition in order; every
later case (specific ignores and the default log-and-skip) performs no
action and no break, so they are all `skip`. -/
inductive EmbedClass where
  | countdown | contCountdown | started | cancelledMsg | winner | balance | roundMsg | skip
deriving Repr, DecidableEq

/-- The ordered first-match-wins classification of one embed. -/
def classifyEmbed (hasInteraction : Bool) (embedIndex : Nat) (e : Embed) :
    EmbedClass :=
  if goContains e.title "hosted by " || e.footerText == some "Automatic Session" then
    .countdown
  else if goStartsWith e.description "Starting in " then .contCountdown
  else if goStartsWith e.title "Started a new " then .started
  else if e.title == "Rumble Royale session cancelled" then .cancelledMsg
  else if embedIndex == 0 && goContains e.title "WINNER!" then .winner
  else if goContains e.authorName "'s balance" ||
          goContains e.authorName "'s backpacks" ||
          (goContains e.authorName "'s Classic Era Items and Skins" && hasInteraction) then
    .balance
  else if goStartsWith e.title "__Round " then .roundMsg
  else .skip

/-- wrapError: annotate with the originating message id. -/
def wrapErr (mid : String) : Except ProcErr PState → Except ProcErr PState
  | .error e => .error (.atMessage mid e)
  | .ok ps => .ok ps

/-- One iteration of the embed loop; the returned flag is `break embedLoop`.
Handler errors are wrapped with the message id at the end of each
iteration as in the source - except the cancelled and winner cases, whose
`break embedLoop` exits the loop before that check, so their errors are
logged and discarded with the state unchanged; the balance branch returns
its observe error unwrapped. -/
def embedStep (ps : PState) (c : Channel) (m : Message) (idx : Nat)
    (e : Embed) : Except ProcErr (PState × Bool) :=
  match classifyEmbed m.interaction.isSome idx e with
  | .countdown => (wrapErr m.id (processGameCountdownStart ps c m e)).map fun x => (x, false)
  | .contCountdown => .ok (ps, false)
  | .started => (wrapErr m.id (processGameStart ps c m e)).map fun x => (x, false)
  | .cancelledMsg =>
    (match processGameCancelled ps c m with
     | .error _ => .ok (ps, true)
     | .ok x => .ok (x, true))
  | .winner =>
    (match processGameWinner ps c m with
     | .error _ => .ok (ps, true)
     | .ok x => .ok (x, true))
  | .balance =>
    let before :=
      match splitFirst e.authorName "'" with
      | some p => p.1
      | none => e.authorName
    (match m.interaction with
     | some itn => (observeUserName ps m itn.id (unescapeMarkdown before)).map fun x => (x, true)
     | none => .error .nilInteraction)
  | .roundMsg => (wrapErr m.id (processRound ps c m e)).map fun x => (x, false)
  | .skip => .ok (ps, false)

/-- The embed loop with break. -/
def embedsLoop (c : Channel) (m : Message) :
    PState → Nat → List Embed → Except ProcErr PState
  | ps, _, [] => .ok ps
  | ps, idx, e :: rest => do
    let r ← embedStep ps c m idx e
    if r.2 then .ok r.1 else embedsLoop c m r.1 (idx + 1) rest

/-- One message of processExport: the unconditional identity-hint pass
(interaction invoker, mentions, reactors, then the non-bot author, which
also skips embed handling), then the classified embed loop for bot
messages. -/
def processMessage (ps : PState) (c : Channel) (m : Message) :
    Except ProcErr PState := do
  let ps1 ←
    match m.interaction with
    | some itn => observeUserName ps m itn.id itn.name
    | none => pure ps
  let ps2 ← m.mentions.foldlM (fun s u => observeUserName s m u.id u.name) ps1
  let ps3 ← m.reactions.foldlM
    (fun s r => r.users.foldlM (fun s2 u => observeUserName s2 m u.id u.name) s) ps2
  if m.author.id != botAuthorID then
    observeUserName ps3 m m.author.id m.author.name
  else if m.embeds.isEmpty then .ok ps3
  else embedsLoop c m ps3 0 m.embeds

/-- processExport: replay one archive's messages in order. -/
def processExport (ps : PState) (backup : Backup) : Except ProcErr PState :=
  backup.messages.foldlM (fun s m => processMessage s backup.channel m) ps

/-- Replaying an ordered archive set (the import loop's per-file calls). -/
def processArchives (ps : PState) (backups : List Backup) : Except ProcErr PState :=
  backups.foldlM processExport ps

/-- A fresh processor over a given store (newProcessor: empty channel map,
counter zero). -/
def freshPState (db : DB) : PState := { db := db }

/-! ## Archive loader (walkFunc of runImport) -/

/-- One enumerated directory entry as walkFunc sees it: the walk error
argument, dir flag, file name, whether opening succeeds, and the decode
result (none = header cannot be decoded, some ts = the messages array's
timestamps). -/
structure WalkEntry where
  name : String
  isDir : Bool := false
  errIn : Bool := false
  openOk : Bool := true
  decoded : Option (List Nat) := none
deriving Repr, DecidableEq

/-- The outcome of walkFunc on one entry.  readErr covers the open/decode
failures the spec calls ReadError; panicked is the out-of-range index
`backup.Messages[0]` on an empty decoded messages array. -/
inductive WalkRes where
  | errProp
  | skipped
  | readErr
  | panicked
  | recorded (ts : Nat)
deriving Repr, DecidableEq

/-- walkFunc: propagate walk errors, skip directories and non-.json names,
fail on open/decode errors, then take the first message's timestamp. -/
def walkFunc (f : WalkEntry) : WalkRes :=
  if f.errIn then .errProp
  else if f.isDir || !goEqualFold (goExt f.name) ".json" then .skipped
  else if !f.openOk then .readErr
  else
    match f.decoded with
    | none => .readErr
    | some [] => .panicked
    | some (t :: _) => .recorded t

/-! ## Specification-side helpers for the extractor claims -/

/-- The dedup key of a user mention (name, killed flag, suffix); the ids
and resolved user are not part of the within-text identity. -/
def mentionKey (ui : InteractionUserMention) : String × Bool × String :=
  (ui.userName, ui.killed, ui.suffix)

/-- One dedup step: keep the accumulator if the element was seen, append
it otherwise. -/
def dedupStep {α : Type} [DecidableEq α] (acc : List α) (x : α) : List α :=
  if x ∈ acc then acc else acc ++ [x]

/-- Keep the first occurrence of every element, in first-occurrence order. -/
def firstDedup {α : Type} [DecidableEq α] (l : List α) : List α :=
  l.foldl dedupStep []

/-- Specification-side replay of one scan step: the match is replaced by
the placeholder indexed by the position of its mention's FIRST occurrence
in the final dedup list. -/
def replayStep (final : List InteractionUserMention) (s : String) (mt : Submatch) : String :=
  replaceFirst s mt.full
    (userPlaceholder ((final.findIdx? (fun y => y == mentionOfMatch mt)).getD final.length))

/-- Specification-side replay of the whole scan pass. -/
def replayScan (msg : String) (mts : List Submatch)
    (final : List InteractionUserMention) : String :=
  mts.foldl (replayStep final) msg

/-! ## Store dedup invariants -/

/-- Round identity within the claims: game id, round number, post time. -/
def roundKey (r : Round) : Nat × Nat × Nat := (r.gameID, r.roundNumber, r.postTime)

/-- The (game id, round number) pairs of the stored rounds. -/
def roundPairs (db : DB) : List (Nat × Nat) :=
  db.rounds.map fun r => (r.gameID, r.roundNumber)

/-- The dedup keys the store is supposed to keep unique: user ids, item
names, interaction-message (text, event) pairs, game ids. -/
def DBInv (db : DB) : Prop :=
  (db.users.map DUser.id).Nodup ∧
  (db.items.map Item.name).Nodup ∧
  (db.interactionMessages.map fun i => (i.text, i.event)).Nodup ∧
  (db.games.map Game.id).Nodup

instance (db : DB) : Decidable (DBInv db) := by unfold DBInv; infer_instance

/-! ## The control projection of the replay.

Whether a message mutates the lifecycle state, which rounds are emitted
and which game ids are saved depend only on the message texts and the
per-channel control state (running flag, current game id, current round
context), never on the store — except when a "Started a new" embed
arrives on a channel that never saw a countdown: then gorm assigns the
game a store-dependent auto id.  The control machine below replays just
that control state; its `wf` flag records that the auto-id case never
arose, and under `wf` the real replay projects onto it exactly. -/

structure CtrlChan where
  running : Bool := false
  gameId : Nat := 0
  roundGameId : Nat := 0
  roundNumber : Nat := 0
deriving Repr, DecidableEq

structure Ctrl where
  counter : Nat := 0
  chans : String → CtrlChan := fun _ => {}
  emitted : List (Nat × Nat × Nat) := []
  savedIds : List Nat := []
  wf : Bool := true

def ctrlGet (t : Ctrl) (cid : String) : CtrlChan := t.chans cid

def ctrlSet (t : Ctrl) (cid : String) (cc : CtrlChan) : Ctrl :=
  { t with chans := fun x => if x = cid then cc else t.chans x }

/-- The control effect of one embed (same classification, same break
flags as embedStep). -/
def ctrlEmbed (t : Ctrl) (c : Channel) (m : Message) (idx : Nat) (e : Embed) :
    Ctrl × Bool :=
  match classifyEmbed m.interaction.isSome idx e with
  | .countdown =>
    let n := t.counter + 1
    (ctrlSet { t with counter := n } c.id
       { running := false, gameId := n, roundGameId := n, roundNumber := 0 }, false)
  | .contCountdown => (t, false)
  | .started =>
    let cc := ctrlGet t c.id
    let t1 := if cc.gameId = 0 then { t with wf := false } else t
    (ctrlSet { t1 with savedIds := t1.savedIds ++ [cc.gameId] } c.id
       { cc with running := true }, false)
  | .cancelledMsg =>
    let cc := ctrlGet t c.id
    if !cc.running then (t, true)
    else (ctrlSet { t with savedIds := t.savedIds ++ [cc.gameId] } c.id
            { cc with running := false }, true)
  | .winner =>
    let cc := ctrlGet t c.id
    if !cc.running then (t, true)
    else (ctrlSet { t with savedIds := t.savedIds ++ [cc.gameId] } c.id
            { cc with running := false }, true)
  | .balance => (t, true)
  | .roundMsg =>
    let cc := ctrlGet t c.id
    if !cc.running then (t, false)
    else
      let t1 := { t with emitted := t.emitted ++ [(cc.roundGameId, cc.roundNumber, m.timestamp)] }
      (ctrlSet t1 c.id { cc with roundGameId := cc.gameId, roundNumber := cc.roundNumber + 1 },
       false)
  | .skip => (t, false)

def ctrlEmbeds (c : Channel) (m : Message) :
    Ctrl → Nat → List Embed → Ctrl
  | t, _, [] => t
  | t, idx, e :: rest =>
    let r := ctrlEmbed t c m idx e
    if r.2 then r.1 else ctrlEmbeds c m r.1 (idx + 1) rest

def ctrlMessage (t : Ctrl) (c : Channel) (m : Message) : Ctrl :=
  if m.author.id != botAuthorID then t
  else if m.embeds.isEmpty then t
  else ctrlEmbeds c m t 0 m.embeds

def ctrlExport (t : Ctrl) (backup : Backup) : Ctrl :=
  backup.messages.foldl (fun t2 m => ctrlMessage t2 backup.channel m) t

def ctrlArchives (t : Ctrl) (backups : List Backup) : Ctrl :=
  backups.foldl ctrlExport t

/-- An archive set is well-formed when no "Started a new" embed ever fires
on a channel whose current game context was not opened by the countdown
handler (in the observed archives every session starts with its countdown
announcement). -/
def wellFormed (backups : List Backup) : Bool :=
  (ctrlArchives {} backups).wf

/-- The projection: the processor agrees with a control state on the game
id counter and every channel's control fields. -/
def Agrees (ps : PState) (t : Ctrl) : Prop :=
  ps.lastKnownGameID = t.counter ∧
  ∀ cid,
    (getChan ps cid).lastKnownIsGameRunning = (ctrlGet t cid).running ∧
    (getChan ps cid).lastKnownGame.id = (ctrlGet t cid).gameId ∧
    (getChan ps cid).lastKnownRound.gameID = (ctrlGet t cid).roundGameId ∧
    (getChan ps cid).lastKnownRound.roundNumber = (ctrlGet t cid).roundNumber

/-- The control invariants used for round contiguity: round context and
game id agree, running channels have a countdown-assigned (non-zero) id,
ids are bounded by the counter and distinct across channels, every
emitted round key is a live id, and per game the emitted round numbers
are exactly 0,1,...,n-1 (tracked by the channel's round number while the
game is current). -/
def ctrlNums (t : Ctrl) (g : Nat) : List Nat :=
  (t.emitted.filter fun k => k.1 == g).map fun k => k.2.1

def CtrlInv (t : Ctrl) : Prop :=
  (∀ cid, (ctrlGet t cid).roundGameId = (ctrlGet t cid).gameId) ∧
  (∀ cid, (ctrlGet t cid).running = true → (ctrlGet t cid).gameId ≠ 0) ∧
  (∀ cid, (ctrlGet t cid).gameId ≤ t.counter) ∧
  (∀ c1 c2, (ctrlGet t c1).gameId ≠ 0 → (ctrlGet t c1).gameId = (ctrlGet t c2).gameId → c1 = c2) ∧
  (∀ k, k ∈ t.emitted → 1 ≤ k.1 ∧ k.1 ≤ t.counter) ∧
  (∀ cid, (ctrlGet t cid).gameId = 0 ∨
     ctrlNums t (ctrlGet t cid).gameId = List.range (ctrlGet t cid).roundNumber) ∧
  (∀ g, ∃ n, ctrlNums t g = List.range n)

/-! ## Shared concrete fixtures (a minimal single-channel archive) -/

def demoBot : DiscordUser := ⟨botAuthorID, "Rumble Royale"⟩

def demoChannel : Channel := ⟨"C1"⟩

def demoCountdownEmbed : Embed :=
  { title := "Rumble Royale hosted by zed",
    description := "Era: Classic\n\nClick to join." }

def demoStartEmbed : Embed :=
  { title := "Started a new Rumble Royale session",
    description := "**Prize:** 6000\n1.5x XP multiplier!" }

def demoRoundEmbed : Embed := { title := "__Round 1__" }

def demoWinnerEmbed : Embed :=
  { title := "Crown **__WINNER!__**", description := "**technobean**" }

def demoCountdownMsg : Message :=
  { id := "m1", timestamp := 10, author := demoBot, embeds := [demoCountdownEmbed] }

def demoStartMsg : Message :=
  { id := "m2", timestamp := 20, author := demoBot, embeds := [demoStartEmbed] }

def demoRoundMsg : Message :=
  { id := "m3", timestamp := 30, author := demoBot, embeds := [demoRoundEmbed] }

def demoWinnerMsg : Message :=
  { id := "m4", timestamp := 40, author := demoBot, embeds := [demoWinnerEmbed] }

/-- Countdown, game start, one round narrative. -/
def demoArch : List Backup :=
  [⟨demoChannel, [demoCountdownMsg, demoStartMsg, demoRoundMsg]⟩]

/-- A channel state in CountingDown: game 1 created by the countdown
handler, not yet started. -/
def cdChannelState : ChannelState :=
  { lastKnownGame := { id := 1, era := "Classic", discordChannelID := "C1" },
    lastKnownRound := { gameID := 1 } }

/-- A processor whose channel C1 is CountingDown. -/
def cdPState : PState := setChan { lastKnownGameID := 1 } "C1" cdChannelState

/-- Does a result carry exactly this error?  (PState contains a function
field, so results are inspected rather than compared.) -/
def isErr (r : Except ProcErr PState) (e : ProcErr) : Bool :=
  match r with
  | .error e2 => e2 == e
  | .ok _ => false

/-- The ok payload of a result (fresh empty processor on error); lets a
witness name the concrete successor state of a successful call. -/
def okOrDefault (r : Except ProcErr PState) : PState :=
  match r with
  | .ok s => s
  | .error _ => freshPState {}

/-- Is a walk outcome one of the two the spec's loader contract allows? -/
def isRecordedOrReadErr : WalkRes → Bool
  | .recorded _ => true
  | .readErr => true
  | _ => false

/-- The Game/UserMention backfill fixture: a game and a mention created
with host name "alex" while the actor id was unknown. -/
def bfGame : Game := { id := 1, hostUserName := some "alex", discordChannelID := "C1" }

def bfMention : InteractionUserMention := { id := 1, userName := "alex" }

def bfDB : DB := { games := [bfGame], userMentions := [bfMention] }

/-! # Theorems -/

/-! ## Monad reduction lemmas for Except -/

@[simp] theorem except_bind_ok {ε α β : Type} (a : α) (f : α → Except ε β) :
    (Except.ok a >>= f : Except ε β) = f a := rfl

@[simp] theorem except_bind_err {ε α β : Type} (e : ε) (f : α → Except ε β) :
    (Except.error e >>= f : Except ε β) = .error e := rfl

@[simp] theorem except_pure_eq {ε α : Type} (a : α) :
    (pure a : Except ε α) = .ok a := rfl

@[simp] theorem except_throw_eq {ε α : Type} (e : ε) :
    (throw e : Except ε α) = .error e := rfl

@[simp] theorem except_map_ok {ε α β : Type} (f : α → β) (a : α) :
    (Except.ok a : Except ε α).map f = .ok (f a) := rfl

@[simp] theorem except_map_err {ε α β : Type} (f : α → β) (e : ε) :
    (Except.error e : Except ε α).map f = .error e := rfl

@[simp] theorem except_isOk_ok {ε α : Type} (a : α) :
    (Except.ok a : Except ε α).isOk = true := rfl

@[simp] theorem except_isOk_err {ε α : Type} (e : ε) :
    (Except.error e : Except ε α).isOk = false := rfl

/-! ## Small facts about the store primitives -/

@[simp] theorem saveUser_observations (db : DB) (u : DUser) :
    (saveUser db u).observations = db.observations := by
  unfold saveUser; split <;> rfl

@[simp] theorem saveUser_games (db : DB) (u : DUser) :
    (saveUser db u).games = db.games := by
  unfold saveUser; split <;> rfl

@[simp] theorem saveUser_rounds (db : DB) (u : DUser) :
    (saveUser db u).rounds = db.rounds := by
  unfold saveUser; split <;> rfl

@[simp] theorem saveUser_userMentions (db : DB) (u : DUser) :
    (saveUser db u).userMentions = db.userMentions := by
  unfold saveUser; split <;> rfl

@[simp] theorem saveUser_items (db : DB) (u : DUser) :
    (saveUser db u).items = db.items := by
  unfold saveUser; split <;> rfl

@[simp] theorem saveUser_interactionMessages (db : DB) (u : DUser) :
    (saveUser db u).interactionMessages = db.interactionMessages := by
  unfold saveUser; split <;> rfl

@[simp] theorem saveUser_interactions (db : DB) (u : DUser) :
    (saveUser db u).interactions = db.interactions := by
  unfold saveUser; split <;> rfl

/-- lookupUserID on success: only the users table may change (a created
row), the returned user carries the requested id. -/
theorem lookupUserID_ok (db db2 : DB) (id : String) (u : DUser)
    (h : lookupUserID db id = .ok (u, db2)) :
    u.id = id ∧
    db2.observations = db.observations ∧ db2.games = db.games ∧
    db2.rounds = db.rounds ∧ db2.userMentions = db.userMentions ∧
    db2.items = db.items ∧ db2.interactionMessages = db.interactionMessages ∧
    db2.interactions = db.interactions := by
  unfold lookupUserID at h
  by_cases hid : id = ""
  · simp [hid] at h
  · simp only [hid, if_false] at h
    cases hfind : db.users.find? (fun v => v.id == id) with
    | some u0 =>
      rw [hfind] at h
      cases h
      have := List.find?_some hfind
      simp only [beq_iff_eq] at this
      exact ⟨this, rfl, rfl, rfl, rfl, rfl, rfl, rfl⟩
    | none =>
      rw [hfind] at h
      cases h
      simp

/-! ## C9: the archive loader walk contract -/

/-- Claim C9 counterexample: a .json entry that opens and decodes to an
empty messages array makes walkFunc panic (Messages[0] out of range),
which is neither a recorded timestamp nor a ReadError. -/
theorem claim_C9_counterexample :
    walkFunc { name := "empty.json", decoded := some ([] : List Nat) } = .panicked ∧
    isRecordedOrReadErr (walkFunc { name := "empty.json", decoded := some ([] : List Nat) }) = false := by
  exact ⟨rfl, rfl⟩

/-- C9 (amended): for every enumerated .json file (no propagated walk
error, not a directory), walkFunc returns the first message timestamp or
a ReadError — except that a file whose decoded messages array is empty
panics with an out-of-range index instead. -/
theorem claim_C9 (f : WalkEntry) (h1 : f.errIn = false) (h2 : f.isDir = false)
    (h3 : goEqualFold (goExt f.name) ".json" = true) :
    walkFunc f = .readErr ∨
    (walkFunc f = .panicked ∧ f.decoded = some []) ∨
    (∃ t rest, f.decoded = some (t :: rest) ∧ walkFunc f = .recorded t) := by
  unfold walkFunc
  rw [h1, h2, h3]
  simp only [Bool.false_or, if_false, Bool.not_true]
  cases hop : f.openOk with
  | false => simp
  | true =>
    simp only [Bool.not_true, if_false, Bool.false_eq_true]
    cases hdec : f.decoded with
    | none => simp
    | some l =>
      cases l with
      | nil => simp
      | cons t rest => right; right; exact ⟨t, rest, rfl, rfl⟩

/-- C9 witness at a concrete entry. -/
theorem claim_C9_witness :
    walkFunc { name := "a.json", decoded := some [5] } = .readErr ∨
    (walkFunc { name := "a.json", decoded := some [5] } = .panicked ∧
      ({ name := "a.json", decoded := some [5] } : WalkEntry).decoded = some []) ∨
    (∃ t rest, ({ name := "a.json", decoded := some [5] } : WalkEntry).decoded = some (t :: rest) ∧
      walkFunc { name := "a.json", decoded := some [5] } = .recorded t) :=
  claim_C9 { name := "a.json", decoded := some [5] } rfl rfl rfl

/-! ## C1: round/winner messages with no running game, at the embed loop -/

/-- Claim C1 counterexample: in CountingDown (a game created by the
countdown handler, not yet started, so no active running game), a round
message is NOT ignored with a warning: the embed loop aborts the replay
with the wrapped fatal inconsistent-state error. -/
theorem claim_C1_counterexample :
    (getChan cdPState "C1").lastKnownIsGameRunning = false ∧
    (getChan cdPState "C1").lastKnownGame.id = 1 ∧
    embedStep cdPState demoChannel demoRoundMsg 0 demoRoundEmbed
      = .error (.atMessage "m3" .roundNoGame) := ⟨rfl, rfl, rfl⟩

/-- C1 (amended): at the embed loop, with no running game: a winner
message never surfaces an error - its handler's inconsistent-state error
is discarded by the labeled break that leaves the loop before the error
check - so it is logged and skipped with the state unchanged whether or
not a game context exists; a round message is ignored exactly when no
game has ever been observed on the channel (LastKnownGame.ID = 0), and
once any game context exists - CountingDown, or Idle after a completed
game - it aborts the replay with the wrapped fatal inconsistent-state
error. -/
theorem claim_C1 (ps : PState) (c : Channel) (m : Message) (idx : Nat) (e : Embed)
    (hrun : (getChan ps c.id).lastKnownIsGameRunning = false) :
    (classifyEmbed m.interaction.isSome idx e = .winner →
      embedStep ps c m idx e = .ok (ps, true)) ∧
    (classifyEmbed m.interaction.isSome idx e = .roundMsg →
      ((getChan ps c.id).lastKnownGame.id = 0 →
        embedStep ps c m idx e = .ok (ps, false)) ∧
      ((getChan ps c.id).lastKnownGame.id ≠ 0 →
        embedStep ps c m idx e = .error (.atMessage m.id .roundNoGame))) := by
  constructor
  · intro hcl
    unfold embedStep
    rw [hcl]
    cases hp : processGameWinner ps c m with
    | error e2 => simp only [hp]
    | ok x =>
      have hx : x = ps := by
        unfold processGameWinner at hp
        simp only [hrun, Bool.not_false, if_true] at hp
        by_cases h0 : (getChan ps c.id).lastKnownGame.id = 0
        · rw [if_pos h0] at hp
          simp only [Except.ok.injEq] at hp
          exact hp.symm
        · rw [if_neg h0] at hp
          simp at hp
      simp only [hp, hx]
  · intro hcl
    unfold embedStep
    rw [hcl]
    constructor
    · intro h0
      have hp : processRound ps c m e = .ok ps := by
        unfold processRound
        simp only [hrun, Bool.not_false, if_true]
        rw [if_pos h0]
      rw [hp]
      rfl
    · intro hnz
      have hp : processRound ps c m e = .error .roundNoGame := by
        unfold processRound
        simp only [hrun, Bool.not_false, if_true]
        rw [if_neg hnz]
      rw [hp]
      rfl

/-- C1 witness: a winner embed in CountingDown is skipped with state
unchanged; a round embed is ignored on a fresh channel and aborts in
CountingDown. -/
theorem claim_C1_witness :
    embedStep cdPState demoChannel demoWinnerMsg 0 demoWinnerEmbed = .ok (cdPState, true) ∧
    embedStep (freshPState {}) demoChannel demoRoundMsg 0 demoRoundEmbed
      = .ok (freshPState {}, false) ∧
    embedStep cdPState demoChannel demoRoundMsg 0 demoRoundEmbed
      = .error (.atMessage "m3" .roundNoGame) :=
  ⟨(claim_C1 cdPState demoChannel demoWinnerMsg 0 demoWinnerEmbed rfl).1 rfl,
   ((claim_C1 (freshPState {}) demoChannel demoRoundMsg 0 demoRoundEmbed rfl).2 rfl).1 rfl,
   ((claim_C1 cdPState demoChannel demoRoundMsg 0 demoRoundEmbed rfl).2 rfl).2 (by decide)⟩

/-! ## C5: observe is idempotent on an already-latest name -/

/-- C5 (confirmed): when the actor exists and its most recent stored
observation already carries the display name, observeUserName writes
nothing and returns the state unchanged. -/
theorem claim_C5 (ps : PState) (m : Message) (id name : String) (u : DUser)
    (hid : id ≠ "") (hu : u ∈ ps.db.users) (huid : u.id = id)
    (o : UserNameObservation) (hlast : lastObsForUser ps.db id = some o)
    (hname : o.name = name) :
    observeUserName ps m id name = .ok ps := by
  have hfind : (ps.db.users.find? (fun v => v.id == id)).isSome := by
    rw [List.find?_isSome]
    exact ⟨u, hu, by simp [huid]⟩
  obtain ⟨u0, hu0⟩ := Option.isSome_iff_exists.mp hfind
  unfold observeUserName lookupUserID
  simp only [hid, if_false, hu0]
  simp [hlast, hname]

/-- C5 witness: a store holding actor U1 whose latest observation is
"alex"; observing "alex" again for U1 is a no-op. -/
theorem claim_C5_witness :
    observeUserName
      (freshPState { users := [⟨"U1"⟩], observations := [⟨"U1", "alex", 3⟩] })
      demoRoundMsg "U1" "alex" =
    .ok (freshPState { users := [⟨"U1"⟩], observations := [⟨"U1", "alex", 3⟩] }) :=
  claim_C5 _ demoRoundMsg "U1" "alex" ⟨"U1"⟩ (by decide)
    (by simp [freshPState]) rfl ⟨"U1", "alex", 3⟩ rfl rfl

/-! ## State-access lemmas -/

@[simp] theorem getChan_setChan_same (ps : PState) (cid : String) (cs : ChannelState) :
    getChan (setChan ps cid cs) cid = cs := by
  simp [getChan, setChan]

theorem getChan_setChan_other (ps : PState) (cid cid2 : String) (cs : ChannelState)
    (h : cid2 ≠ cid) : getChan (setChan ps cid cs) cid2 = getChan ps cid2 := by
  simp [getChan, setChan, h]

@[simp] theorem setChan_db (ps : PState) (cid : String) (cs : ChannelState) :
    (setChan ps cid cs).db = ps.db := rfl

@[simp] theorem getChan_withDb (ps : PState) (d : DB) (cid : String) :
    getChan { ps with db := d } cid = getChan ps cid := rfl

@[simp] theorem setChan_counter (ps : PState) (cid : String) (cs : ChannelState) :
    (setChan ps cid cs).lastKnownGameID = ps.lastKnownGameID := rfl

@[simp] theorem ctrlGet_ctrlSet_same (t : Ctrl) (cid : String) (cc : CtrlChan) :
    ctrlGet (ctrlSet t cid cc) cid = cc := by
  simp [ctrlGet, ctrlSet]

theorem ctrlGet_ctrlSet_other (t : Ctrl) (cid cid2 : String) (cc : CtrlChan)
    (h : cid2 ≠ cid) : ctrlGet (ctrlSet t cid cc) cid2 = ctrlGet t cid2 := by
  simp [ctrlGet, ctrlSet, h]

/-! ## Freshness of auto-increment ids -/

theorem le_foldr_max (ids : List Nat) (x : Nat) (h : x ∈ ids) :
    x ≤ ids.foldr max 0 := by
  induction ids with
  | nil => cases h
  | cons a t ih =>
    rcases List.mem_cons.mp h with rfl | hm
    · exact Nat.le_max_left _ _
    · exact Nat.le_trans (ih hm) (Nat.le_max_right _ _)

theorem nextID_not_mem (ids : List Nat) : nextID ids ∉ ids := by
  intro h
  have := le_foldr_max ids _ h
  unfold nextID at this
  omega

theorem nextID_pos (ids : List Nat) : 1 ≤ nextID ids := by
  unfold nextID; omega

/-! ## DBInv preservation through the store primitives -/

theorem dbInv_saveUser (db : DB) (u : DUser) (h : DBInv db) : DBInv (saveUser db u) := by
  obtain ⟨hu, hi, hm, hg⟩ := h
  unfold saveUser
  by_cases hp : db.users.any (fun v => v.id == u.id)
  · simp only [hp, if_true]
    refine ⟨?_, hi, hm, hg⟩
    have hsame : (db.users.map fun v => if v.id == u.id then u else v).map DUser.id =
        db.users.map DUser.id := by
      rw [List.map_map]
      apply List.map_congr_left
      intro v _
      simp only [Function.comp_apply]
      by_cases hv : v.id = u.id
      · simp [hv]
      · simp [hv]
    rw [hsame]
    exact hu
  · simp only [hp, if_false]
    have hnot : u.id ∉ db.users.map DUser.id := by
      intro hmem
      obtain ⟨v, hv, hveq⟩ := List.mem_map.mp hmem
      exact hp (List.any_eq_true.mpr ⟨v, hv, by simp [hveq]⟩)
    exact ⟨by simp [List.nodup_append, hu, hnot], hi, hm, hg⟩

theorem dbInv_lookupUserID (db db2 : DB) (id : String) (u : DUser)
    (h : lookupUserID db id = .ok (u, db2)) (hinv : DBInv db) : DBInv db2 := by
  unfold lookupUserID at h
  by_cases hid : id = ""
  · simp [hid] at h
  · simp only [hid, if_false] at h
    cases hfind : db.users.find? (fun v => v.id == id) with
    | some u0 => rw [hfind] at h; cases h; exact hinv
    | none => rw [hfind] at h; cases h; exact dbInv_saveUser db ⟨id⟩ hinv

/-- The full effect bundle of a successful observeUserName: channels and
counter untouched; rounds, interactions, items and interaction messages
untouched; game ids untouched (the backfill rewrites host ids in place);
the dedup invariants preserved. -/
theorem observeUserName_ok (ps ps' : PState) (m : Message) (id name : String)
    (h : observeUserName ps m id name = .ok ps') :
    ps'.channels = ps.channels ∧
    ps'.lastKnownGameID = ps.lastKnownGameID ∧
    ps'.db.rounds = ps.db.rounds ∧
    ps'.db.games.map Game.id = ps.db.games.map Game.id ∧
    ps'.db.items = ps.db.items ∧
    ps'.db.interactionMessages = ps.db.interactionMessages ∧
    ps'.db.interactions = ps.db.interactions ∧
    (DBInv ps.db → DBInv ps'.db) := by
  unfold observeUserName at h
  cases hl : lookupUserID ps.db id with
  | error e => rw [hl] at h; simp at h
  | ok p =>
    obtain ⟨u, db1⟩ := p
    obtain ⟨huid, hobs, hgames, hrounds, hment, hitems, him, hint⟩ :=
      lookupUserID_ok ps.db db1 id u hl
    have hdb1inv := dbInv_lookupUserID ps.db db1 id u hl
    have hgid : db1.games.map Game.id = ps.db.games.map Game.id := by rw [hgames]
    rw [hl] at h
    simp only [except_bind_ok] at h
    by_cases hskip : (match lastObsForUser db1 id with
        | some last => last.name == name
        | none => false) = true
    · rw [if_pos hskip] at h
      simp only [except_pure_eq, Except.ok.injEq] at h
      subst h
      exact ⟨rfl, rfl, hrounds, hgid, hitems, him, hint, hdb1inv⟩
    · rw [if_neg hskip] at h
      have hmapid : ∀ gs : List Game,
          (gs.map fun g =>
            if g.hostUserID.isNone && g.hostUserName == some name then
              { g with hostUserID := some u.id } else g).map Game.id = gs.map Game.id := by
        intro gs
        rw [List.map_map]
        apply List.map_congr_left
        intro g _
        simp only [Function.comp_apply]
        split <;> rfl
      by_cases hflt : 0 < (db1.userMentions.filter fun r =>
          r.userID.isNone && r.userName == name).length
      · rw [if_pos hflt] at h
        simp only [except_pure_eq, Except.ok.injEq] at h
        subst h
        refine ⟨rfl, rfl, hrounds, ?_, hitems, him, hint, ?_⟩
        · rw [hmapid]
          exact hgid
        · intro hinv
          obtain ⟨h1, h2, h3, h4⟩ := hdb1inv hinv
          refine ⟨h1, h2, h3, ?_⟩
          rw [hmapid]
          exact h4
      · rw [if_neg hflt] at h
        by_cases hmen : (name == "menardi") = true
        · rw [if_pos hmen] at h
          simp at h
        · rw [if_neg hmen] at h
          simp only [except_pure_eq, Except.ok.injEq] at h
          subst h
          refine ⟨rfl, rfl, hrounds, ?_, hitems, him, hint, ?_⟩
          · rw [hmapid]
            exact hgid
          · intro hinv
            obtain ⟨h1, h2, h3, h4⟩ := hdb1inv hinv
            refine ⟨h1, h2, h3, ?_⟩
            rw [hmapid]
            exact h4

/-! ## Field/invariant bundles for the remaining store primitives -/

theorem lookupItem_fields (db : DB) (name : String) :
    (lookupItem db name).2.rounds = db.rounds ∧
    (lookupItem db name).2.games = db.games ∧
    (lookupItem db name).2.users = db.users ∧
    (lookupItem db name).2.observations = db.observations ∧
    (lookupItem db name).2.userMentions = db.userMentions ∧
    (lookupItem db name).2.interactionMessages = db.interactionMessages ∧
    (lookupItem db name).2.interactions = db.interactions ∧
    (DBInv db → DBInv (lookupItem db name).2) := by
  unfold lookupItem
  cases hfind : db.items.find? (fun i => i.name == name) with
  | some i => exact ⟨rfl, rfl, rfl, rfl, rfl, rfl, rfl, fun h => h⟩
  | none =>
    refine ⟨rfl, rfl, rfl, rfl, rfl, rfl, rfl, fun h => ?_⟩
    obtain ⟨h1, h2, h3, h4⟩ := h
    have hnot : name ∉ db.items.map Item.name := by
      intro hmem
      obtain ⟨it, hit, hteq⟩ := List.mem_map.mp hmem
      have := List.find?_eq_none.mp hfind it hit
      simp [hteq] at this
    exact ⟨h1, by simp [List.nodup_append, h2, hnot], h3, h4⟩

theorem lookupInteractionMessage_fields (db : DB) (text event : String) :
    (lookupInteractionMessage db text event).2.rounds = db.rounds ∧
    (lookupInteractionMessage db text event).2.games = db.games ∧
    (lookupInteractionMessage db text event).2.users = db.users ∧
    (lookupInteractionMessage db text event).2.observations = db.observations ∧
    (lookupInteractionMessage db text event).2.userMentions = db.userMentions ∧
    (lookupInteractionMessage db text event).2.items = db.items ∧
    (lookupInteractionMessage db text event).2.interactions = db.interactions ∧
    (DBInv db → DBInv (lookupInteractionMessage db text event).2) := by
  unfold lookupInteractionMessage
  cases hfind : db.interactionMessages.find? (fun i => i.text == text && i.event == event) with
  | some i => exact ⟨rfl, rfl, rfl, rfl, rfl, rfl, rfl, fun h => h⟩
  | none =>
    refine ⟨rfl, rfl, rfl, rfl, rfl, rfl, rfl, fun h => ?_⟩
    obtain ⟨h1, h2, h3, h4⟩ := h
    have hnot : (text, event) ∉ db.interactionMessages.map fun i => (i.text, i.event) := by
      intro hmem
      obtain ⟨im, him, himeq⟩ := List.mem_map.mp hmem
      have := List.find?_eq_none.mp hfind im him
      have ht : im.text = text := congrArg Prod.fst himeq
      have he : im.event = event := congrArg Prod.snd himeq
      simp [ht, he] at this
    exact ⟨h1, h2, by simp [List.nodup_append, h3, hnot], h4⟩

theorem saveGame_fields (db : DB) (g : Game) (hnz : g.id ≠ 0) :
    (saveGame db g).1 = g ∧
    (saveGame db g).2.rounds = db.rounds ∧
    (saveGame db g).2.users = db.users ∧
    (saveGame db g).2.observations = db.observations ∧
    (saveGame db g).2.userMentions = db.userMentions ∧
    (saveGame db g).2.items = db.items ∧
    (saveGame db g).2.interactionMessages = db.interactionMessages ∧
    (saveGame db g).2.interactions = db.interactions ∧
    (∀ i, i ∈ (saveGame db g).2.games.map Game.id ↔ i ∈ db.games.map Game.id ∨ i = g.id) ∧
    (DBInv db → DBInv (saveGame db g).2) := by
  unfold saveGame
  rw [if_neg hnz]
  by_cases hp : db.games.any (fun h2 => h2.id == g.id) = true
  · rw [if_pos hp]
    have hgid_mem : g.id ∈ db.games.map Game.id := by
      obtain ⟨h0, hh0, hh0e⟩ := List.any_eq_true.mp hp
      exact List.mem_map.mpr ⟨h0, hh0, beq_iff_eq.mp hh0e⟩
    have hsame : (db.games.map fun h2 => if h2.id == g.id then g else h2).map Game.id =
        db.games.map Game.id := by
      rw [List.map_map]
      apply List.map_congr_left
      intro h2 _
      simp only [Function.comp_apply]
      by_cases hv : h2.id = g.id
      · simp [hv]
      · simp [hv]
    refine ⟨rfl, rfl, rfl, rfl, rfl, rfl, rfl, rfl, ?_, ?_⟩
    · intro i
      rw [hsame]
      constructor
      · exact fun hi => Or.inl hi
      · rintro (hi | rfl)
        · exact hi
        · exact hgid_mem
    · intro ⟨h1, h2, h3, h4⟩
      exact ⟨h1, h2, h3, by rw [hsame]; exact h4⟩
  · rw [if_neg hp]
    have hnot : g.id ∉ db.games.map Game.id := by
      intro hmem
      obtain ⟨h0, hh0, hh0e⟩ := List.mem_map.mp hmem
      exact hp (List.any_eq_true.mpr ⟨h0, hh0, by simp [hh0e]⟩)
    refine ⟨rfl, rfl, rfl, rfl, rfl, rfl, rfl, rfl, ?_, ?_⟩
    · intro i
      simp
    · intro ⟨h1, h2, h3, h4⟩
      exact ⟨h1, h2, h3, by simp [List.nodup_append, h4, hnot]⟩

theorem createRound_fields (db : DB) (r : Round) :
    (createRound db r).1.gameID = r.gameID ∧
    (createRound db r).1.roundNumber = r.roundNumber ∧
    (createRound db r).1.postTime = r.postTime ∧
    (createRound db r).2.rounds = db.rounds ++ [(createRound db r).1] ∧
    (createRound db r).2.games = db.games ∧
    (createRound db r).2.users = db.users ∧
    (createRound db r).2.observations = db.observations ∧
    (createRound db r).2.userMentions = db.userMentions ∧
    (createRound db r).2.items = db.items ∧
    (createRound db r).2.interactionMessages = db.interactionMessages ∧
    (createRound db r).2.interactions = db.interactions ∧
    (DBInv db → DBInv (createRound db r).2) := by
  unfold createRound
  exact ⟨rfl, rfl, rfl, rfl, rfl, rfl, rfl, rfl, rfl, rfl, rfl, fun h => h⟩

theorem createMentions_loop (ms : List InteractionUserMention) (acc : List Nat × DB) :
    (ms.foldl createMentionStep acc).2.rounds = acc.2.rounds ∧
    (ms.foldl createMentionStep acc).2.games = acc.2.games ∧
    (ms.foldl createMentionStep acc).2.users = acc.2.users ∧
    (ms.foldl createMentionStep acc).2.observations = acc.2.observations ∧
    (ms.foldl createMentionStep acc).2.items = acc.2.items ∧
    (ms.foldl createMentionStep acc).2.interactionMessages = acc.2.interactionMessages ∧
    (DBInv acc.2 → DBInv (ms.foldl createMentionStep acc).2) := by
  induction ms generalizing acc with
  | nil => exact ⟨rfl, rfl, rfl, rfl, rfl, rfl, fun h => h⟩
  | cons m rest ih =>
    rw [List.foldl_cons]
    have hstep : (createMentionStep acc m).2.rounds = acc.2.rounds ∧
        (createMentionStep acc m).2.games = acc.2.games ∧
        (createMentionStep acc m).2.users = acc.2.users ∧
        (createMentionStep acc m).2.observations = acc.2.observations ∧
        (createMentionStep acc m).2.items = acc.2.items ∧
        (createMentionStep acc m).2.interactionMessages = acc.2.interactionMessages ∧
        (DBInv acc.2 → DBInv (createMentionStep acc m).2) := by
      unfold createMentionStep
      exact ⟨rfl, rfl, rfl, rfl, rfl, rfl, fun ⟨h1, h2, h3, h4⟩ => ⟨h1, h2, h3, h4⟩⟩
    obtain ⟨s1, s2, s3, s4, s5, s6, s7⟩ := hstep
    obtain ⟨i1, i2, i3, i4, i5, i6, i7⟩ := ih (createMentionStep acc m)
    exact ⟨by rw [i1, s1], by rw [i2, s2], by rw [i3, s3], by rw [i4, s4],
           by rw [i5, s5], by rw [i6, s6], fun h => i7 (s7 h)⟩

theorem storeInteraction_fields (db : DB) (rid mid : Nat)
    (ms : List InteractionUserMention) (items : List Item) :
    (storeInteraction db rid mid ms items).rounds = db.rounds ∧
    (storeInteraction db rid mid ms items).games = db.games ∧
    (storeInteraction db rid mid ms items).users = db.users ∧
    (storeInteraction db rid mid ms items).observations = db.observations ∧
    (storeInteraction db rid mid ms items).items = db.items ∧
    (storeInteraction db rid mid ms items).interactionMessages = db.interactionMessages ∧
    (DBInv db → DBInv (storeInteraction db rid mid ms items)) := by
  unfold storeInteraction
  obtain ⟨c1, c2, c3, c4, c5, c6, c7⟩ := createMentions_loop ms ([], db)
  refine ⟨c1, c2, c3, c4, c5, c6, fun h => ?_⟩
  obtain ⟨h1, h2, h3, h4⟩ := c7 h
  exact ⟨h1, h2, h3, h4⟩

theorem extractItems_loop (mts : List Submatch) (acc : String × List Item × DB) :
    (mts.foldl extractItemStep acc).2.2.rounds = acc.2.2.rounds ∧
    (mts.foldl extractItemStep acc).2.2.games = acc.2.2.games ∧
    (mts.foldl extractItemStep acc).2.2.users = acc.2.2.users ∧
    (mts.foldl extractItemStep acc).2.2.observations = acc.2.2.observations ∧
    (mts.foldl extractItemStep acc).2.2.userMentions = acc.2.2.userMentions ∧
    (mts.foldl extractItemStep acc).2.2.interactionMessages = acc.2.2.interactionMessages ∧
    (mts.foldl extractItemStep acc).2.2.interactions = acc.2.2.interactions ∧
    (DBInv acc.2.2 → DBInv (mts.foldl extractItemStep acc).2.2) := by
  induction mts generalizing acc with
  | nil => exact ⟨rfl, rfl, rfl, rfl, rfl, rfl, rfl, fun h => h⟩
  | cons mt rest ih =>
    rw [List.foldl_cons]
    obtain ⟨l1, l2, l3, l4, l5, l6, l7, l8⟩ :=
      lookupItem_fields acc.2.2 (unescapeMarkdown (mt.get 1))
    obtain ⟨i1, i2, i3, i4, i5, i6, i7, i8⟩ := ih (extractItemStep acc mt)
    have hdb : (extractItemStep acc mt).2.2 = (lookupItem acc.2.2 (unescapeMarkdown (mt.get 1))).2 := rfl
    rw [hdb] at i1 i2 i3 i4 i5 i6 i7 i8
    exact ⟨by rw [i1, l1], by rw [i2, l2], by rw [i3, l3], by rw [i4, l4],
           by rw [i5, l5], by rw [i6, l6], by rw [i7, l7], fun h => i8 (l8 h)⟩

theorem extractItems_ok (db db2 : DB) (text t2 : String) (its : List Item)
    (h : extractItems db text = .ok (t2, its, db2)) :
    db2.rounds = db.rounds ∧ db2.games = db.games ∧ db2.users = db.users ∧
    db2.observations = db.observations ∧ db2.userMentions = db.userMentions ∧
    db2.interactionMessages = db.interactionMessages ∧
    db2.interactions = db.interactions ∧
    (DBInv db → DBInv db2) := by
  unfold extractItems at h
  by_cases hlen : (reFindAll rxItemFormatted text).length > 1
  · simp [hlen] at h
  · simp only [hlen, if_false, Except.ok.injEq] at h
    obtain ⟨e1, e2, e3, e4, e5, e6, e7, e8⟩ :=
      extractItems_loop (reFindAll rxItemFormatted text) (text, [], db)
    have hdb2 : db2 = ((reFindAll rxItemFormatted text).foldl extractItemStep (text, [], db)).2.2 := by
      rw [h]
    rw [hdb2]
    exact ⟨e1, e2, e3, e4, e5, e6, e7, e8⟩

theorem roundLineStep_ok (rid : Nat) (db db2 : DB) (mt : Submatch)
    (h : roundLineStep rid db mt = .ok db2) :
    db2.rounds = db.rounds ∧ db2.games = db.games ∧ db2.users = db.users ∧
    db2.observations = db.observations ∧
    (DBInv db → DBInv db2) := by
  unfold roundLineStep at h
  cases heu : extractUsers db (mt.get 2) with
  | error e => rw [heu] at h; simp at h
  | ok eu =>
    rw [heu] at h
    simp only [except_bind_ok] at h
    cases hei : extractItems db eu.1 with
    | error e => rw [hei] at h; simp at h
    | ok ei =>
      rw [hei] at h
      simp only [except_bind_ok, except_pure_eq, Except.ok.injEq] at h
      obtain ⟨x1, x2, x3, x4, x5, x6, x7, x8⟩ :=
        extractItems_ok db ei.2.2 eu.1 ei.1 ei.2.1 (by rw [hei])
      obtain ⟨m1, m2, m3, m4, m5, m6, m7, m8⟩ :=
        lookupInteractionMessage_fields ei.2.2 ei.1 ""
      obtain ⟨t1, t2, t3, t4, t5, t6, t7⟩ :=
        storeInteraction_fields (lookupInteractionMessage ei.2.2 ei.1 "").2 rid
          (lookupInteractionMessage ei.2.2 ei.1 "").1.id eu.2 ei.2.1
      subst h
      exact ⟨by rw [t1, m1, x1], by rw [t2, m2, x2], by rw [t3, m3, x3],
             by rw [t4, m4, x4], fun hv => t7 (m8 (x8 hv))⟩

theorem roundFold_ok (rid : Nat) (mts : List Submatch) (db db4 : DB)
    (h : mts.foldlM (roundLineStep rid) db = .ok db4) :
    db4.rounds = db.rounds ∧ db4.games = db.games ∧ db4.users = db.users ∧
    db4.observations = db.observations ∧
    (DBInv db → DBInv db4) := by
  induction mts generalizing db with
  | nil =>
    simp only [List.foldlM_nil] at h
    cases h
    exact ⟨rfl, rfl, rfl, rfl, fun hv => hv⟩
  | cons mt rest ih =>
    rw [List.foldlM_cons] at h
    cases hstep : roundLineStep rid db mt with
    | error e => rw [hstep] at h; simp at h
    | ok db1 =>
      rw [hstep] at h
      simp only [except_bind_ok] at h
      obtain ⟨s1, s2, s3, s4, s5⟩ := roundLineStep_ok rid db db1 mt hstep
      obtain ⟨i1, i2, i3, i4, i5⟩ := ih db1 h
      exact ⟨by rw [i1, s1], by rw [i2, s2], by rw [i3, s3], by rw [i4, s4],
             fun hv => i5 (s5 hv)⟩

/-! ## Inversion helpers for Except -/

theorem except_bind_inv {ε α β : Type} (x : Except ε α) (f : α → Except ε β) (b : β)
    (h : (x >>= f) = .ok b) : ∃ a, x = .ok a ∧ f a = .ok b := by
  cases x with
  | ok a => exact ⟨a, rfl, h⟩
  | error e => simp at h

/-! ## Lifecycle handler bundles -/

/-- createNewGame on success: the store is untouched, the counter bumps,
and the channel holds a fresh non-running game context with the new id
and a round-zero context. -/
theorem createNewGame_ok (ps ps' : PState) (c : Channel) (era : String)
    (hostName : Option String) (h : createNewGame ps c era hostName = .ok ps') :
    ps'.db = ps.db ∧
    ps'.lastKnownGameID = ps.lastKnownGameID + 1 ∧
    (getChan ps' c.id).lastKnownIsGameRunning = false ∧
    (getChan ps' c.id).lastKnownGame.id = ps.lastKnownGameID + 1 ∧
    (getChan ps' c.id).lastKnownRound.gameID = ps.lastKnownGameID + 1 ∧
    (getChan ps' c.id).lastKnownRound.roundNumber = 0 ∧
    (∀ cid, cid ≠ c.id → getChan ps' cid = getChan ps cid) := by
  unfold createNewGame at h
  cases hostName with
  | none =>
    simp only [except_pure_eq, except_bind_ok, Except.ok.injEq] at h
    subst h
    refine ⟨rfl, rfl, by simp, by simp, by simp, by simp, ?_⟩
    intro cid hcid
    rw [getChan_setChan_other _ _ _ _ hcid]
    rfl
  | some hn =>
    simp only [] at h
    cases hlk : lookupUserName ps.db hn with
    | error e => rw [hlk] at h; simp at h
    | ok uOpt =>
      rw [hlk] at h
      cases uOpt with
      | some u =>
        simp only [except_bind_ok, except_pure_eq, Except.ok.injEq] at h
        subst h
        refine ⟨rfl, rfl, by simp, by simp, by simp, by simp, ?_⟩
        intro cid hcid
        rw [getChan_setChan_other _ _ _ _ hcid]
        rfl
      | none =>
        simp only [except_bind_ok, except_pure_eq, Except.ok.injEq] at h
        subst h
        refine ⟨rfl, rfl, by simp, by simp, by simp, by simp, ?_⟩
        intro cid hcid
        rw [getChan_setChan_other _ _ _ _ hcid]
        rfl

/-- processGameCountdownStart on success: store untouched, counter bumps,
channel in CountingDown with the fresh id and a round-zero context. -/
theorem processGameCountdownStart_ok (ps ps' : PState) (c : Channel) (m : Message)
    (e : Embed) (h : processGameCountdownStart ps c m e = .ok ps') :
    ps'.db = ps.db ∧
    ps'.lastKnownGameID = ps.lastKnownGameID + 1 ∧
    (getChan ps' c.id).lastKnownIsGameRunning = false ∧
    (getChan ps' c.id).lastKnownGame.id = ps.lastKnownGameID + 1 ∧
    (getChan ps' c.id).lastKnownRound.gameID = ps.lastKnownGameID + 1 ∧
    (getChan ps' c.id).lastKnownRound.roundNumber = 0 ∧
    (∀ cid, cid ≠ c.id → getChan ps' cid = getChan ps cid) := by
  unfold processGameCountdownStart at h
  obtain ⟨ps1, hcg, hpure⟩ := except_bind_inv _ _ _ h
  simp only [except_pure_eq, Except.ok.injEq] at hpure
  subst hpure
  obtain ⟨c1, c2, c3, c4, c5, c6, c7⟩ := createNewGame_ok ps ps1 c _ _ hcg
  refine ⟨c1, c2, by simp [c3], by simp [c4], by simp [c5], by simp [c6], ?_⟩
  intro cid hcid
  rw [getChan_setChan_other _ _ _ _ hcid]
  exact c7 cid hcid

/-- Every successful processGameStart run stores the game through
storeCurrentGame over a channel state that is Running with the incoming
game id and round context. -/
theorem processGameStart_shape (ps ps' : PState) (c : Channel) (m : Message) (e : Embed)
    (h : processGameStart ps c m e = .ok ps') :
    ∃ cs3 : ChannelState,
      cs3.lastKnownIsGameRunning = true ∧
      cs3.lastKnownGame.id = (getChan ps c.id).lastKnownGame.id ∧
      cs3.lastKnownRound = (getChan ps c.id).lastKnownRound ∧
      storeCurrentGame (setChan ps c.id cs3) c = ps' := by
  unfold processGameStart at h
  simp only [] at h
  cases hm1 : reFind rxPrize (mapFilterGraphic e.description) with
  | none =>
    rw [hm1] at h
    simp only [] at h
    cases hm2 : reFind rxXPMultiplier (mapFilterGraphic e.description) with
    | none =>
      rw [hm2] at h
      simp only [except_bind_ok, except_pure_eq, Except.ok.injEq] at h
      refine ⟨_, ?_, ?_, ?_, h⟩ <;> rfl
    | some mt2 =>
      rw [hm2] at h
      simp only [except_pure_eq, except_bind_ok] at h
      by_cases hok2 : goParseFloatOk (mt2.get 1) = true
      · rw [if_pos hok2] at h
        simp only [except_bind_ok, except_pure_eq, Except.ok.injEq] at h
        refine ⟨_, ?_, ?_, ?_, h⟩ <;> rfl
      · rw [if_neg hok2] at h
        simp at h
  | some mt1 =>
    simp only [hm1] at h
    by_cases hok1 : goParseUintOk (mt1.get 1) = true
    · rw [if_pos hok1] at h
      simp only [except_pure_eq, except_bind_ok] at h
      cases hm2 : reFind rxXPMultiplier (mapFilterGraphic e.description) with
      | none =>
        rw [hm2] at h
        simp only [except_bind_ok, except_pure_eq, Except.ok.injEq] at h
        refine ⟨_, ?_, ?_, ?_, h⟩ <;> rfl
      | some mt2 =>
        rw [hm2] at h
        simp only [except_pure_eq, except_bind_ok] at h
        by_cases hok2 : goParseFloatOk (mt2.get 1) = true
        · rw [if_pos hok2] at h
          simp only [except_bind_ok, except_pure_eq, Except.ok.injEq] at h
          refine ⟨_, ?_, ?_, ?_, h⟩ <;> rfl
        · rw [if_neg hok2] at h
          simp at h
    · rw [if_neg hok1] at h
      simp at h

/-- processGameStart on success with a countdown-created current game:
only the games table changes (upsert of the current id), the channel
flips to Running with game id and round context unchanged. -/
theorem processGameStart_ok (ps ps' : PState) (c : Channel) (m : Message) (e : Embed)
    (hnz : (getChan ps c.id).lastKnownGame.id ≠ 0)
    (h : processGameStart ps c m e = .ok ps') :
    ps'.db.rounds = ps.db.rounds ∧
    (∀ i, i ∈ ps'.db.games.map Game.id ↔
      i ∈ ps.db.games.map Game.id ∨ i = (getChan ps c.id).lastKnownGame.id) ∧
    ps'.db.users = ps.db.users ∧
    ps'.db.observations = ps.db.observations ∧
    ps'.db.userMentions = ps.db.userMentions ∧
    ps'.db.items = ps.db.items ∧
    ps'.db.interactionMessages = ps.db.interactionMessages ∧
    (DBInv ps.db → DBInv ps'.db) ∧
    ps'.lastKnownGameID = ps.lastKnownGameID ∧
    (getChan ps' c.id).lastKnownIsGameRunning = true ∧
    (getChan ps' c.id).lastKnownGame.id = (getChan ps c.id).lastKnownGame.id ∧
    (getChan ps' c.id).lastKnownRound = (getChan ps c.id).lastKnownRound ∧
    (∀ cid, cid ≠ c.id → getChan ps' cid = getChan ps cid) := by
  obtain ⟨cs3, hr2, hi2, hrd2, hst⟩ := processGameStart_shape ps ps' c m e h
  have hnz3 : cs3.lastKnownGame.id ≠ 0 := by rw [hi2]; exact hnz
  obtain ⟨g1, g2, g3, g4, g5, g6, g7, g8, g9, g10⟩ :=
    saveGame_fields ps.db cs3.lastKnownGame hnz3
  subst hst
  unfold storeCurrentGame
  simp only [getChan_setChan_same, setChan_db]
  refine ⟨g2, ?_, g3, g4, g5, g6, g7, g10, rfl, ?_, ?_, ?_, ?_⟩
  · intro i
    rw [← hi2]
    exact g9 i
  · simp [hr2]
  · simp [g1, hi2]
  · simp [hrd2]
  · intro cid hcid
    rw [getChan_setChan_other _ _ _ _ hcid, getChan_withDb,
        getChan_setChan_other _ _ _ _ hcid]

/-- processGameWinner on a running game: the games table is upserted at
the current id, the channel leaves Running, round context untouched. -/
theorem processGameWinner_run_ok (ps ps' : PState) (c : Channel) (m : Message)
    (hrun : (getChan ps c.id).lastKnownIsGameRunning = true)
    (hnz : (getChan ps c.id).lastKnownGame.id ≠ 0)
    (h : processGameWinner ps c m = .ok ps') :
    ps'.db.rounds = ps.db.rounds ∧
    (∀ i, i ∈ ps'.db.games.map Game.id ↔
      i ∈ ps.db.games.map Game.id ∨ i = (getChan ps c.id).lastKnownGame.id) ∧
    ps'.db.users = ps.db.users ∧
    ps'.db.observations = ps.db.observations ∧
    ps'.db.userMentions = ps.db.userMentions ∧
    ps'.db.items = ps.db.items ∧
    ps'.db.interactionMessages = ps.db.interactionMessages ∧
    (DBInv ps.db → DBInv ps'.db) ∧
    ps'.lastKnownGameID = ps.lastKnownGameID ∧
    (getChan ps' c.id).lastKnownIsGameRunning = false ∧
    (getChan ps' c.id).lastKnownGame.id = (getChan ps c.id).lastKnownGame.id ∧
    (getChan ps' c.id).lastKnownRound = (getChan ps c.id).lastKnownRound ∧
    (∀ cid, cid ≠ c.id → getChan ps' cid = getChan ps cid) := by
  unfold processGameWinner at h
  simp only [hrun, Bool.not_true, Bool.false_eq_true, if_false, Except.ok.injEq] at h
  have hnz2 : ({ (getChan ps c.id).lastKnownGame with endTime := some m.timestamp }).id ≠ 0 := hnz
  obtain ⟨g1, g2, g3, g4, g5, g6, g7, g8, g9, g10⟩ :=
    saveGame_fields ps.db { (getChan ps c.id).lastKnownGame with endTime := some m.timestamp } hnz2
  subst h
  unfold storeCurrentGame
  simp only [getChan_setChan_same, setChan_db]
  refine ⟨g2, ?_, g3, g4, g5, g6, g7, g10, rfl, by simp, by simp [g1], by simp, ?_⟩
  · intro i
    exact g9 i
  · intro cid hcid
    rw [getChan_setChan_other _ _ _ _ hcid, getChan_setChan_other _ _ _ _ hcid,
        getChan_withDb, getChan_setChan_other _ _ _ _ hcid]

/-- processGameCancelled on a running game: as the winner path. -/
theorem processGameCancelled_run_ok (ps ps' : PState) (c : Channel) (m : Message)
    (hrun : (getChan ps c.id).lastKnownIsGameRunning = true)
    (hnz : (getChan ps c.id).lastKnownGame.id ≠ 0)
    (h : processGameCancelled ps c m = .ok ps') :
    ps'.db.rounds = ps.db.rounds ∧
    (∀ i, i ∈ ps'.db.games.map Game.id ↔
      i ∈ ps.db.games.map Game.id ∨ i = (getChan ps c.id).lastKnownGame.id) ∧
    ps'.db.users = ps.db.users ∧
    ps'.db.observations = ps.db.observations ∧
    ps'.db.userMentions = ps.db.userMentions ∧
    ps'.db.items = ps.db.items ∧
    ps'.db.interactionMessages = ps.db.interactionMessages ∧
    (DBInv ps.db → DBInv ps'.db) ∧
    ps'.lastKnownGameID = ps.lastKnownGameID ∧
    (getChan ps' c.id).lastKnownIsGameRunning = false ∧
    (getChan ps' c.id).lastKnownGame.id = (getChan ps c.id).lastKnownGame.id ∧
    (getChan ps' c.id).lastKnownRound = (getChan ps c.id).lastKnownRound ∧
    (∀ cid, cid ≠ c.id → getChan ps' cid = getChan ps cid) := by
  unfold processGameCancelled at h
  simp only [hrun, Bool.not_true, Bool.false_eq_true, if_false, Except.ok.injEq] at h
  have hnz2 : ({ (getChan ps c.id).lastKnownGame with
      endTime := some m.timestamp, cancelled := true }).id ≠ 0 := hnz
  obtain ⟨g1, g2, g3, g4, g5, g6, g7, g8, g9, g10⟩ :=
    saveGame_fields ps.db { (getChan ps c.id).lastKnownGame with
      endTime := some m.timestamp, cancelled := true } hnz2
  subst h
  unfold storeCurrentGame
  simp only [getChan_setChan_same, setChan_db]
  refine ⟨g2, ?_, g3, g4, g5, g6, g7, g10, rfl, by simp, by simp [g1], by simp, ?_⟩
  · intro i
    exact g9 i
  · intro cid hcid
    rw [getChan_setChan_other _ _ _ _ hcid, getChan_setChan_other _ _ _ _ hcid,
        getChan_withDb, getChan_setChan_other _ _ _ _ hcid]

/-! ## Round-path bundles -/

theorem createRound_gid (db : DB) (r : Round) :
    (createRound db r).1.gameID = r.gameID := rfl

theorem createRound_num (db : DB) (r : Round) :
    (createRound db r).1.roundNumber = r.roundNumber := rfl

theorem si_rounds (db : DB) (rid mid : Nat) (ms : List InteractionUserMention)
    (its : List Item) : (storeInteraction db rid mid ms its).rounds = db.rounds :=
  (storeInteraction_fields db rid mid ms its).1

theorem si_games (db : DB) (rid mid : Nat) (ms : List InteractionUserMention)
    (its : List Item) : (storeInteraction db rid mid ms its).games = db.games :=
  (storeInteraction_fields db rid mid ms its).2.1

theorem si_users (db : DB) (rid mid : Nat) (ms : List InteractionUserMention)
    (its : List Item) : (storeInteraction db rid mid ms its).users = db.users :=
  (storeInteraction_fields db rid mid ms its).2.2.1

theorem si_observations (db : DB) (rid mid : Nat) (ms : List InteractionUserMention)
    (its : List Item) : (storeInteraction db rid mid ms its).observations = db.observations :=
  (storeInteraction_fields db rid mid ms its).2.2.2.1

theorem si_dbinv (db : DB) (rid mid : Nat) (ms : List InteractionUserMention)
    (its : List Item) : DBInv db → DBInv (storeInteraction db rid mid ms its) :=
  (storeInteraction_fields db rid mid ms its).2.2.2.2.2.2

theorem lim_rounds (db : DB) (text event : String) :
    (lookupInteractionMessage db text event).2.rounds = db.rounds :=
  (lookupInteractionMessage_fields db text event).1

theorem lim_games (db : DB) (text event : String) :
    (lookupInteractionMessage db text event).2.games = db.games :=
  (lookupInteractionMessage_fields db text event).2.1

theorem lim_users (db : DB) (text event : String) :
    (lookupInteractionMessage db text event).2.users = db.users :=
  (lookupInteractionMessage_fields db text event).2.2.1

theorem lim_observations (db : DB) (text event : String) :
    (lookupInteractionMessage db text event).2.observations = db.observations :=
  (lookupInteractionMessage_fields db text event).2.2.2.1

theorem lim_dbinv (db : DB) (text event : String) :
    DBInv db → DBInv (lookupInteractionMessage db text event).2 :=
  (lookupInteractionMessage_fields db text event).2.2.2.2.2.2.2

theorem scr_roundsKeys (ps : PState) (c : Channel) :
    (storeCurrentRound ps c).db.rounds.map roundKey
      = ps.db.rounds.map roundKey ++ [roundKey (getChan ps c.id).lastKnownRound] := by
  have hr : (storeCurrentRound ps c).db.rounds
      = ps.db.rounds ++ [(createRound ps.db (getChan ps c.id).lastKnownRound).1] := rfl
  rw [hr, List.map_append]
  rfl

theorem scr_games (ps : PState) (c : Channel) :
    (storeCurrentRound ps c).db.games = ps.db.games := rfl

theorem scr_users (ps : PState) (c : Channel) :
    (storeCurrentRound ps c).db.users = ps.db.users := rfl

theorem scr_observations (ps : PState) (c : Channel) :
    (storeCurrentRound ps c).db.observations = ps.db.observations := rfl

theorem scr_dbinv (ps : PState) (c : Channel) :
    DBInv ps.db → DBInv (storeCurrentRound ps c).db := fun h => h

theorem scr_counter (ps : PState) (c : Channel) :
    (storeCurrentRound ps c).lastKnownGameID = ps.lastKnownGameID := rfl

theorem scr_chan_same (ps : PState) (c : Channel) :
    getChan (storeCurrentRound ps c) c.id
      = { getChan ps c.id with
          lastKnownRound := (createRound ps.db (getChan ps c.id).lastKnownRound).1 } := by
  unfold storeCurrentRound
  simp

theorem scr_chan_other (ps : PState) (c : Channel) (cid : String) (hcid : cid ≠ c.id) :
    getChan (storeCurrentRound ps c) cid = getChan ps cid := by
  unfold storeCurrentRound
  rw [getChan_setChan_other _ _ _ _ hcid]
  rfl

theorem cnr_db (ps : PState) (c : Channel) (n : Nat) :
    (createNewRound ps c n).db = ps.db := rfl

theorem cnr_counter (ps : PState) (c : Channel) (n : Nat) :
    (createNewRound ps c n).lastKnownGameID = ps.lastKnownGameID := rfl

theorem cnr_chan_same (ps : PState) (c : Channel) (n : Nat) :
    getChan (createNewRound ps c n) c.id
      = { getChan ps c.id with
          lastKnownRound :=
            { gameID := (getChan ps c.id).lastKnownGame.id, roundNumber := n } } := by
  unfold createNewRound
  simp

theorem cnr_chan_other (ps : PState) (c : Channel) (n : Nat) (cid : String)
    (hcid : cid ≠ c.id) : getChan (createNewRound ps c n) cid = getChan ps cid := by
  unfold createNewRound
  rw [getChan_setChan_other _ _ _ _ hcid]

/-- processEventRound on a running channel: exactly one round row is
appended, keyed by the pre-call round context stamped with the message
timestamp; games, users and observations are untouched, the dedup
invariant is preserved, and the channel advances to the next round of the
current game. -/
theorem processEventRound_run_ok (ps ps' : PState) (c : Channel) (m : Message) (e : Embed)
    (hrun : (getChan ps c.id).lastKnownIsGameRunning = true)
    (h : processEventRound ps c m e = .ok ps') :
    ps'.db.rounds.map roundKey = ps.db.rounds.map roundKey ++
      [((getChan ps c.id).lastKnownRound.gameID,
        (getChan ps c.id).lastKnownRound.roundNumber, m.timestamp)] ∧
    ps'.db.games = ps.db.games ∧
    ps'.db.users = ps.db.users ∧
    ps'.db.observations = ps.db.observations ∧
    (DBInv ps.db → DBInv ps'.db) ∧
    ps'.lastKnownGameID = ps.lastKnownGameID ∧
    (getChan ps' c.id).lastKnownIsGameRunning = true ∧
    (getChan ps' c.id).lastKnownGame.id = (getChan ps c.id).lastKnownGame.id ∧
    (getChan ps' c.id).lastKnownRound.gameID = (getChan ps c.id).lastKnownGame.id ∧
    (getChan ps' c.id).lastKnownRound.roundNumber
      = (getChan ps c.id).lastKnownRound.roundNumber + 1 ∧
    (∀ cid, cid ≠ c.id → getChan ps' cid = getChan ps cid) := by
  unfold processEventRound at h
  simp only [hrun, Bool.not_true, Bool.false_eq_true, if_false] at h
  cases hsp : splitFirst (mapFilterGraphic e.title) " - " with
  | none =>
    simp only [hsp, except_throw_eq, except_bind_err] at h
    simp at h
  | some p =>
    simp only [hsp, except_pure_eq, except_bind_ok] at h
    obtain ⟨eu, heu, h⟩ := except_bind_inv _ _ _ h
    obtain ⟨ei, hei, h⟩ := except_bind_inv _ _ _ h
    simp only [except_pure_eq, Except.ok.injEq] at h
    obtain ⟨x1, x2, x3, x4, x5, x6, x7, x8⟩ := extractItems_ok _ _ _ _ _ hei
    subst h
    refine ⟨?_, ?_, ?_, ?_, ?_, rfl, ?_, ?_, ?_, ?_, ?_⟩
    · simp only [cnr_db, si_rounds, lim_rounds, x1, scr_roundsKeys, setChan_db,
        getChan_setChan_same, roundKey]
    · simp only [cnr_db, si_games, lim_games, x2, scr_games, setChan_db]
    · simp only [cnr_db, si_users, lim_users, x3, scr_users, setChan_db]
    · simp only [cnr_db, si_observations, lim_observations, x4, scr_observations, setChan_db]
    · intro hv
      exact si_dbinv _ _ _ _ _ (lim_dbinv _ _ _ (x8 (scr_dbinv _ _ hv)))
    · simp only [cnr_chan_same, getChan_withDb, scr_chan_same, getChan_setChan_same, hrun]
    · simp only [cnr_chan_same, getChan_withDb, scr_chan_same, getChan_setChan_same]
    · simp only [cnr_chan_same, getChan_withDb, scr_chan_same, getChan_setChan_same]
    · simp only [cnr_chan_same, getChan_withDb, scr_chan_same, getChan_setChan_same,
        createRound_num]
    · intro cid hcid
      rw [cnr_chan_other _ _ _ _ hcid, getChan_withDb, scr_chan_other _ _ _ hcid,
          getChan_setChan_other _ _ _ _ hcid]

/-- processRound on a running channel: same store and channel effect as
processEventRound (to which dash-titled embeds are dispatched). -/
theorem processRound_run_ok (ps ps' : PState) (c : Channel) (m : Message) (e : Embed)
    (hrun : (getChan ps c.id).lastKnownIsGameRunning = true)
    (h : processRound ps c m e = .ok ps') :
    ps'.db.rounds.map roundKey = ps.db.rounds.map roundKey ++
      [((getChan ps c.id).lastKnownRound.gameID,
        (getChan ps c.id).lastKnownRound.roundNumber, m.timestamp)] ∧
    ps'.db.games = ps.db.games ∧
    ps'.db.users = ps.db.users ∧
    ps'.db.observations = ps.db.observations ∧
    (DBInv ps.db → DBInv ps'.db) ∧
    ps'.lastKnownGameID = ps.lastKnownGameID ∧
    (getChan ps' c.id).lastKnownIsGameRunning = true ∧
    (getChan ps' c.id).lastKnownGame.id = (getChan ps c.id).lastKnownGame.id ∧
    (getChan ps' c.id).lastKnownRound.gameID = (getChan ps c.id).lastKnownGame.id ∧
    (getChan ps' c.id).lastKnownRound.roundNumber
      = (getChan ps c.id).lastKnownRound.roundNumber + 1 ∧
    (∀ cid, cid ≠ c.id → getChan ps' cid = getChan ps cid) := by
  unfold processRound at h
  simp only [hrun, Bool.not_true, Bool.false_eq_true, if_false] at h
  by_cases hT : goContains e.title " - " = true
  · rw [if_pos hT] at h
    exact processEventRound_run_ok ps ps' c m e hrun h
  · rw [if_neg hT] at h
    obtain ⟨db4, hfold, h⟩ := except_bind_inv _ _ _ h
    simp only [except_pure_eq, Except.ok.injEq] at h
    obtain ⟨f1, f2, f3, f4, f5⟩ := roundFold_ok _ _ _ _ hfold
    subst h
    refine ⟨?_, ?_, ?_, ?_, ?_, rfl, ?_, ?_, ?_, ?_, ?_⟩
    · simp only [cnr_db, f1, scr_roundsKeys, setChan_db, getChan_setChan_same, roundKey]
    · simp only [cnr_db, f2, scr_games, setChan_db]
    · simp only [cnr_db, f3, scr_users, setChan_db]
    · simp only [cnr_db, f4, scr_observations, setChan_db]
    · intro hv
      exact f5 (scr_dbinv _ _ hv)
    · simp only [cnr_chan_same, getChan_withDb, scr_chan_same, getChan_setChan_same, hrun]
    · simp only [cnr_chan_same, getChan_withDb, scr_chan_same, getChan_setChan_same]
    · simp only [cnr_chan_same, getChan_withDb, scr_chan_same, getChan_setChan_same]
    · simp only [cnr_chan_same, getChan_withDb, scr_chan_same, getChan_setChan_same,
        createRound_num]
    · intro cid hcid
      rw [cnr_chan_other _ _ _ _ hcid, getChan_withDb, scr_chan_other _ _ _ hcid,
          getChan_setChan_other _ _ _ _ hcid]

/-! ## Unconditional dedup-invariant preservation (every replay path) -/

theorem dbInv_saveGame (db : DB) (g : Game) (h : DBInv db) : DBInv (saveGame db g).2 := by
  by_cases h0 : g.id = 0
  · obtain ⟨h1, h2, h3, h4⟩ := h
    have hgames : (saveGame db g).2.games
        = db.games ++ [{ g with id := nextID (db.games.map fun h2 => h2.id) }] := by
      unfold saveGame
      rw [if_pos h0]
    have husers : (saveGame db g).2.users = db.users := by
      unfold saveGame
      rw [if_pos h0]
    have hitems : (saveGame db g).2.items = db.items := by
      unfold saveGame
      rw [if_pos h0]
    have him : (saveGame db g).2.interactionMessages = db.interactionMessages := by
      unfold saveGame
      rw [if_pos h0]
    refine ⟨by rw [husers]; exact h1, by rw [hitems]; exact h2, by rw [him]; exact h3, ?_⟩
    rw [hgames]
    have hnot : nextID (db.games.map fun h2 => h2.id) ∉ db.games.map Game.id :=
      nextID_not_mem _
    simp [List.nodup_append, h4, hnot]
  · exact (saveGame_fields db g h0).2.2.2.2.2.2.2.2.2 h

theorem dbInv_storeCurrentGame (ps : PState) (c : Channel) (h : DBInv ps.db) :
    DBInv (storeCurrentGame ps c).db :=
  dbInv_saveGame ps.db (getChan ps c.id).lastKnownGame h

theorem dbInv_processGameCountdownStart (ps ps' : PState) (c : Channel) (m : Message)
    (e : Embed) (h : processGameCountdownStart ps c m e = .ok ps') :
    DBInv ps.db → DBInv ps'.db := fun hv =>
  (processGameCountdownStart_ok ps ps' c m e h).1 ▸ hv

theorem dbInv_processGameStart (ps ps' : PState) (c : Channel) (m : Message) (e : Embed)
    (h : processGameStart ps c m e = .ok ps') : DBInv ps.db → DBInv ps'.db := by
  intro hv
  obtain ⟨cs3, h1, h2, h3, hst⟩ := processGameStart_shape ps ps' c m e h
  rw [← hst]
  exact dbInv_storeCurrentGame _ _ hv

theorem dbInv_processGameWinner (ps ps' : PState) (c : Channel) (m : Message)
    (h : processGameWinner ps c m = .ok ps') : DBInv ps.db → DBInv ps'.db := by
  intro hv
  unfold processGameWinner at h
  by_cases hrun : (getChan ps c.id).lastKnownIsGameRunning = true
  · simp only [hrun, Bool.not_true, Bool.false_eq_true, if_false, Except.ok.injEq] at h
    subst h
    exact dbInv_storeCurrentGame _ _ hv
  · have hrf : (getChan ps c.id).lastKnownIsGameRunning = false := by
      cases hb : (getChan ps c.id).lastKnownIsGameRunning
      · rfl
      · exact absurd hb hrun
    simp only [hrf, Bool.not_false, if_true] at h
    by_cases h0 : (getChan ps c.id).lastKnownGame.id = 0
    · rw [if_pos h0] at h
      simp only [Except.ok.injEq] at h
      rw [← h]
      exact hv
    · rw [if_neg h0] at h
      simp at h

theorem dbInv_processGameCancelled (ps ps' : PState) (c : Channel) (m : Message)
    (h : processGameCancelled ps c m = .ok ps') : DBInv ps.db → DBInv ps'.db := by
  intro hv
  unfold processGameCancelled at h
  by_cases hrun : (getChan ps c.id).lastKnownIsGameRunning = true
  · simp only [hrun, Bool.not_true, Bool.false_eq_true, if_false, Except.ok.injEq] at h
    subst h
    exact dbInv_storeCurrentGame _ _ hv
  · have hrf : (getChan ps c.id).lastKnownIsGameRunning = false := by
      cases hb : (getChan ps c.id).lastKnownIsGameRunning
      · rfl
      · exact absurd hb hrun
    simp only [hrf, Bool.not_false, if_true] at h
    by_cases h0 : (getChan ps c.id).lastKnownGame.id = 0
    · rw [if_pos h0] at h
      simp only [Except.ok.injEq] at h
      rw [← h]
      exact hv
    · rw [if_neg h0] at h
      simp at h

theorem dbInv_processEventRound (ps ps' : PState) (c : Channel) (m : Message) (e : Embed)
    (h : processEventRound ps c m e = .ok ps') : DBInv ps.db → DBInv ps'.db := by
  intro hv
  by_cases hrun : (getChan ps c.id).lastKnownIsGameRunning = true
  · exact (processEventRound_run_ok ps ps' c m e hrun h).2.2.2.2.1 hv
  · have hrf : (getChan ps c.id).lastKnownIsGameRunning = false := by
      cases hb : (getChan ps c.id).lastKnownIsGameRunning
      · rfl
      · exact absurd hb hrun
    unfold processEventRound at h
    simp only [hrf, Bool.not_false, if_true] at h
    by_cases h0 : (getChan ps c.id).lastKnownGame.id = 0
    · rw [if_pos h0] at h
      simp only [Except.ok.injEq] at h
      rw [← h]
      exact hv
    · rw [if_neg h0] at h
      simp at h

theorem dbInv_processRound (ps ps' : PState) (c : Channel) (m : Message) (e : Embed)
    (h : processRound ps c m e = .ok ps') : DBInv ps.db → DBInv ps'.db := by
  intro hv
  by_cases hrun : (getChan ps c.id).lastKnownIsGameRunning = true
  · exact (processRound_run_ok ps ps' c m e hrun h).2.2.2.2.1 hv
  · have hrf : (getChan ps c.id).lastKnownIsGameRunning = false := by
      cases hb : (getChan ps c.id).lastKnownIsGameRunning
      · rfl
      · exact absurd hb hrun
    unfold processRound at h
    simp only [hrf, Bool.not_false, if_true] at h
    by_cases h0 : (getChan ps c.id).lastKnownGame.id = 0
    · rw [if_pos h0] at h
      simp only [Except.ok.injEq] at h
      rw [← h]
      exact hv
    · rw [if_neg h0] at h
      simp at h

/-- Inversion of the handler wrapping used by embedStep. -/
theorem wrapMap_ok_inv (mid : String) (r : Except ProcErr PState) (b : Bool)
    (p : PState × Bool) (h : (wrapErr mid r).map (fun x => (x, b)) = .ok p) :
    r = .ok p.1 ∧ p.2 = b := by
  cases r with
  | error e => exact absurd h (by simp [wrapErr, Except.map])
  | ok x =>
    have hx : (wrapErr mid (Except.ok x)).map (fun y => (y, b)) = .ok (x, b) := rfl
    rw [hx] at h
    simp only [Except.ok.injEq] at h
    rw [← h]
    exact ⟨rfl, rfl⟩

/-- Inversion of the cancelled/winner cases: the handler error is
discarded (state unchanged) or the handler result is taken; the break
flag is always set. -/
theorem discard_ok_inv (r : Except ProcErr PState) (ps0 : PState) (p : PState × Bool)
    (h : (match r with
          | .error _ => Except.ok (ps0, true)
          | .ok x => Except.ok (x, true) : Except ProcErr (PState × Bool)) = .ok p) :
    p.2 = true ∧ ((∃ e, r = .error e) ∧ p.1 = ps0 ∨ r = .ok p.1) := by
  cases r with
  | error e =>
    simp only [Except.ok.injEq] at h
    rw [← h]
    exact ⟨rfl, Or.inl ⟨⟨e, rfl⟩, rfl⟩⟩
  | ok x =>
    simp only [Except.ok.injEq] at h
    rw [← h]
    exact ⟨rfl, Or.inr rfl⟩

theorem map_pair_ok_inv (r : Except ProcErr PState) (b : Bool)
    (p : PState × Bool) (h : r.map (fun x => (x, b)) = .ok p) :
    r = .ok p.1 ∧ p.2 = b := by
  cases r with
  | error e => exact absurd h (by simp [Except.map])
  | ok x =>
    have hx : (Except.ok x : Except ProcErr PState).map (fun y => (y, b)) = .ok (x, b) := rfl
    rw [hx] at h
    simp only [Except.ok.injEq] at h
    rw [← h]
    exact ⟨rfl, rfl⟩

theorem dbInv_embedStep (ps : PState) (c : Channel) (m : Message) (idx : Nat) (e : Embed)
    (p : PState × Bool) (h : embedStep ps c m idx e = .ok p) :
    DBInv ps.db → DBInv p.1.db := by
  intro hv
  unfold embedStep at h
  cases hcl : classifyEmbed m.interaction.isSome idx e with
  | countdown =>
    rw [hcl] at h
    obtain ⟨hp, _⟩ := wrapMap_ok_inv _ _ _ _ h
    exact dbInv_processGameCountdownStart _ _ _ _ _ hp hv
  | contCountdown =>
    rw [hcl] at h
    simp only [Except.ok.injEq] at h
    rw [← h]
    exact hv
  | started =>
    rw [hcl] at h
    obtain ⟨hp, _⟩ := wrapMap_ok_inv _ _ _ _ h
    exact dbInv_processGameStart _ _ _ _ _ hp hv
  | cancelledMsg =>
    rw [hcl] at h
    obtain ⟨hb, hcase⟩ := discard_ok_inv _ _ _ h
    cases hcase with
    | inl hc =>
      rw [hc.2]
      exact hv
    | inr hok => exact dbInv_processGameCancelled _ _ _ _ hok hv
  | winner =>
    rw [hcl] at h
    obtain ⟨hb, hcase⟩ := discard_ok_inv _ _ _ h
    cases hcase with
    | inl hc =>
      rw [hc.2]
      exact hv
    | inr hok => exact dbInv_processGameWinner _ _ _ _ hok hv
  | balance =>
    rw [hcl] at h
    cases hint : m.interaction with
    | some itn =>
      rw [hint] at h
      obtain ⟨hp, _⟩ := map_pair_ok_inv _ _ _ h
      exact (observeUserName_ok _ _ _ _ _ hp).2.2.2.2.2.2.2 hv
    | none =>
      rw [hint] at h
      simp at h
  | roundMsg =>
    rw [hcl] at h
    obtain ⟨hp, _⟩ := wrapMap_ok_inv _ _ _ _ h
    exact dbInv_processRound _ _ _ _ _ hp hv
  | skip =>
    rw [hcl] at h
    simp only [Except.ok.injEq] at h
    rw [← h]
    exact hv

theorem dbInv_embedsLoop (c : Channel) (m : Message) :
    ∀ (es : List Embed) (ps : PState) (idx : Nat) (ps' : PState),
      embedsLoop c m ps idx es = .ok ps' → DBInv ps.db → DBInv ps'.db := by
  intro es
  induction es with
  | nil =>
    intro ps idx ps' h hv
    simp only [embedsLoop, Except.ok.injEq] at h
    rw [← h]
    exact hv
  | cons e rest ih =>
    intro ps idx ps' h hv
    simp only [embedsLoop] at h
    obtain ⟨r, hstep, h⟩ := except_bind_inv _ _ _ h
    have hv2 := dbInv_embedStep _ _ _ _ _ _ hstep hv
    by_cases hb : r.2 = true
    · rw [if_pos hb] at h
      simp only [Except.ok.injEq] at h
      rw [← h]
      exact hv2
    · rw [if_neg hb] at h
      exact ih _ _ _ h hv2

theorem dbInv_observeFold (m : Message) :
    ∀ (us : List DiscordUser) (ps ps' : PState),
      us.foldlM (fun s u => observeUserName s m u.id u.name) ps = .ok ps' →
      DBInv ps.db → DBInv ps'.db := by
  intro us
  induction us with
  | nil =>
    intro ps ps' h hv
    simp only [List.foldlM_nil, except_pure_eq, Except.ok.injEq] at h
    rw [← h]
    exact hv
  | cons u rest ih =>
    intro ps ps' h hv
    rw [List.foldlM_cons] at h
    obtain ⟨ps1, h1, h⟩ := except_bind_inv _ _ _ h
    exact ih _ _ h ((observeUserName_ok _ _ _ _ _ h1).2.2.2.2.2.2.2 hv)

theorem dbInv_reactionsFold (m : Message) :
    ∀ (rs : List Reaction) (ps ps' : PState),
      rs.foldlM (fun s r =>
        r.users.foldlM (fun s2 u => observeUserName s2 m u.id u.name) s) ps = .ok ps' →
      DBInv ps.db → DBInv ps'.db := by
  intro rs
  induction rs with
  | nil =>
    intro ps ps' h hv
    simp only [List.foldlM_nil, except_pure_eq, Except.ok.injEq] at h
    rw [← h]
    exact hv
  | cons r rest ih =>
    intro ps ps' h hv
    rw [List.foldlM_cons] at h
    obtain ⟨ps1, h1, h⟩ := except_bind_inv _ _ _ h
    exact ih _ _ h (dbInv_observeFold m _ _ _ h1 hv)

theorem dbInv_processMessage (ps ps' : PState) (c : Channel) (m : Message)
    (h : processMessage ps c m = .ok ps') : DBInv ps.db → DBInv ps'.db := by
  intro hv
  unfold processMessage at h
  have tail : ∀ ps1 : PState, DBInv ps1.db →
      (m.mentions.foldlM (fun s u => observeUserName s m u.id u.name) ps1 >>= fun ps2 =>
        m.reactions.foldlM (fun s r =>
          r.users.foldlM (fun s2 u => observeUserName s2 m u.id u.name) s) ps2 >>=
            fun ps3 =>
        if (m.author.id != botAuthorID) = true then
          observeUserName ps3 m m.author.id m.author.name
        else if m.embeds.isEmpty = true then Except.ok ps3
        else embedsLoop c m ps3 0 m.embeds) = .ok ps' →
      DBInv ps'.db := by
    intro ps1 hv1 h
    obtain ⟨ps2, h2, h⟩ := except_bind_inv _ _ _ h
    have hv2 := dbInv_observeFold m _ _ _ h2 hv1
    obtain ⟨ps3, h3, h⟩ := except_bind_inv _ _ _ h
    have hv3 := dbInv_reactionsFold m _ _ _ h3 hv2
    by_cases ha : (m.author.id != botAuthorID) = true
    · rw [if_pos ha] at h
      exact (observeUserName_ok _ _ _ _ _ h).2.2.2.2.2.2.2 hv3
    · rw [if_neg ha] at h
      by_cases he : m.embeds.isEmpty = true
      · rw [if_pos he] at h
        simp only [Except.ok.injEq] at h
        rw [← h]
        exact hv3
      · rw [if_neg he] at h
        exact dbInv_embedsLoop c m m.embeds ps3 0 ps' h hv3
  cases hint : m.interaction with
  | some itn =>
    simp only [hint] at h
    obtain ⟨ps1, h1, h⟩ := except_bind_inv _ _ _ h
    exact tail ps1 ((observeUserName_ok _ _ _ _ _ h1).2.2.2.2.2.2.2 hv) h
  | none =>
    simp only [hint, except_pure_eq, except_bind_ok] at h
    exact tail ps hv h

theorem dbInv_processExport (backup : Backup) :
    ∀ (msgs : List Message) (ps ps' : PState),
      msgs.foldlM (fun s m => processMessage s backup.channel m) ps = .ok ps' →
      DBInv ps.db → DBInv ps'.db := by
  intro msgs
  induction msgs with
  | nil =>
    intro ps ps' h hv
    simp only [List.foldlM_nil, except_pure_eq, Except.ok.injEq] at h
    rw [← h]
    exact hv
  | cons msg rest ih =>
    intro ps ps' h hv
    rw [List.foldlM_cons] at h
    obtain ⟨ps1, h1, h⟩ := except_bind_inv _ _ _ h
    exact ih _ _ h (dbInv_processMessage _ _ _ _ h1 hv)

theorem dbInv_processArchives :
    ∀ (backups : List Backup) (ps ps' : PState),
      processArchives ps backups = .ok ps' → DBInv ps.db → DBInv ps'.db := by
  intro backups
  induction backups with
  | nil =>
    intro ps ps' h hv
    simp only [processArchives, List.foldlM_nil, except_pure_eq, Except.ok.injEq] at h
    rw [← h]
    exact hv
  | cons b rest ih =>
    intro ps ps' h hv
    simp only [processArchives, List.foldlM_cons] at h
    obtain ⟨ps1, h1, h⟩ := except_bind_inv _ _ _ h
    have hv1 : DBInv ps1.db := by
      have hb : processExport ps b = .ok ps1 := h1
      unfold processExport at hb
      exact dbInv_processExport b _ _ _ hb hv
    exact ih _ _ h hv1

/-! ## C10: the "menardi" fatal backfill check -/

/-- C10 (confirmed): whenever a new observation is recorded (the latest
stored name differs) and the mention backfill finds zero unresolved
mentions of the name, the call dies fatally exactly for the display name
"menardi", and returns successfully for every other name. -/
theorem claim_C10 (ps : PState) (m : Message) (id name : String)
    (hid : id ≠ "")
    (hnew : ∀ o, lastObsForUser ps.db id = some o → o.name ≠ name)
    (hzero : (ps.db.userMentions.filter fun r => r.userID.isNone && r.userName == name).length = 0) :
    (name = "menardi" → observeUserName ps m id name = .error .fatalLog) ∧
    (name ≠ "menardi" → (observeUserName ps m id name).isOk = true) := by
  unfold observeUserName lookupUserID
  simp only [hid, if_false]
  cases hfind : ps.db.users.find? (fun v => v.id == id) with
  | some u0 =>
    simp only [hfind, except_bind_ok]
    have hskip : (match lastObsForUser ps.db id with
        | some last => last.name == name
        | none => false) = false := by
      cases hl : lastObsForUser ps.db id with
      | none => rfl
      | some o => simpa using hnew o hl
    rw [hskip]
    simp only [Bool.false_eq_true, if_false, hzero]
    constructor
    · intro hmen
      subst hmen
      simp
    · intro hne
      simp [hne, Except.isOk, Except.toBool]
  | none =>
    simp only [hfind, except_bind_ok]
    have hskip : (match lastObsForUser (saveUser ps.db ⟨id⟩) id with
        | some last => last.name == name
        | none => false) = false := by
      have hsv : lastObsForUser (saveUser ps.db ⟨id⟩) id = lastObsForUser ps.db id := by
        unfold lastObsForUser; rw [saveUser_observations]
      rw [hsv]
      cases hl : lastObsForUser ps.db id with
      | none => rfl
      | some o => simpa using hnew o hl
    rw [hskip]
    simp only [Bool.false_eq_true, if_false, saveUser_userMentions, saveUser_games,
      saveUser_observations, hzero]
    constructor
    · intro hmen
      subst hmen
      simp
    · intro hne
      simp [hne, Except.isOk, Except.toBool]

/-- C10 witness: fresh store, new observation, zero matching unresolved
mentions: "menardi" dies, "alex" succeeds. -/
theorem claim_C10_witness :
    observeUserName (freshPState {}) demoRoundMsg "U9" "menardi" = .error .fatalLog ∧
    (observeUserName (freshPState {}) demoRoundMsg "U9" "alex").isOk = true :=
  ⟨(claim_C10 (freshPState {}) demoRoundMsg "U9" "menardi" (by decide)
      (fun o h => by simp [lastObsForUser, freshPState] at h) rfl).1 rfl,
   (claim_C10 (freshPState {}) demoRoundMsg "U9" "alex" (by decide)
      (fun o h => by simp [lastObsForUser, freshPState] at h) rfl).2 (by decide)⟩

/-! ## C4: the name-observation backfill -/

/-- A conditional rewrite map is the identity when nothing satisfies the
condition. -/
theorem map_if_id_of_filter_nil {α : Type} (l : List α) (p : α → Bool) (f : α → α)
    (h : l.filter p = []) : (l.map fun x => if p x then f x else x) = l := by
  induction l with
  | nil => rfl
  | cons a t ih =>
    rw [List.filter_cons] at h
    by_cases hp : p a
    · simp [hp] at h
    · simp only [hp, Bool.false_eq_true, if_false] at h ⊢
      simp [hp, ih h]

/-- C4 (confirmed): when observeUserName records a new observation and
returns successfully, every stored game with an unresolved host id and
matching host name, and every stored user mention with unresolved actor
and matching name, is updated in place to the observed actor id — and no
game record is created or removed. -/
theorem claim_C4 (ps ps' : PState) (m : Message) (id name : String)
    (hid : id ≠ "")
    (hnew : ∀ o, lastObsForUser ps.db id = some o → o.name ≠ name)
    (hok : observeUserName ps m id name = .ok ps') :
    ps'.db.games =
      ps.db.games.map (fun g =>
        if g.hostUserID.isNone && g.hostUserName == some name then
          { g with hostUserID := some id } else g) ∧
    ps'.db.games.length = ps.db.games.length ∧
    ps'.db.userMentions =
      ps.db.userMentions.map (fun r =>
        if r.userID.isNone && r.userName == name then
          { r with userID := some id } else r) := by
  unfold observeUserName lookupUserID at hok
  simp only [hid, if_false] at hok
  cases hfind : ps.db.users.find? (fun v => v.id == id) with
  | some u0 =>
    have hu0id : u0.id = id := by
      have := List.find?_some hfind
      simpa using this
    rw [hfind] at hok
    simp only [except_bind_ok] at hok
    have hskip : (match lastObsForUser ps.db id with
        | some last => last.name == name
        | none => false) = false := by
      cases hl : lastObsForUser ps.db id with
      | none => rfl
      | some o => simpa using hnew o hl
    rw [hskip] at hok
    simp only [Bool.false_eq_true, if_false] at hok
    by_cases hflt : 0 < (ps.db.userMentions.filter fun r => r.userID.isNone && r.userName == name).length
    · simp only [hflt, if_true, except_pure_eq, Except.ok.injEq] at hok
      subst hok
      refine ⟨by simp [hu0id], by simp, by simp [hu0id]⟩
    · simp only [hflt, if_false] at hok
      by_cases hmen : name = "menardi"
      · simp [hmen] at hok
      · simp only [hmen, if_false, beq_iff_eq, except_pure_eq, Except.ok.injEq] at hok
        subst hok
        have hnil : (ps.db.userMentions.filter fun r => r.userID.isNone && r.userName == name) = [] := by
          cases hh : ps.db.userMentions.filter fun r => r.userID.isNone && r.userName == name
          · rfl
          · rw [hh] at hflt; simp at hflt
        refine ⟨by simp [hu0id], by simp, ?_⟩
        exact (map_if_id_of_filter_nil _ _ _ hnil).symm
  | none =>
    rw [hfind] at hok
    simp only [except_bind_ok] at hok
    have hobs : lastObsForUser (saveUser ps.db ⟨id⟩) id = lastObsForUser ps.db id := by
      unfold lastObsForUser; rw [saveUser_observations]
    have hskip : (match lastObsForUser (saveUser ps.db ⟨id⟩) id with
        | some last => last.name == name
        | none => false) = false := by
      rw [hobs]
      cases hl : lastObsForUser ps.db id with
      | none => rfl
      | some o => simpa using hnew o hl
    rw [hskip] at hok
    simp only [Bool.false_eq_true, if_false, saveUser_userMentions, saveUser_games] at hok
    by_cases hflt : 0 < (ps.db.userMentions.filter fun r => r.userID.isNone && r.userName == name).length
    · simp only [hflt, if_true, except_pure_eq, Except.ok.injEq] at hok
      subst hok
      refine ⟨by simp, by simp, by simp⟩
    · simp only [hflt, if_false] at hok
      by_cases hmen : name = "menardi"
      · simp [hmen] at hok
      · simp only [hmen, if_false, beq_iff_eq, except_pure_eq, Except.ok.injEq] at hok
        subst hok
        have hnil : (ps.db.userMentions.filter fun r => r.userID.isNone && r.userName == name) = [] := by
          cases hh : ps.db.userMentions.filter fun r => r.userID.isNone && r.userName == name
          · rfl
          · rw [hh] at hflt; simp at hflt
        refine ⟨by simp, by simp, ?_⟩
        exact (map_if_id_of_filter_nil _ _ _ hnil).symm

/-- C4 witness: a game and a mention stored with host name "alex" and no
actor id; observing U1 with name "alex" backfills both rows in place. -/
theorem claim_C4_witness :
    (okOrDefault (observeUserName (freshPState bfDB) demoRoundMsg "U1" "alex")).db.games =
      (freshPState bfDB).db.games.map (fun g =>
        if g.hostUserID.isNone && g.hostUserName == some "alex" then
          { g with hostUserID := some "U1" } else g) ∧
    (okOrDefault (observeUserName (freshPState bfDB) demoRoundMsg "U1" "alex")).db.games.length =
      (freshPState bfDB).db.games.length ∧
    (okOrDefault (observeUserName (freshPState bfDB) demoRoundMsg "U1" "alex")).db.userMentions =
      (freshPState bfDB).db.userMentions.map (fun r =>
        if r.userID.isNone && r.userName == "alex" then
          { r with userID := some "U1" } else r) :=
  claim_C4 (freshPState bfDB) _ demoRoundMsg "U1" "alex" (by decide)
    (fun o h => by simp [lastObsForUser, freshPState, bfDB] at h) rfl

/-! ## C7: the item extractor -/

/-- C7 (confirmed): extractItems fails with the unsupported-multi-item
error exactly when more than one __item__ mention occurs; with none it
returns the text unchanged, with exactly one it replaces the mention by
the item placeholder and returns the looked-up item. -/
theorem claim_C7 (db : DB) (text : String) :
    ((reFindAll rxItemFormatted text).length > 1 ↔
        extractItems db text = .error (.multiItem text)) ∧
    (reFindAll rxItemFormatted text = [] → extractItems db text = .ok (text, [], db)) ∧
    (∀ mt, reFindAll rxItemFormatted text = [mt] →
        extractItems db text =
          .ok (replaceFirst text mt.full "\x7b\x7bitem\x7d\x7d",
               [(lookupItem db (unescapeMarkdown (mt.get 1))).1],
               (lookupItem db (unescapeMarkdown (mt.get 1))).2)) := by
  refine ⟨⟨?_, ?_⟩, ?_, ?_⟩
  · intro h
    unfold extractItems
    simp [h]
  · intro h
    by_cases hlen : (reFindAll rxItemFormatted text).length > 1
    · exact hlen
    · exfalso
      unfold extractItems at h
      simp [hlen] at h
  · intro hnil
    unfold extractItems
    rw [hnil]
    simp
  · intro mt hmt
    unfold extractItems
    rw [hmt]
    simp [extractItemStep]

/-- C7 witness: two mentions fail, none succeeds unchanged. -/
theorem claim_C7_witness :
    extractItems {} "two __A__ and __B__ items" = .error (.multiItem "two __A__ and __B__ items") ∧
    extractItems {} "no items here" = .ok ("no items here", [], {}) :=
  ⟨(claim_C7 {} "two __A__ and __B__ items").1.mp (by decide),
   (claim_C7 {} "no items here").2.1 (by decide)⟩

/-! ## C6: mention dedup in the user extractor -/

theorem mem_foldl_dedupStep {α : Type} [DecidableEq α] (l acc : List α) (x : α) :
    x ∈ l.foldl dedupStep acc ↔ x ∈ acc ∨ x ∈ l := by
  induction l generalizing acc with
  | nil => simp
  | cons a t ih =>
    rw [List.foldl_cons, ih]
    unfold dedupStep
    by_cases h : a ∈ acc
    · simp only [h, if_true, List.mem_cons]
      constructor
      · intro hc
        rcases hc with h1 | h2
        · exact Or.inl h1
        · exact Or.inr (Or.inr h2)
      · intro hc
        rcases hc with h1 | h2 | h3
        · exact Or.inl h1
        · exact Or.inl (h2 ▸ h)
        · exact Or.inr h3
    · simp only [h, if_false, List.mem_append, List.mem_singleton, List.mem_cons]
      tauto

theorem nodup_foldl_dedupStep {α : Type} [DecidableEq α] (l : List α) (acc : List α)
    (h : acc.Nodup) : (l.foldl dedupStep acc).Nodup := by
  induction l generalizing acc with
  | nil => exact h
  | cons a t ih =>
    rw [List.foldl_cons]
    apply ih
    unfold dedupStep
    by_cases ha : a ∈ acc
    · simpa [ha] using h
    · simp [ha, List.nodup_append, h]

theorem isPrefix_foldl_dedupStep {α : Type} [DecidableEq α] (l acc : List α) :
    acc <+: l.foldl dedupStep acc := by
  induction l generalizing acc with
  | nil => exact List.prefix_refl acc
  | cons a t ih =>
    rw [List.foldl_cons]
    refine List.IsPrefix.trans ?_ (ih (dedupStep acc a))
    unfold dedupStep
    by_cases ha : a ∈ acc
    · simp [ha]
    · simp only [ha, if_false]
      exact ⟨[a], rfl⟩

theorem firstDedup_append {α : Type} [DecidableEq α] (l1 l2 : List α) :
    firstDedup (l1 ++ l2) = l2.foldl dedupStep (firstDedup l1) := by
  simp [firstDedup, List.foldl_append]

theorem mem_firstDedup {α : Type} [DecidableEq α] (l : List α) (x : α) :
    x ∈ firstDedup l ↔ x ∈ l := by
  simp [firstDedup, mem_foldl_dedupStep]

theorem nodup_firstDedup {α : Type} [DecidableEq α] (l : List α) :
    (firstDedup l).Nodup :=
  nodup_foldl_dedupStep l [] List.nodup_nil

theorem findIdx?_of_isPrefix {α : Type} (a b : List α) (p : α → Bool) (i : Nat)
    (hpre : a <+: b) (h : a.findIdx? p = some i) : b.findIdx? p = some i := by
  obtain ⟨t, rfl⟩ := hpre
  rw [List.findIdx?_append, h]
  rfl

theorem findIdx?_boundary {α : Type} (a : List α) (y : α) (b : List α) (p : α → Bool)
    (ha : ∀ x ∈ a, p x = false) (hy : p y = true) :
    (a ++ y :: b).findIdx? p = some a.length := by
  rw [List.findIdx?_append]
  have hnone : a.findIdx? p = none :=
    List.findIdx?_eq_none_iff.mpr fun x hx => by simp [ha x hx]
  rw [hnone]
  simp [hy, Option.or]

/-- mentionOfMatch never fills the row id or the resolved user. -/
theorem mentionOfMatch_shape (mt : Submatch) :
    (mentionOfMatch mt).id = 0 ∧ (mentionOfMatch mt).userID = none := by
  unfold mentionOfMatch
  split
  · exact ⟨rfl, rfl⟩
  · split
    · exact ⟨rfl, rfl⟩
    · exact ⟨rfl, rfl⟩

/-- The scan loop, from an arbitrary dedup prefix: the accumulated list is
the running first-occurrence dedup, and every replacement uses the index
of the mention's first occurrence in the FINAL dedup list. -/
theorem extractUsersScan_loop (mts : List Submatch)
    (pre : List InteractionUserMention) (s : String) :
    mts.foldl extractUsersStep (s, firstDedup pre) =
      (mts.foldl (replayStep (firstDedup (pre ++ mts.map mentionOfMatch))) s,
       firstDedup (pre ++ mts.map mentionOfMatch)) := by
  induction mts generalizing pre s with
  | nil => simp
  | cons mt rest ih =>
    have hassoc : pre ++ (mt :: rest).map mentionOfMatch =
        (pre ++ [mentionOfMatch mt]) ++ rest.map mentionOfMatch := by
      simp
    cases hidx : (firstDedup pre).findIdx? (fun y => y == mentionOfMatch mt) with
    | some i =>
      have hui : mentionOfMatch mt ∈ firstDedup pre := by
        have hsome : ((firstDedup pre).findIdx? (fun y => y == mentionOfMatch mt)).isSome := by
          rw [hidx]; rfl
        rw [List.findIdx?_isSome, List.any_eq_true] at hsome
        obtain ⟨x, hx, hpx⟩ := hsome
        rw [beq_iff_eq] at hpx
        exact hpx ▸ hx
      have hD1 : firstDedup (pre ++ [mentionOfMatch mt]) = firstDedup pre := by
        rw [firstDedup_append]
        simp [dedupStep, hui]
      have hstep : extractUsersStep (s, firstDedup pre) mt =
          (replaceFirst s mt.full (userPlaceholder i), firstDedup pre) := by
        simp [extractUsersStep, hidx]
      have hpre2 : firstDedup pre <+:
          List.foldl dedupStep (firstDedup (pre ++ [mentionOfMatch mt])) (rest.map mentionOfMatch) := by
        rw [hD1]
        exact isPrefix_foldl_dedupStep _ _
      have hFfind :
          (firstDedup (pre ++ (mt :: rest).map mentionOfMatch)).findIdx?
              (fun y => y == mentionOfMatch mt) = some i := by
        rw [hassoc, firstDedup_append]
        exact findIdx?_of_isPrefix _ _ _ i hpre2 hidx
      rw [List.foldl_cons, hstep, ← hD1, ih]
      rw [List.foldl_cons]
      have hreplay : replayStep (firstDedup (pre ++ (mt :: rest).map mentionOfMatch)) s mt =
          replaceFirst s mt.full (userPlaceholder i) := by
        unfold replayStep
        rw [hFfind]
        rfl
      rw [← hassoc, hreplay]
    | none =>
      have hnotin : mentionOfMatch mt ∉ firstDedup pre := by
        intro hmem
        rw [List.findIdx?_eq_none_iff] at hidx
        have := hidx (mentionOfMatch mt) hmem
        simp at this
      have hD1 : firstDedup (pre ++ [mentionOfMatch mt]) =
          firstDedup pre ++ [mentionOfMatch mt] := by
        rw [firstDedup_append]
        simp [dedupStep, hnotin]
      have hstep : extractUsersStep (s, firstDedup pre) mt =
          (replaceFirst s mt.full (userPlaceholder (firstDedup pre).length),
           firstDedup pre ++ [mentionOfMatch mt]) := by
        simp [extractUsersStep, hidx]
      have hbound : (firstDedup pre ++ [mentionOfMatch mt]).findIdx?
          (fun y => y == mentionOfMatch mt) = some (firstDedup pre).length := by
        apply findIdx?_boundary
        · intro x hx
          rw [beq_eq_false_iff_ne]
          intro hxe
          exact hnotin (hxe ▸ hx)
        · simp
      have hpre2 : firstDedup pre ++ [mentionOfMatch mt] <+:
          List.foldl dedupStep (firstDedup (pre ++ [mentionOfMatch mt])) (rest.map mentionOfMatch) := by
        rw [hD1]
        exact isPrefix_foldl_dedupStep _ _
      have hFfind :
          (firstDedup (pre ++ (mt :: rest).map mentionOfMatch)).findIdx?
              (fun y => y == mentionOfMatch mt) = some (firstDedup pre).length := by
        rw [hassoc, firstDedup_append]
        exact findIdx?_of_isPrefix _ _ _ _ hpre2 hbound
      rw [List.foldl_cons, hstep, ← hD1, ih]
      rw [List.foldl_cons]
      have hreplay : replayStep (firstDedup (pre ++ (mt :: rest).map mentionOfMatch)) s mt =
          replaceFirst s mt.full (userPlaceholder (firstDedup pre).length) := by
        unfold replayStep
        rw [hFfind]
        rfl
      rw [← hassoc, hreplay]

/-- The scan pass produces the first-occurrence dedup of the matches'
mentions and the first-occurrence-indexed replay of the text. -/
theorem extractUsersScan_spec (msg : String) (mts : List Submatch) :
    extractUsersScan msg mts =
      (replayScan msg mts (firstDedup (mts.map mentionOfMatch)),
       firstDedup (mts.map mentionOfMatch)) := by
  have h := extractUsersScan_loop mts [] msg
  simp only [List.nil_append] at h
  have h0 : firstDedup ([] : List InteractionUserMention) = [] := rfl
  rw [extractUsersScan, ← h0, h, replayScan]

/-- The fill pass preserves the dedup keys and the length. -/
theorem fillMentions_loop (db : DB) (ms acc r : List InteractionUserMention)
    (h : ms.foldlM (fillMentionStep db) acc = .ok r) :
    r.map mentionKey = acc.map mentionKey ++ ms.map mentionKey := by
  induction ms generalizing acc with
  | nil =>
    simp only [List.foldlM_nil] at h
    cases h
    simp
  | cons ui rest ih =>
    rw [List.foldlM_cons] at h
    cases hlk : lookupUserName db ui.userName with
    | error e =>
      rw [show fillMentionStep db acc ui = .error e from by
        unfold fillMentionStep; rw [hlk]; rfl] at h
      simp at h
    | ok uOpt =>
      cases uOpt with
      | some u =>
        rw [show fillMentionStep db acc ui = .ok (acc ++ [{ ui with userID := some u.id }]) from by
          unfold fillMentionStep; rw [hlk]; rfl] at h
        simp only [except_bind_ok] at h
        have := ih (acc ++ [{ ui with userID := some u.id }]) h
        simpa [mentionKey] using this
      | none =>
        rw [show fillMentionStep db acc ui = .ok (acc ++ [ui]) from by
          unfold fillMentionStep; rw [hlk]; rfl] at h
        simp only [except_bind_ok] at h
        have := ih (acc ++ [ui]) h
        simpa [mentionKey] using this

/-- C6 (confirmed): for every text, the extractor returns exactly one
mention per distinct (name, suffix, killed) triple, in first-occurrence
order (the first-occurrence dedup of the matches), with no duplicate
triples, and the rewritten template replaces every occurrence with the
placeholder carrying the index of the first occurrence of its triple. -/
theorem claim_C6 (db : DB) (text tmpl : String) (ms : List InteractionUserMention)
    (hok : extractUsers db text = .ok (tmpl, ms)) :
    ms.map mentionKey =
      (firstDedup ((reFindAll rxUserFormatted text).map mentionOfMatch)).map mentionKey ∧
    (ms.map mentionKey).Nodup ∧
    tmpl = replayScan text (reFindAll rxUserFormatted text)
      (firstDedup ((reFindAll rxUserFormatted text).map mentionOfMatch)) := by
  unfold extractUsers at hok
  rw [extractUsersScan_spec] at hok
  simp only [] at hok
  cases hfill : fillMentions db (firstDedup ((reFindAll rxUserFormatted text).map mentionOfMatch)) with
  | error e => rw [hfill] at hok; simp at hok
  | ok ms0 =>
    rw [hfill] at hok
    simp only [except_bind_ok, except_pure_eq, Except.ok.injEq, Prod.mk.injEq] at hok
    obtain ⟨htmpl, hms⟩ := hok
    subst hms
    have hkeys : ms0.map mentionKey =
        (firstDedup ((reFindAll rxUserFormatted text).map mentionOfMatch)).map mentionKey := by
      have := fillMentions_loop db _ [] ms0 hfill
      simpa using this
    refine ⟨hkeys, ?_, htmpl.symm⟩
    rw [hkeys]
    apply List.Nodup.map_on ?_ (nodup_firstDedup _)
    intro x hx y hy hkey
    have hxm := (mem_firstDedup _ x).mp hx
    have hym := (mem_firstDedup _ y).mp hy
    obtain ⟨mtx, _, hxe⟩ := List.mem_map.mp hxm
    obtain ⟨mty, _, hye⟩ := List.mem_map.mp hym
    have hxs := mentionOfMatch_shape mtx
    have hys := mentionOfMatch_shape mty
    rw [hxe] at hxs
    rw [hye] at hys
    cases x with
    | mk xid xname xuid xk xs =>
      cases y with
      | mk yid yname yuid yk ys =>
        simp only [mentionKey, Prod.mk.injEq] at hkey
        simp only at hxs hys
        obtain ⟨h1, h2, h3⟩ := hkey
        obtain ⟨hx0, hxn⟩ := hxs
        obtain ⟨hy0, hyn⟩ := hys
        subst h1; subst h2; subst h3
        rw [hx0, hy0, hxn, hyn]

/-- C6 witness: the same struck-through name twice collapses to a single
mention and both occurrences carry index 0. -/
theorem claim_C6_witness :
    ([({ userName := "alex", killed := true } : InteractionUserMention)].map mentionKey =
      (firstDedup ((reFindAll rxUserFormatted "~~**alex**~~ foo ~~**alex**~~").map mentionOfMatch)).map mentionKey) ∧
    (([({ userName := "alex", killed := true } : InteractionUserMention)].map mentionKey).Nodup) ∧
    "\x7b\x7busers[0]\x7d\x7d foo \x7b\x7busers[0]\x7d\x7d" =
      replayScan "~~**alex**~~ foo ~~**alex**~~"
        (reFindAll rxUserFormatted "~~**alex**~~ foo ~~**alex**~~")
        (firstDedup ((reFindAll rxUserFormatted "~~**alex**~~ foo ~~**alex**~~").map mentionOfMatch)) :=
  claim_C6 {} "~~**alex**~~ foo ~~**alex**~~"
    "\x7b\x7busers[0]\x7d\x7d foo \x7b\x7busers[0]\x7d\x7d"
    [{ userName := "alex", killed := true }] (by rfl)

/-! ## The control machine: bookkeeping lemmas -/

theorem ctrlSet_wf (t : Ctrl) (cid : String) (cc : CtrlChan) :
    (ctrlSet t cid cc).wf = t.wf := rfl

theorem ctrlSet_counter (t : Ctrl) (cid : String) (cc : CtrlChan) :
    (ctrlSet t cid cc).counter = t.counter := rfl

theorem ctrlSet_emitted (t : Ctrl) (cid : String) (cc : CtrlChan) :
    (ctrlSet t cid cc).emitted = t.emitted := rfl

theorem ctrlSet_savedIds (t : Ctrl) (cid : String) (cc : CtrlChan) :
    (ctrlSet t cid cc).savedIds = t.savedIds := rfl

/-- The wf flag never flips back to true: one embed. -/
theorem ctrlEmbed_wf (t : Ctrl) (c : Channel) (m : Message) (idx : Nat) (e : Embed)
    (h : (ctrlEmbed t c m idx e).1.wf = true) : t.wf = true := by
  unfold ctrlEmbed at h
  cases hcl : classifyEmbed m.interaction.isSome idx e with
  | countdown => simp only [hcl] at h; exact h
  | contCountdown => simp only [hcl] at h; exact h
  | started =>
    simp only [hcl] at h
    by_cases hg : (ctrlGet t c.id).gameId = 0
    · rw [if_pos hg] at h
      exact absurd h (by simp [ctrlSet_wf])
    · rw [if_neg hg] at h
      exact h
  | cancelledMsg =>
    simp only [hcl] at h
    by_cases hr : (ctrlGet t c.id).running = true
    · simp only [hr, Bool.not_true, Bool.false_eq_true, if_false] at h
      exact h
    · have hrf : (ctrlGet t c.id).running = false := by
        cases hb : (ctrlGet t c.id).running
        · rfl
        · exact absurd hb hr
      simp only [hrf, Bool.not_false, if_true] at h
      exact h
  | winner =>
    simp only [hcl] at h
    by_cases hr : (ctrlGet t c.id).running = true
    · simp only [hr, Bool.not_true, Bool.false_eq_true, if_false] at h
      exact h
    · have hrf : (ctrlGet t c.id).running = false := by
        cases hb : (ctrlGet t c.id).running
        · rfl
        · exact absurd hb hr
      simp only [hrf, Bool.not_false, if_true] at h
      exact h
  | balance => simp only [hcl] at h; exact h
  | roundMsg =>
    simp only [hcl] at h
    by_cases hr : (ctrlGet t c.id).running = true
    · simp only [hr, Bool.not_true, Bool.false_eq_true, if_false] at h
      exact h
    · have hrf : (ctrlGet t c.id).running = false := by
        cases hb : (ctrlGet t c.id).running
        · rfl
        · exact absurd hb hr
      simp only [hrf, Bool.not_false, if_true] at h
      exact h
  | skip => simp only [hcl] at h; exact h

theorem ctrlEmbeds_wf (c : Channel) (m : Message) :
    ∀ (es : List Embed) (t : Ctrl) (idx : Nat),
      (ctrlEmbeds c m t idx es).wf = true → t.wf = true := by
  intro es
  induction es with
  | nil => intro t idx h; exact h
  | cons e rest ih =>
    intro t idx h
    simp only [ctrlEmbeds] at h
    by_cases hb : (ctrlEmbed t c m idx e).2 = true
    · rw [if_pos hb] at h
      exact ctrlEmbed_wf _ _ _ _ _ h
    · rw [if_neg hb] at h
      exact ctrlEmbed_wf _ _ _ _ _ (ih _ _ h)

theorem ctrlMessage_wf (t : Ctrl) (c : Channel) (m : Message)
    (h : (ctrlMessage t c m).wf = true) : t.wf = true := by
  unfold ctrlMessage at h
  by_cases ha : (m.author.id != botAuthorID) = true
  · rw [if_pos ha] at h
    exact h
  · rw [if_neg ha] at h
    by_cases he : m.embeds.isEmpty = true
    · rw [if_pos he] at h
      exact h
    · rw [if_neg he] at h
      exact ctrlEmbeds_wf c m m.embeds t 0 h

theorem ctrlExport_wf (b : Backup) :
    ∀ (msgs : List Message) (t : Ctrl),
      (msgs.foldl (fun t2 m => ctrlMessage t2 b.channel m) t).wf = true → t.wf = true := by
  intro msgs
  induction msgs with
  | nil => intro t h; exact h
  | cons msg rest ih =>
    intro t h
    rw [List.foldl_cons] at h
    exact ctrlMessage_wf _ _ _ (ih _ h)

theorem ctrlArchives_wf :
    ∀ (backups : List Backup) (t : Ctrl),
      (ctrlArchives t backups).wf = true → t.wf = true := by
  intro backups
  induction backups with
  | nil => intro t h; exact h
  | cons b rest ih =>
    intro t h
    simp only [ctrlArchives, List.foldl_cons] at h
    have h2 : (ctrlExport t b).wf = true := by
      have := ih (ctrlExport t b) ?_
      · exact this
      · exact h
    unfold ctrlExport at h2
    exact ctrlExport_wf b _ _ h2

/-! ## Control invariant preservation -/

theorem ctrlGet_withCounter (t : Ctrl) (n : Nat) (cid : String) :
    ctrlGet { t with counter := n } cid = ctrlGet t cid := rfl

theorem ctrlGet_withSaved (t : Ctrl) (l : List Nat) (cid : String) :
    ctrlGet { t with savedIds := l } cid = ctrlGet t cid := rfl

theorem ctrlGet_withEmitted (t : Ctrl) (E : List (Nat × Nat × Nat)) (cid : String) :
    ctrlGet { t with emitted := E } cid = ctrlGet t cid := rfl

theorem ctrlNums_ctrlSet (t : Ctrl) (cid : String) (cc : CtrlChan) (g : Nat) :
    ctrlNums (ctrlSet t cid cc) g = ctrlNums t g := rfl

theorem ctrlNums_withCounter (t : Ctrl) (n : Nat) (g : Nat) :
    ctrlNums { t with counter := n } g = ctrlNums t g := rfl

theorem ctrlNums_withSaved (t : Ctrl) (l : List Nat) (g : Nat) :
    ctrlNums { t with savedIds := l } g = ctrlNums t g := rfl

theorem ctrlNums_snoc (t : Ctrl) (k : Nat × Nat × Nat) (g : Nat) :
    ctrlNums { t with emitted := t.emitted ++ [k] } g
      = ctrlNums t g ++ (if (k.1 == g) = true then [k.2.1] else []) := by
  show ((t.emitted ++ [k]).filter fun q => q.1 == g).map (fun q => q.2.1)
      = ((t.emitted.filter fun q => q.1 == g).map fun q => q.2.1) ++ _
  rw [List.filter_append, List.map_append]
  congr 1
  by_cases hk : (k.1 == g) = true
  · rw [if_pos hk]
    simp [List.filter_cons, hk]
  · rw [if_neg hk]
    simp [List.filter_cons, hk]

theorem ctrlNums_fresh (t : Ctrl)
    (hb : ∀ k ∈ t.emitted, 1 ≤ k.1 ∧ k.1 ≤ t.counter)
    (g : Nat) (hg : t.counter < g) : ctrlNums t g = [] := by
  unfold ctrlNums
  have hf : t.emitted.filter (fun q => q.1 == g) = [] := by
    rw [List.filter_eq_nil_iff]
    intro k hk
    have := (hb k hk).2
    simp only [beq_iff_eq]
    omega
  rw [hf]
  rfl

/-- The control invariant passes through one embed whenever the step
leaves wf set. -/
theorem ctrlInv_embed (t : Ctrl) (c : Channel) (m : Message) (idx : Nat) (e : Embed)
    (hI : CtrlInv t) (hwf : (ctrlEmbed t c m idx e).1.wf = true) :
    CtrlInv (ctrlEmbed t c m idx e).1 := by
  obtain ⟨i1, i2, i3, i4, i5, i6, i7⟩ := hI
  unfold ctrlEmbed at hwf ⊢
  cases hcl : classifyEmbed m.interaction.isSome idx e with
  | countdown =>
    simp only [hcl] at hwf ⊢
    refine ⟨?_, ?_, ?_, ?_, ?_, ?_, ?_⟩
    · intro cid
      by_cases hc : cid = c.id
      · subst hc
        simp
      · rw [ctrlGet_ctrlSet_other _ _ _ _ hc]
        exact i1 cid
    · intro cid hr
      by_cases hc : cid = c.id
      · subst hc
        simp only [ctrlGet_ctrlSet_same] at hr
        simp at hr
      · rw [ctrlGet_ctrlSet_other _ _ _ _ hc] at hr ⊢
        exact i2 cid hr
    · intro cid
      by_cases hc : cid = c.id
      · subst hc
        simp [ctrlSet_counter]
      · rw [ctrlGet_ctrlSet_other _ _ _ _ hc, ctrlGet_withCounter]
        simp only [ctrlSet_counter]
        have := i3 cid
        omega
    · intro c1 c2 hnz heq
      by_cases h1 : c1 = c.id <;> by_cases h2 : c2 = c.id
      · rw [h1, h2]
      · subst h1
        exfalso
        simp only [ctrlGet_ctrlSet_same] at heq
        rw [ctrlGet_ctrlSet_other _ _ _ _ h2, ctrlGet_withCounter] at heq
        have := i3 c2
        omega
      · subst h2
        exfalso
        simp only [ctrlGet_ctrlSet_same] at heq
        rw [ctrlGet_ctrlSet_other _ _ _ _ h1, ctrlGet_withCounter] at heq
        have := i3 c1
        omega
      · rw [ctrlGet_ctrlSet_other _ _ _ _ h1] at hnz heq
        rw [ctrlGet_ctrlSet_other _ _ _ _ h2] at heq
        exact i4 c1 c2 hnz heq
    · intro k hk
      simp only [ctrlSet_emitted] at hk
      have := i5 k hk
      simp only [ctrlSet_counter]
      omega
    · intro cid
      by_cases hc : cid = c.id
      · subst hc
        refine Or.inr ?_
        simp only [ctrlGet_ctrlSet_same]
        rw [ctrlNums_ctrlSet, ctrlNums_withCounter,
            ctrlNums_fresh t i5 _ (Nat.lt_succ_self _)]
        simp
      · rw [ctrlGet_ctrlSet_other _ _ _ _ hc]
        cases i6 cid with
        | inl h0 => exact Or.inl h0
        | inr hn =>
          refine Or.inr ?_
          rw [ctrlNums_ctrlSet, ctrlNums_withCounter]
          exact hn
    · intro g
      obtain ⟨n0, hn0⟩ := i7 g
      exact ⟨n0, by rw [ctrlNums_ctrlSet, ctrlNums_withCounter]; exact hn0⟩
  | contCountdown =>
    simp only [hcl]
    exact ⟨i1, i2, i3, i4, i5, i6, i7⟩
  | started =>
    simp only [hcl] at hwf ⊢
    by_cases hg : (ctrlGet t c.id).gameId = 0
    · rw [if_pos hg] at hwf
      exact absurd hwf (by simp [ctrlSet_wf])
    · rw [if_neg hg]
      refine ⟨?_, ?_, ?_, ?_, ?_, ?_, ?_⟩
      · intro cid
        by_cases hc : cid = c.id
        · subst hc
          simp only [ctrlGet_ctrlSet_same]
          exact i1 c.id
        · rw [ctrlGet_ctrlSet_other _ _ _ _ hc]
          exact i1 cid
      · intro cid hr
        by_cases hc : cid = c.id
        · subst hc
          simp only [ctrlGet_ctrlSet_same]
          exact hg
        · rw [ctrlGet_ctrlSet_other _ _ _ _ hc] at hr ⊢
          exact i2 cid hr
      · intro cid
        by_cases hc : cid = c.id
        · subst hc
          simp only [ctrlGet_ctrlSet_same, ctrlSet_counter]
          exact i3 c.id
        · rw [ctrlGet_ctrlSet_other _ _ _ _ hc]
          simp only [ctrlSet_counter]
          exact i3 cid
      · intro c1 c2 hnz heq
        by_cases h1 : c1 = c.id <;> by_cases h2 : c2 = c.id
        · rw [h1, h2]
        · subst h1
          simp only [ctrlGet_ctrlSet_same] at heq
          rw [ctrlGet_ctrlSet_other _ _ _ _ h2] at heq
          simp only [ctrlGet_ctrlSet_same] at hnz
          exact i4 c.id c2 hnz heq
        · subst h2
          simp only [ctrlGet_ctrlSet_same] at heq
          rw [ctrlGet_ctrlSet_other _ _ _ _ h1] at hnz heq
          exact i4 c1 c.id hnz heq
        · rw [ctrlGet_ctrlSet_other _ _ _ _ h1] at hnz heq
          rw [ctrlGet_ctrlSet_other _ _ _ _ h2] at heq
          exact i4 c1 c2 hnz heq
      · intro k hk
        simp only [ctrlSet_emitted] at hk
        have := i5 k hk
        simp only [ctrlSet_counter]
        omega
      · intro cid
        by_cases hc : cid = c.id
        · subst hc
          simp only [ctrlGet_ctrlSet_same]
          cases i6 c.id with
          | inl h0 => exact absurd h0 hg
          | inr hn =>
            refine Or.inr ?_
            rw [ctrlNums_ctrlSet, ctrlNums_withSaved]
            exact hn
        · rw [ctrlGet_ctrlSet_other _ _ _ _ hc]
          cases i6 cid with
          | inl h0 => exact Or.inl h0
          | inr hn =>
            refine Or.inr ?_
            rw [ctrlNums_ctrlSet, ctrlNums_withSaved]
            exact hn
      · intro g
        obtain ⟨n0, hn0⟩ := i7 g
        exact ⟨n0, by rw [ctrlNums_ctrlSet, ctrlNums_withSaved]; exact hn0⟩
  | cancelledMsg =>
    simp only [hcl]
    by_cases hr : (ctrlGet t c.id).running = true
    · simp only [hr, Bool.not_true, Bool.false_eq_true, if_false]
      refine ⟨?_, ?_, ?_, ?_, ?_, ?_, ?_⟩
      · intro cid
        by_cases hc : cid = c.id
        · subst hc
          simp only [ctrlGet_ctrlSet_same]
          exact i1 c.id
        · rw [ctrlGet_ctrlSet_other _ _ _ _ hc]
          exact i1 cid
      · intro cid hr2
        by_cases hc : cid = c.id
        · subst hc
          simp only [ctrlGet_ctrlSet_same] at hr2
          simp at hr2
        · rw [ctrlGet_ctrlSet_other _ _ _ _ hc] at hr2 ⊢
          exact i2 cid hr2
      · intro cid
        by_cases hc : cid = c.id
        · subst hc
          simp only [ctrlGet_ctrlSet_same, ctrlSet_counter]
          exact i3 c.id
        · rw [ctrlGet_ctrlSet_other _ _ _ _ hc]
          simp only [ctrlSet_counter]
          exact i3 cid
      · intro c1 c2 hnz heq
        by_cases h1 : c1 = c.id <;> by_cases h2 : c2 = c.id
        · rw [h1, h2]
        · subst h1
          simp only [ctrlGet_ctrlSet_same] at heq hnz
          rw [ctrlGet_ctrlSet_other _ _ _ _ h2] at heq
          exact i4 c.id c2 hnz heq
        · subst h2
          simp only [ctrlGet_ctrlSet_same] at heq
          rw [ctrlGet_ctrlSet_other _ _ _ _ h1] at hnz heq
          exact i4 c1 c.id hnz heq
        · rw [ctrlGet_ctrlSet_other _ _ _ _ h1] at hnz heq
          rw [ctrlGet_ctrlSet_other _ _ _ _ h2] at heq
          exact i4 c1 c2 hnz heq
      · intro k hk
        simp only [ctrlSet_emitted] at hk
        have := i5 k hk
        simp only [ctrlSet_counter]
        omega
      · intro cid
        by_cases hc : cid = c.id
        · subst hc
          simp only [ctrlGet_ctrlSet_same]
          cases i6 c.id with
          | inl h0 => exact Or.inl h0
          | inr hn =>
            refine Or.inr ?_
            rw [ctrlNums_ctrlSet, ctrlNums_withSaved]
            exact hn
        · rw [ctrlGet_ctrlSet_other _ _ _ _ hc]
          cases i6 cid with
          | inl h0 => exact Or.inl h0
          | inr hn =>
            refine Or.inr ?_
            rw [ctrlNums_ctrlSet, ctrlNums_withSaved]
            exact hn
      · intro g
        obtain ⟨n0, hn0⟩ := i7 g
        exact ⟨n0, by rw [ctrlNums_ctrlSet, ctrlNums_withSaved]; exact hn0⟩
    · have hrf : (ctrlGet t c.id).running = false := by
        cases hb : (ctrlGet t c.id).running
        · rfl
        · exact absurd hb hr
      simp only [hrf, Bool.not_false, if_true]
      exact ⟨i1, i2, i3, i4, i5, i6, i7⟩
  | winner =>
    simp only [hcl]
    by_cases hr : (ctrlGet t c.id).running = true
    · simp only [hr, Bool.not_true, Bool.false_eq_true, if_false]
      refine ⟨?_, ?_, ?_, ?_, ?_, ?_, ?_⟩
      · intro cid
        by_cases hc : cid = c.id
        · subst hc
          simp only [ctrlGet_ctrlSet_same]
          exact i1 c.id
        · rw [ctrlGet_ctrlSet_other _ _ _ _ hc]
          exact i1 cid
      · intro cid hr2
        by_cases hc : cid = c.id
        · subst hc
          simp only [ctrlGet_ctrlSet_same] at hr2
          simp at hr2
        · rw [ctrlGet_ctrlSet_other _ _ _ _ hc] at hr2 ⊢
          exact i2 cid hr2
      · intro cid
        by_cases hc : cid = c.id
        · subst hc
          simp only [ctrlGet_ctrlSet_same, ctrlSet_counter]
          exact i3 c.id
        · rw [ctrlGet_ctrlSet_other _ _ _ _ hc]
          simp only [ctrlSet_counter]
          exact i3 cid
      · intro c1 c2 hnz heq
        by_cases h1 : c1 = c.id <;> by_cases h2 : c2 = c.id
        · rw [h1, h2]
        · subst h1
          simp only [ctrlGet_ctrlSet_same] at heq hnz
          rw [ctrlGet_ctrlSet_other _ _ _ _ h2] at heq
          exact i4 c.id c2 hnz heq
        · subst h2
          simp only [ctrlGet_ctrlSet_same] at heq
          rw [ctrlGet_ctrlSet_other _ _ _ _ h1] at hnz heq
          exact i4 c1 c.id hnz heq
        · rw [ctrlGet_ctrlSet_other _ _ _ _ h1] at hnz heq
          rw [ctrlGet_ctrlSet_other _ _ _ _ h2] at heq
          exact i4 c1 c2 hnz heq
      · intro k hk
        simp only [ctrlSet_emitted] at hk
        have := i5 k hk
        simp only [ctrlSet_counter]
        omega
      · intro cid
        by_cases hc : cid = c.id
        · subst hc
          simp only [ctrlGet_ctrlSet_same]
          cases i6 c.id with
          | inl h0 => exact Or.inl h0
          | inr hn =>
            refine Or.inr ?_
            rw [ctrlNums_ctrlSet, ctrlNums_withSaved]
            exact hn
        · rw [ctrlGet_ctrlSet_other _ _ _ _ hc]
          cases i6 cid with
          | inl h0 => exact Or.inl h0
          | inr hn =>
            refine Or.inr ?_
            rw [ctrlNums_ctrlSet, ctrlNums_withSaved]
            exact hn
      · intro g
        obtain ⟨n0, hn0⟩ := i7 g
        exact ⟨n0, by rw [ctrlNums_ctrlSet, ctrlNums_withSaved]; exact hn0⟩
    · have hrf : (ctrlGet t c.id).running = false := by
        cases hb : (ctrlGet t c.id).running
        · rfl
        · exact absurd hb hr
      simp only [hrf, Bool.not_false, if_true]
      exact ⟨i1, i2, i3, i4, i5, i6, i7⟩
  | balance =>
    simp only [hcl]
    exact ⟨i1, i2, i3, i4, i5, i6, i7⟩
  | roundMsg =>
    simp only [hcl]
    by_cases hr : (ctrlGet t c.id).running = true
    · simp only [hr, Bool.not_true, Bool.false_eq_true, if_false]
      have hrg : (ctrlGet t c.id).roundGameId = (ctrlGet t c.id).gameId := i1 c.id
      have hgnz : (ctrlGet t c.id).gameId ≠ 0 := i2 c.id hr
      have hnums : ctrlNums t (ctrlGet t c.id).gameId
          = List.range (ctrlGet t c.id).roundNumber := (i6 c.id).resolve_left hgnz
      refine ⟨?_, ?_, ?_, ?_, ?_, ?_, ?_⟩
      · intro cid
        by_cases hc : cid = c.id
        · subst hc
          simp
        · rw [ctrlGet_ctrlSet_other _ _ _ _ hc]
          exact i1 cid
      · intro cid hr2
        by_cases hc : cid = c.id
        · subst hc
          simp only [ctrlGet_ctrlSet_same]
          exact hgnz
        · rw [ctrlGet_ctrlSet_other _ _ _ _ hc] at hr2 ⊢
          exact i2 cid hr2
      · intro cid
        by_cases hc : cid = c.id
        · subst hc
          simp only [ctrlGet_ctrlSet_same, ctrlSet_counter]
          exact i3 c.id
        · rw [ctrlGet_ctrlSet_other _ _ _ _ hc]
          simp only [ctrlSet_counter]
          exact i3 cid
      · intro c1 c2 hnz heq
        by_cases h1 : c1 = c.id <;> by_cases h2 : c2 = c.id
        · rw [h1, h2]
        · subst h1
          simp only [ctrlGet_ctrlSet_same] at heq hnz
          rw [ctrlGet_ctrlSet_other _ _ _ _ h2] at heq
          exact i4 c.id c2 hnz heq
        · subst h2
          simp only [ctrlGet_ctrlSet_same] at heq
          rw [ctrlGet_ctrlSet_other _ _ _ _ h1] at hnz heq
          exact i4 c1 c.id hnz heq
        · rw [ctrlGet_ctrlSet_other _ _ _ _ h1] at hnz heq
          rw [ctrlGet_ctrlSet_other _ _ _ _ h2] at heq
          exact i4 c1 c2 hnz heq
      · intro k hk
        simp only [ctrlSet_emitted] at hk
        rw [List.mem_append] at hk
        simp only [ctrlSet_counter]
        cases hk with
        | inl hold =>
          have := i5 k hold
          omega
        | inr hnew =>
          rw [List.mem_singleton] at hnew
          subst hnew
          have h3 := i3 c.id
          have h4 : 1 ≤ (ctrlGet t c.id).gameId := Nat.one_le_iff_ne_zero.mpr hgnz
          simp only [hrg]
          omega
      · intro cid
        by_cases hc : cid = c.id
        · subst hc
          simp only [ctrlGet_ctrlSet_same]
          refine Or.inr ?_
          rw [ctrlNums_ctrlSet, ctrlNums_snoc]
          simp [hrg, hnums, List.range_succ]
        · rw [ctrlGet_ctrlSet_other _ _ _ _ hc, ctrlGet_withEmitted]
          by_cases hg2 : (ctrlGet t cid).gameId = 0
          · exact Or.inl hg2
          · refine Or.inr ?_
            have hne : (ctrlGet t c.id).gameId ≠ (ctrlGet t cid).gameId := by
              intro habs
              exact hc (i4 cid c.id hg2 habs.symm)
            rw [ctrlNums_ctrlSet, ctrlNums_snoc]
            have hif : (((ctrlGet t c.id).roundGameId, (ctrlGet t c.id).roundNumber,
                m.timestamp).1 == (ctrlGet t cid).gameId) = false := by
              simp only [beq_eq_false_iff_ne, ne_eq]
              rw [hrg]
              exact hne
            rw [hif]
            simp only [Bool.false_eq_true, if_false, List.append_nil]
            exact (i6 cid).resolve_left hg2
      · intro g
        by_cases hg0 : g = (ctrlGet t c.id).gameId
        · subst hg0
          refine ⟨(ctrlGet t c.id).roundNumber + 1, ?_⟩
          rw [ctrlNums_ctrlSet, ctrlNums_snoc]
          simp [hrg, hnums, List.range_succ]
        · obtain ⟨n0, hn0⟩ := i7 g
          refine ⟨n0, ?_⟩
          rw [ctrlNums_ctrlSet, ctrlNums_snoc]
          have hif : (((ctrlGet t c.id).roundGameId, (ctrlGet t c.id).roundNumber,
              m.timestamp).1 == g) = false := by
            simp only [beq_eq_false_iff_ne, ne_eq]
            rw [hrg]
            exact fun habs => hg0 habs.symm
          rw [hif]
          simp only [Bool.false_eq_true, if_false, List.append_nil]
          exact hn0
    · have hrf : (ctrlGet t c.id).running = false := by
        cases hb : (ctrlGet t c.id).running
        · rfl
        · exact absurd hb hr
      simp only [hrf, Bool.not_false, if_true]
      exact ⟨i1, i2, i3, i4, i5, i6, i7⟩
  | skip =>
    simp only [hcl]
    exact ⟨i1, i2, i3, i4, i5, i6, i7⟩

theorem ctrlInv_init : CtrlInv ({} : Ctrl) := by
  refine ⟨fun cid => rfl, fun cid hr => by simp [ctrlGet] at hr, fun cid => Nat.le_refl 0,
    fun c1 c2 hnz heq => absurd rfl hnz, fun k hk => absurd hk (List.not_mem_nil k),
    fun cid => Or.inl rfl, fun g => ⟨0, rfl⟩⟩

theorem ctrlInv_embeds (c : Channel) (m : Message) :
    ∀ (es : List Embed) (t : Ctrl) (idx : Nat),
      CtrlInv t → (ctrlEmbeds c m t idx es).wf = true →
      CtrlInv (ctrlEmbeds c m t idx es) := by
  intro es
  induction es with
  | nil => intro t idx hI _; exact hI
  | cons e rest ih =>
    intro t idx hI hwf
    simp only [ctrlEmbeds] at hwf ⊢
    by_cases hb : (ctrlEmbed t c m idx e).2 = true
    · rw [if_pos hb] at hwf ⊢
      exact ctrlInv_embed t c m idx e hI hwf
    · rw [if_neg hb] at hwf ⊢
      have hwf1 : (ctrlEmbed t c m idx e).1.wf = true := ctrlEmbeds_wf c m rest _ _ hwf
      exact ih _ _ (ctrlInv_embed t c m idx e hI hwf1) hwf
  
theorem ctrlInv_message (t : Ctrl) (c : Channel) (m : Message)
    (hI : CtrlInv t) (hwf : (ctrlMessage t c m).wf = true) :
    CtrlInv (ctrlMessage t c m) := by
  unfold ctrlMessage at hwf ⊢
  by_cases ha : (m.author.id != botAuthorID) = true
  · rw [if_pos ha]
    exact hI
  · rw [if_neg ha] at hwf ⊢
    by_cases he : m.embeds.isEmpty = true
    · rw [if_pos he]
      exact hI
    · rw [if_neg he] at hwf ⊢
      exact ctrlInv_embeds c m m.embeds t 0 hI hwf

theorem ctrlInv_export (b : Backup) :
    ∀ (msgs : List Message) (t : Ctrl),
      CtrlInv t →
      (msgs.foldl (fun t2 m => ctrlMessage t2 b.channel m) t).wf = true →
      CtrlInv (msgs.foldl (fun t2 m => ctrlMessage t2 b.channel m) t) := by
  intro msgs
  induction msgs with
  | nil => intro t hI _; exact hI
  | cons msg rest ih =>
    intro t hI hwf
    rw [List.foldl_cons] at hwf ⊢
    have hwf1 : (ctrlMessage t b.channel msg).wf = true := ctrlExport_wf b rest _ hwf
    exact ih _ (ctrlInv_message t b.channel msg hI hwf1) hwf

theorem ctrlInv_archives :
    ∀ (backups : List Backup) (t : Ctrl),
      CtrlInv t → (ctrlArchives t backups).wf = true →
      CtrlInv (ctrlArchives t backups) := by
  intro backups
  induction backups with
  | nil => intro t hI _; exact hI
  | cons b rest ih =>
    intro t hI hwf
    simp only [ctrlArchives, List.foldl_cons] at hwf ⊢
    have hwf1 : (ctrlExport t b).wf = true := by
      have h2 := ctrlArchives_wf rest (ctrlExport t b)
      unfold ctrlArchives at h2
      exact h2 hwf
    have hI1 : CtrlInv (ctrlExport t b) := by
      unfold ctrlExport
      have := ctrlInv_export b b.messages t hI ?_
      · exact this
      · unfold ctrlExport at hwf1
        exact hwf1
    exact ih _ hI1 hwf

/-! ## The projection: one embed of the real replay against the control machine -/

theorem proj_embedStep (ps : PState) (t : Ctrl) (c : Channel) (m : Message) (idx : Nat)
    (e : Embed) (p : PState × Bool)
    (hA : Agrees ps t) (hI : CtrlInv t)
    (hwf : (ctrlEmbed t c m idx e).1.wf = true)
    (h : embedStep ps c m idx e = .ok p) :
    Agrees p.1 (ctrlEmbed t c m idx e).1 ∧
    p.2 = (ctrlEmbed t c m idx e).2 ∧
    (∃ D, (ctrlEmbed t c m idx e).1.emitted = t.emitted ++ D ∧
      p.1.db.rounds.map roundKey = ps.db.rounds.map roundKey ++ D) ∧
    (∃ S, (ctrlEmbed t c m idx e).1.savedIds = t.savedIds ++ S ∧
      (∀ i, i ∈ p.1.db.games.map Game.id ↔ i ∈ ps.db.games.map Game.id ∨ i ∈ S)) := by
  obtain ⟨a1, a2⟩ := hA
  obtain ⟨i1, i2, i3, i4, i5, i6, i7⟩ := hI
  unfold embedStep at h
  unfold ctrlEmbed at hwf ⊢
  cases hcl : classifyEmbed m.interaction.isSome idx e with
  | countdown =>
    simp only [hcl] at h hwf ⊢
    obtain ⟨hp, hb⟩ := wrapMap_ok_inv _ _ _ _ h
    obtain ⟨c1, c2, c3, c4, c5, c6, c7⟩ := processGameCountdownStart_ok ps p.1 c m e hp
    refine ⟨⟨?_, ?_⟩, ?_, ⟨[], ?_, ?_⟩, ⟨[], ?_, ?_⟩⟩
    · rw [c2, a1]
      rfl
    · intro cid
      by_cases hc : cid = c.id
      · subst hc
        simp only [ctrlGet_ctrlSet_same]
        exact ⟨by rw [c3], by rw [c4, a1], by rw [c5, a1], by rw [c6]⟩
      · rw [ctrlGet_ctrlSet_other _ _ _ _ hc, ctrlGet_withCounter, c7 cid hc]
        exact a2 cid
    · rw [hb]
    · rw [List.append_nil]
      rfl
    · rw [List.append_nil, c1]
    · rw [List.append_nil]
      rfl
    · intro i
      rw [c1]
      simp
  | contCountdown =>
    simp only [hcl] at h ⊢
    simp only [Except.ok.injEq] at h
    rw [← h]
    exact ⟨⟨a1, a2⟩, rfl, ⟨[], by rw [List.append_nil], by rw [List.append_nil]⟩,
      ⟨[], by rw [List.append_nil], fun i => by simp⟩⟩
  | started =>
    simp only [hcl] at h hwf ⊢
    obtain ⟨hp, hb⟩ := wrapMap_ok_inv _ _ _ _ h
    by_cases hg : (ctrlGet t c.id).gameId = 0
    · rw [if_pos hg] at hwf
      exact absurd hwf (by simp [ctrlSet_wf])
    · rw [if_neg hg]
      have hnz : (getChan ps c.id).lastKnownGame.id ≠ 0 := by
        rw [(a2 c.id).2.1]
        exact hg
      obtain ⟨g1, g2, g3, g4, g5, g6, g7, g8, g9, g10, g11, g12, g13⟩ :=
        processGameStart_ok ps p.1 c m e hnz hp
      refine ⟨⟨?_, ?_⟩, ?_, ⟨[], ?_, ?_⟩, ⟨[(ctrlGet t c.id).gameId], ?_, ?_⟩⟩
      · rw [g9, a1]
        rfl
      · intro cid
        by_cases hc : cid = c.id
        · subst hc
          simp only [ctrlGet_ctrlSet_same]
          refine ⟨by rw [g10], by rw [g11, (a2 c.id).2.1], ?_, ?_⟩
          · rw [g12, (a2 c.id).2.2.1]
          · rw [g12, (a2 c.id).2.2.2]
        · rw [ctrlGet_ctrlSet_other _ _ _ _ hc, ctrlGet_withSaved, g13 cid hc]
          exact a2 cid
      · rw [hb]
      · rw [List.append_nil]
        rfl
      · rw [List.append_nil, g1]
      · rfl
      · intro i
        rw [List.mem_singleton]
        rw [(a2 c.id).2.1] at g2
        exact g2 i
  | cancelledMsg =>
    simp only [hcl] at h ⊢
    obtain ⟨hb, hcase⟩ := discard_ok_inv _ _ _ h
    by_cases hr : (ctrlGet t c.id).running = true
    · simp only [hr, Bool.not_true, Bool.false_eq_true, if_false]
      have hrun : (getChan ps c.id).lastKnownIsGameRunning = true := by
        rw [(a2 c.id).1]
        exact hr
      have hnz : (getChan ps c.id).lastKnownGame.id ≠ 0 := by
        rw [(a2 c.id).2.1]
        exact i2 c.id hr
      have hp : processGameCancelled ps c m = .ok p.1 := by
        cases hcase with
        | inl hc =>
          exfalso
          obtain ⟨⟨e, herr⟩, _⟩ := hc
          unfold processGameCancelled at herr
          simp only [hrun, Bool.not_true, Bool.false_eq_true, if_false] at herr
          exact absurd herr (by simp)
        | inr hok => exact hok
      obtain ⟨w1, w2, w3, w4, w5, w6, w7, w8, w9, w10, w11, w12, w13⟩ :=
        processGameCancelled_run_ok ps p.1 c m hrun hnz hp
      refine ⟨⟨?_, ?_⟩, ?_, ⟨[], ?_, ?_⟩, ⟨[(ctrlGet t c.id).gameId], ?_, ?_⟩⟩
      · rw [w9, a1]
        rfl
      · intro cid
        by_cases hc : cid = c.id
        · subst hc
          simp only [ctrlGet_ctrlSet_same]
          refine ⟨by rw [w10], by rw [w11, (a2 c.id).2.1], ?_, ?_⟩
          · rw [w12, (a2 c.id).2.2.1]
          · rw [w12, (a2 c.id).2.2.2]
        · rw [ctrlGet_ctrlSet_other _ _ _ _ hc, ctrlGet_withSaved, w13 cid hc]
          exact a2 cid
      · rw [hb]
      · rw [List.append_nil]
        rfl
      · rw [List.append_nil, w1]
      · rfl
      · intro i
        rw [List.mem_singleton]
        rw [(a2 c.id).2.1] at w2
        exact w2 i
    · have hcr : (ctrlGet t c.id).running = false := by
        cases hbq : (ctrlGet t c.id).running
        · rfl
        · exact absurd hbq hr
      have hrunf : (getChan ps c.id).lastKnownIsGameRunning = false := by
        rw [(a2 c.id).1]
        exact hcr
      simp only [hcr, Bool.not_false, if_true]
      have hps : p.1 = ps := by
        cases hcase with
        | inl hc => exact hc.2
        | inr hok =>
          unfold processGameCancelled at hok
          simp only [hrunf, Bool.not_false, if_true] at hok
          by_cases h0 : (getChan ps c.id).lastKnownGame.id = 0
          · rw [if_pos h0] at hok
            simp only [Except.ok.injEq] at hok
            exact hok.symm
          · rw [if_neg h0] at hok
            simp at hok
      rw [hps]
      exact ⟨⟨a1, a2⟩, by rw [hb], ⟨[], by rw [List.append_nil], by rw [List.append_nil]⟩,
        ⟨[], by rw [List.append_nil], fun i => by simp⟩⟩
  | winner =>
    simp only [hcl] at h ⊢
    obtain ⟨hb, hcase⟩ := discard_ok_inv _ _ _ h
    by_cases hr : (ctrlGet t c.id).running = true
    · simp only [hr, Bool.not_true, Bool.false_eq_true, if_false]
      have hrun : (getChan ps c.id).lastKnownIsGameRunning = true := by
        rw [(a2 c.id).1]
        exact hr
      have hnz : (getChan ps c.id).lastKnownGame.id ≠ 0 := by
        rw [(a2 c.id).2.1]
        exact i2 c.id hr
      have hp : processGameWinner ps c m = .ok p.1 := by
        cases hcase with
        | inl hc =>
          exfalso
          obtain ⟨⟨e, herr⟩, _⟩ := hc
          unfold processGameWinner at herr
          simp only [hrun, Bool.not_true, Bool.false_eq_true, if_false] at herr
          exact absurd herr (by simp)
        | inr hok => exact hok
      obtain ⟨w1, w2, w3, w4, w5, w6, w7, w8, w9, w10, w11, w12, w13⟩ :=
        processGameWinner_run_ok ps p.1 c m hrun hnz hp
      refine ⟨⟨?_, ?_⟩, ?_, ⟨[], ?_, ?_⟩, ⟨[(ctrlGet t c.id).gameId], ?_, ?_⟩⟩
      · rw [w9, a1]
        rfl
      · intro cid
        by_cases hc : cid = c.id
        · subst hc
          simp only [ctrlGet_ctrlSet_same]
          refine ⟨by rw [w10], by rw [w11, (a2 c.id).2.1], ?_, ?_⟩
          · rw [w12, (a2 c.id).2.2.1]
          · rw [w12, (a2 c.id).2.2.2]
        · rw [ctrlGet_ctrlSet_other _ _ _ _ hc, ctrlGet_withSaved, w13 cid hc]
          exact a2 cid
      · rw [hb]
      · rw [List.append_nil]
        rfl
      · rw [List.append_nil, w1]
      · rfl
      · intro i
        rw [List.mem_singleton]
        rw [(a2 c.id).2.1] at w2
        exact w2 i
    · have hcr : (ctrlGet t c.id).running = false := by
        cases hbq : (ctrlGet t c.id).running
        · rfl
        · exact absurd hbq hr
      have hrunf : (getChan ps c.id).lastKnownIsGameRunning = false := by
        rw [(a2 c.id).1]
        exact hcr
      simp only [hcr, Bool.not_false, if_true]
      have hps : p.1 = ps := by
        cases hcase with
        | inl hc => exact hc.2
        | inr hok =>
          unfold processGameWinner at hok
          simp only [hrunf, Bool.not_false, if_true] at hok
          by_cases h0 : (getChan ps c.id).lastKnownGame.id = 0
          · rw [if_pos h0] at hok
            simp only [Except.ok.injEq] at hok
            exact hok.symm
          · rw [if_neg h0] at hok
            simp at hok
      rw [hps]
      exact ⟨⟨a1, a2⟩, by rw [hb], ⟨[], by rw [List.append_nil], by rw [List.append_nil]⟩,
        ⟨[], by rw [List.append_nil], fun i => by simp⟩⟩
  | balance =>
    simp only [hcl] at h ⊢
    cases hint : m.interaction with
    | none =>
      rw [hint] at h
      simp at h
    | some itn =>
      rw [hint] at h
      obtain ⟨hp, hb⟩ := map_pair_ok_inv _ _ _ h
      obtain ⟨o1, o2, o3, o4, o5, o6, o7, o8⟩ := observeUserName_ok _ _ _ _ _ hp
      refine ⟨⟨?_, ?_⟩, ?_, ⟨[], by rw [List.append_nil], ?_⟩,
        ⟨[], by rw [List.append_nil], ?_⟩⟩
      · rw [o2, a1]
      · intro cid
        have hch : getChan p.1 cid = getChan ps cid := by
          unfold getChan
          rw [o1]
        rw [hch]
        exact a2 cid
      · rw [hb]
      · rw [List.append_nil, o3]
      · intro i
        rw [o4]
        simp
  | roundMsg =>
    simp only [hcl] at h ⊢
    obtain ⟨hp, hb⟩ := wrapMap_ok_inv _ _ _ _ h
    by_cases hr : (ctrlGet t c.id).running = true
    · simp only [hr, Bool.not_true, Bool.false_eq_true, if_false]
      have hrun : (getChan ps c.id).lastKnownIsGameRunning = true := by
        rw [(a2 c.id).1]
        exact hr
      obtain ⟨r1, r2, r3, r4, r5, r6, r7, r8, r9, r10, r11⟩ :=
        processRound_run_ok ps p.1 c m e hrun hp
      refine ⟨⟨?_, ?_⟩, ?_,
        ⟨[((ctrlGet t c.id).roundGameId, (ctrlGet t c.id).roundNumber, m.timestamp)], ?_, ?_⟩,
        ⟨[], ?_, ?_⟩⟩
      · rw [r6, a1]
        rfl
      · intro cid
        by_cases hc : cid = c.id
        · subst hc
          simp only [ctrlGet_ctrlSet_same]
          refine ⟨by rw [r7], by rw [r8, (a2 c.id).2.1], ?_, ?_⟩
          · rw [r9, (a2 c.id).2.1]
          · rw [r10, (a2 c.id).2.2.2]
        · rw [ctrlGet_ctrlSet_other _ _ _ _ hc, ctrlGet_withEmitted, r11 cid hc]
          exact a2 cid
      · rw [hb]
      · rfl
      · rw [r1, (a2 c.id).2.2.1, (a2 c.id).2.2.2]
      · rw [List.append_nil]
        rfl
      · intro i
        rw [r2]
        simp
    · have hcr : (ctrlGet t c.id).running = false := by
        cases hbq : (ctrlGet t c.id).running
        · rfl
        · exact absurd hbq hr
      have hrunf : (getChan ps c.id).lastKnownIsGameRunning = false := by
        rw [(a2 c.id).1]
        exact hcr
      simp only [hcr, Bool.not_false, if_true]
      unfold processRound at hp
      simp only [hrunf, Bool.not_false, if_true] at hp
      by_cases h0 : (getChan ps c.id).lastKnownGame.id = 0
      · rw [if_pos h0] at hp
        simp only [Except.ok.injEq] at hp
        rw [← hp]
        exact ⟨⟨a1, a2⟩, by rw [hb], ⟨[], by rw [List.append_nil], by rw [List.append_nil]⟩,
          ⟨[], by rw [List.append_nil], fun i => by simp⟩⟩
      · rw [if_neg h0] at hp
        simp at hp
  | skip =>
    simp only [hcl] at h ⊢
    simp only [Except.ok.injEq] at h
    rw [← h]
    exact ⟨⟨a1, a2⟩, rfl, ⟨[], by rw [List.append_nil], by rw [List.append_nil]⟩,
      ⟨[], by rw [List.append_nil], fun i => by simp⟩⟩

/-- Agreement only reads the channel map and the counter. -/
theorem agrees_of_eq (ps ps2 : PState) (t : Ctrl)
    (hch : ps2.channels = ps.channels)
    (hc : ps2.lastKnownGameID = ps.lastKnownGameID)
    (hA : Agrees ps t) : Agrees ps2 t := by
  obtain ⟨a1, a2⟩ := hA
  refine ⟨by rw [hc, a1], fun cid => ?_⟩
  have hg : getChan ps2 cid = getChan ps cid := by
    unfold getChan
    rw [hch]
  rw [hg]
  exact a2 cid

/-- The identity-observation passes leave channels, counter, rounds and
game ids alone. -/
theorem obsFold_facts (m : Message) :
    ∀ (us : List DiscordUser) (ps ps' : PState),
      us.foldlM (fun s u => observeUserName s m u.id u.name) ps = .ok ps' →
      ps'.channels = ps.channels ∧ ps'.lastKnownGameID = ps.lastKnownGameID ∧
      ps'.db.rounds = ps.db.rounds ∧ ps'.db.games.map Game.id = ps.db.games.map Game.id := by
  intro us
  induction us with
  | nil =>
    intro ps ps' h
    simp only [List.foldlM_nil, except_pure_eq, Except.ok.injEq] at h
    rw [← h]
    exact ⟨rfl, rfl, rfl, rfl⟩
  | cons u rest ih =>
    intro ps ps' h
    rw [List.foldlM_cons] at h
    obtain ⟨ps1, h1, h⟩ := except_bind_inv _ _ _ h
    obtain ⟨o1, o2, o3, o4, _, _, _, _⟩ := observeUserName_ok _ _ _ _ _ h1
    obtain ⟨p1, p2, p3, p4⟩ := ih _ _ h
    exact ⟨by rw [p1, o1], by rw [p2, o2], by rw [p3, o3], by rw [p4, o4]⟩

theorem reactsFold_facts (m : Message) :
    ∀ (rs : List Reaction) (ps ps' : PState),
      rs.foldlM (fun s r =>
        r.users.foldlM (fun s2 u => observeUserName s2 m u.id u.name) s) ps = .ok ps' →
      ps'.channels = ps.channels ∧ ps'.lastKnownGameID = ps.lastKnownGameID ∧
      ps'.db.rounds = ps.db.rounds ∧ ps'.db.games.map Game.id = ps.db.games.map Game.id := by
  intro rs
  induction rs with
  | nil =>
    intro ps ps' h
    simp only [List.foldlM_nil, except_pure_eq, Except.ok.injEq] at h
    rw [← h]
    exact ⟨rfl, rfl, rfl, rfl⟩
  | cons r rest ih =>
    intro ps ps' h
    rw [List.foldlM_cons] at h
    obtain ⟨ps1, h1, h⟩ := except_bind_inv _ _ _ h
    obtain ⟨o1, o2, o3, o4⟩ := obsFold_facts m _ _ _ h1
    obtain ⟨p1, p2, p3, p4⟩ := ih _ _ h
    exact ⟨by rw [p1, o1], by rw [p2, o2], by rw [p3, o3], by rw [p4, o4]⟩

theorem proj_embedsLoop (c : Channel) (m : Message) :
    ∀ (es : List Embed) (ps : PState) (t : Ctrl) (idx : Nat) (ps' : PState),
      Agrees ps t → CtrlInv t → (ctrlEmbeds c m t idx es).wf = true →
      embedsLoop c m ps idx es = .ok ps' →
      Agrees ps' (ctrlEmbeds c m t idx es) ∧
      (∃ D, (ctrlEmbeds c m t idx es).emitted = t.emitted ++ D ∧
        ps'.db.rounds.map roundKey = ps.db.rounds.map roundKey ++ D) ∧
      (∃ S, (ctrlEmbeds c m t idx es).savedIds = t.savedIds ++ S ∧
        (∀ i, i ∈ ps'.db.games.map Game.id ↔ i ∈ ps.db.games.map Game.id ∨ i ∈ S)) := by
  intro es
  induction es with
  | nil =>
    intro ps t idx ps' hA hI hwf h
    simp only [embedsLoop, Except.ok.injEq] at h
    rw [← h]
    have hteq : ctrlEmbeds c m t idx [] = t := rfl
    rw [hteq]
    exact ⟨hA, ⟨[], by rw [List.append_nil], by rw [List.append_nil]⟩,
      ⟨[], by rw [List.append_nil], fun i => by simp⟩⟩
  | cons e rest ih =>
    intro ps t idx ps' hA hI hwf h
    simp only [embedsLoop] at h
    simp only [ctrlEmbeds] at hwf ⊢
    obtain ⟨r, hstep, h⟩ := except_bind_inv _ _ _ h
    by_cases hb2 : (ctrlEmbed t c m idx e).2 = true
    · rw [if_pos hb2] at hwf ⊢
      obtain ⟨hA', hbrk, hD, hS⟩ := proj_embedStep ps t c m idx e r hA hI hwf hstep
      have hb : r.2 = true := by rw [hbrk]; exact hb2
      rw [if_pos hb] at h
      simp only [Except.ok.injEq] at h
      rw [← h]
      exact ⟨hA', hD, hS⟩
    · rw [if_neg hb2] at hwf ⊢
      have hwf1 : (ctrlEmbed t c m idx e).1.wf = true := ctrlEmbeds_wf c m rest _ _ hwf
      obtain ⟨hA', hbrk, hD, hS⟩ := proj_embedStep ps t c m idx e r hA hI hwf1 hstep
      have hb : ¬r.2 = true := by rw [hbrk]; exact hb2
      rw [if_neg hb] at h
      have hI' := ctrlInv_embed t c m idx e ⟨(hI).1, hI.2.1, hI.2.2.1, hI.2.2.2.1,
        hI.2.2.2.2.1, hI.2.2.2.2.2.1, hI.2.2.2.2.2.2⟩ hwf1
      obtain ⟨hA2, hD2, hS2⟩ := ih r.1 (ctrlEmbed t c m idx e).1 (idx + 1) ps' hA' hI' hwf h
      refine ⟨hA2, ?_, ?_⟩
      · obtain ⟨D1, hD1a, hD1b⟩ := hD
        obtain ⟨D2, hD2a, hD2b⟩ := hD2
        refine ⟨D1 ++ D2, ?_, ?_⟩
        · rw [hD2a, hD1a, List.append_assoc]
        · rw [hD2b, hD1b, List.append_assoc]
      · obtain ⟨S1, hS1a, hS1b⟩ := hS
        obtain ⟨S2, hS2a, hS2b⟩ := hS2
        refine ⟨S1 ++ S2, ?_, fun i => ?_⟩
        · rw [hS2a, hS1a, List.append_assoc]
        · rw [hS2b i, hS1b i, List.mem_append]
          tauto

theorem proj_processMessage (ps ps' : PState) (t : Ctrl) (c : Channel) (m : Message)
    (hA : Agrees ps t) (hI : CtrlInv t)
    (hwf : (ctrlMessage t c m).wf = true)
    (h : processMessage ps c m = .ok ps') :
    Agrees ps' (ctrlMessage t c m) ∧
    (∃ D, (ctrlMessage t c m).emitted = t.emitted ++ D ∧
      ps'.db.rounds.map roundKey = ps.db.rounds.map roundKey ++ D) ∧
    (∃ S, (ctrlMessage t c m).savedIds = t.savedIds ++ S ∧
      (∀ i, i ∈ ps'.db.games.map Game.id ↔ i ∈ ps.db.games.map Game.id ∨ i ∈ S)) := by
  unfold processMessage at h
  have tail : ∀ ps3 : PState, Agrees ps3 t →
      ps3.db.rounds = ps.db.rounds →
      ps3.db.games.map Game.id = ps.db.games.map Game.id →
      (if (m.author.id != botAuthorID) = true then
        observeUserName ps3 m m.author.id m.author.name
      else if m.embeds.isEmpty = true then Except.ok ps3
      else embedsLoop c m ps3 0 m.embeds) = .ok ps' →
      Agrees ps' (ctrlMessage t c m) ∧
      (∃ D, (ctrlMessage t c m).emitted = t.emitted ++ D ∧
        ps'.db.rounds.map roundKey = ps.db.rounds.map roundKey ++ D) ∧
      (∃ S, (ctrlMessage t c m).savedIds = t.savedIds ++ S ∧
        (∀ i, i ∈ ps'.db.games.map Game.id ↔ i ∈ ps.db.games.map Game.id ∨ i ∈ S)) := by
    intro ps3 hA3 hrnd hgm h
    by_cases ha : (m.author.id != botAuthorID) = true
    · rw [if_pos ha] at h
      have hctrl : ctrlMessage t c m = t := by
        unfold ctrlMessage
        rw [if_pos ha]
      rw [hctrl]
      obtain ⟨o1, o2, o3, o4, _, _, _, _⟩ := observeUserName_ok _ _ _ _ _ h
      refine ⟨agrees_of_eq ps3 ps' t o1 o2 hA3, ?_, ?_⟩
      · exact ⟨[], by rw [List.append_nil], by rw [List.append_nil, o3, hrnd]⟩
      · exact ⟨[], by rw [List.append_nil], fun i => by rw [o4, hgm]; simp⟩
    · rw [if_neg ha] at h
      have hctrlc : ctrlMessage t c m
          = if m.embeds.isEmpty = true then t else ctrlEmbeds c m t 0 m.embeds := by
        unfold ctrlMessage
        rw [if_neg ha]
      by_cases he : m.embeds.isEmpty = true
      · rw [if_pos he] at h
        rw [hctrlc, if_pos he]
        simp only [Except.ok.injEq] at h
        rw [← h]
        refine ⟨hA3, ?_, ?_⟩
        · exact ⟨[], by rw [List.append_nil], by rw [List.append_nil, hrnd]⟩
        · exact ⟨[], by rw [List.append_nil], fun i => by rw [hgm]; simp⟩
      · rw [if_neg he] at h
        rw [hctrlc, if_neg he] at hwf ⊢
        obtain ⟨hA2, hD, hS⟩ := proj_embedsLoop c m m.embeds ps3 t 0 ps' hA3 hI hwf h
        refine ⟨hA2, ?_, ?_⟩
        · obtain ⟨D, hD1, hD2⟩ := hD
          exact ⟨D, hD1, by rw [hD2, hrnd]⟩
        · obtain ⟨S, hS1, hS2⟩ := hS
          refine ⟨S, hS1, fun i => ?_⟩
          rw [hS2 i, hgm]
  cases hint : m.interaction with
  | some itn =>
    simp only [hint] at h
    obtain ⟨ps1, h1, h⟩ := except_bind_inv _ _ _ h
    obtain ⟨o1, o2, o3, o4, _, _, _, _⟩ := observeUserName_ok _ _ _ _ _ h1
    obtain ⟨ps2, h2, h⟩ := except_bind_inv _ _ _ h
    obtain ⟨p1, p2, p3, p4⟩ := obsFold_facts m _ _ _ h2
    obtain ⟨ps3v, h3, h⟩ := except_bind_inv _ _ _ h
    obtain ⟨q1, q2, q3, q4⟩ := reactsFold_facts m _ _ _ h3
    exact tail ps3v
      (agrees_of_eq ps ps3v t (by rw [q1, p1, o1]) (by rw [q2, p2, o2]) hA)
      (by rw [q3, p3, o3]) (by rw [q4, p4, o4]) h
  | none =>
    simp only [hint, except_pure_eq, except_bind_ok] at h
    obtain ⟨ps2, h2, h⟩ := except_bind_inv _ _ _ h
    obtain ⟨p1, p2, p3, p4⟩ := obsFold_facts m _ _ _ h2
    obtain ⟨ps3v, h3, h⟩ := except_bind_inv _ _ _ h
    obtain ⟨q1, q2, q3, q4⟩ := reactsFold_facts m _ _ _ h3
    exact tail ps3v
      (agrees_of_eq ps ps3v t (by rw [q1, p1]) (by rw [q2, p2]) hA)
      (by rw [q3, p3]) (by rw [q4, p4]) h

theorem proj_msgFold (b : Backup) :
    ∀ (msgs : List Message) (ps : PState) (t : Ctrl) (ps' : PState),
      Agrees ps t → CtrlInv t →
      (msgs.foldl (fun t2 m => ctrlMessage t2 b.channel m) t).wf = true →
      msgs.foldlM (fun s m => processMessage s b.channel m) ps = .ok ps' →
      Agrees ps' (msgs.foldl (fun t2 m => ctrlMessage t2 b.channel m) t) ∧
      (∃ D, (msgs.foldl (fun t2 m => ctrlMessage t2 b.channel m) t).emitted = t.emitted ++ D ∧
        ps'.db.rounds.map roundKey = ps.db.rounds.map roundKey ++ D) ∧
      (∃ S, (msgs.foldl (fun t2 m => ctrlMessage t2 b.channel m) t).savedIds
          = t.savedIds ++ S ∧
        (∀ i, i ∈ ps'.db.games.map Game.id ↔ i ∈ ps.db.games.map Game.id ∨ i ∈ S)) := by
  intro msgs
  induction msgs with
  | nil =>
    intro ps t ps' hA hI hwf h
    simp only [List.foldlM_nil, except_pure_eq, Except.ok.injEq] at h
    rw [← h]
    rw [List.foldl_nil]
    exact ⟨hA, ⟨[], by rw [List.append_nil], by rw [List.append_nil]⟩,
      ⟨[], by rw [List.append_nil], fun i => by simp⟩⟩
  | cons msg rest ih =>
    intro ps t ps' hA hI hwf h
    rw [List.foldlM_cons] at h
    rw [List.foldl_cons] at hwf ⊢
    obtain ⟨ps1, h1, h⟩ := except_bind_inv _ _ _ h
    have hwf1 : (ctrlMessage t b.channel msg).wf = true := ctrlExport_wf b rest _ hwf
    obtain ⟨hA1, hD1, hS1⟩ := proj_processMessage ps ps1 t b.channel msg hA hI hwf1 h1
    have hI1 : CtrlInv (ctrlMessage t b.channel msg) :=
      ctrlInv_message t b.channel msg hI hwf1
    obtain ⟨hA2, hD2, hS2⟩ := ih ps1 (ctrlMessage t b.channel msg) ps' hA1 hI1 hwf h
    refine ⟨hA2, ?_, ?_⟩
    · obtain ⟨D1, hD1a, hD1b⟩ := hD1
      obtain ⟨D2, hD2a, hD2b⟩ := hD2
      refine ⟨D1 ++ D2, ?_, ?_⟩
      · rw [hD2a, hD1a, List.append_assoc]
      · rw [hD2b, hD1b, List.append_assoc]
    · obtain ⟨S1, hS1a, hS1b⟩ := hS1
      obtain ⟨S2, hS2a, hS2b⟩ := hS2
      refine ⟨S1 ++ S2, ?_, fun i => ?_⟩
      · rw [hS2a, hS1a, List.append_assoc]
      · rw [hS2b i, hS1b i, List.mem_append]
        tauto

theorem proj_processArchives :
    ∀ (backups : List Backup) (ps : PState) (t : Ctrl) (ps' : PState),
      Agrees ps t → CtrlInv t →
      (ctrlArchives t backups).wf = true →
      processArchives ps backups = .ok ps' →
      Agrees ps' (ctrlArchives t backups) ∧
      (∃ D, (ctrlArchives t backups).emitted = t.emitted ++ D ∧
        ps'.db.rounds.map roundKey = ps.db.rounds.map roundKey ++ D) ∧
      (∃ S, (ctrlArchives t backups).savedIds = t.savedIds ++ S ∧
        (∀ i, i ∈ ps'.db.games.map Game.id ↔ i ∈ ps.db.games.map Game.id ∨ i ∈ S)) := by
  intro backups
  induction backups with
  | nil =>
    intro ps t ps' hA hI hwf h
    simp only [processArchives, List.foldlM_nil, except_pure_eq, Except.ok.injEq] at h
    rw [← h]
    have hteq : ctrlArchives t [] = t := rfl
    rw [hteq]
    exact ⟨hA, ⟨[], by rw [List.append_nil], by rw [List.append_nil]⟩,
      ⟨[], by rw [List.append_nil], fun i => by simp⟩⟩
  | cons b rest ih =>
    intro ps t ps' hA hI hwf h
    simp only [processArchives, List.foldlM_cons] at h
    simp only [ctrlArchives, List.foldl_cons] at hwf ⊢
    obtain ⟨ps1, h1, h⟩ := except_bind_inv _ _ _ h
    have hwf1 : (ctrlExport t b).wf = true := by
      have h2 := ctrlArchives_wf rest (ctrlExport t b)
      unfold ctrlArchives at h2
      exact h2 hwf
    have hfold1 : processExport ps b = .ok ps1 := h1
    unfold processExport at hfold1
    have hwfold : (b.messages.foldl (fun t2 m => ctrlMessage t2 b.channel m) t).wf = true := by
      unfold ctrlExport at hwf1
      exact hwf1
    obtain ⟨hA1, hD1, hS1⟩ := proj_msgFold b b.messages ps t ps1 hA hI hwfold hfold1
    have hI1 : CtrlInv (ctrlExport t b) := by
      unfold ctrlExport
      exact ctrlInv_export b b.messages t hI hwfold
    have hA1e : Agrees ps1 (ctrlExport t b) := by
      unfold ctrlExport
      exact hA1
    have hres := ih ps1 (ctrlExport t b) ps' hA1e hI1 ?hwf2 ?hrun2
    case hwf2 =>
      unfold ctrlArchives
      exact hwf
    case hrun2 =>
      unfold processArchives
      exact h
    obtain ⟨hA2, hD2, hS2⟩ := hres
    have hctrleq : ctrlArchives (ctrlExport t b) rest
        = rest.foldl ctrlExport (ctrlExport t b) := rfl
    rw [hctrleq] at hA2 hD2 hS2
    refine ⟨hA2, ?_, ?_⟩
    · obtain ⟨D1, hD1a, hD1b⟩ := hD1
      obtain ⟨D2, hD2a, hD2b⟩ := hD2
      have hD1a2 : (ctrlExport t b).emitted = t.emitted ++ D1 := by
        unfold ctrlExport
        exact hD1a
      refine ⟨D1 ++ D2, ?_, ?_⟩
      · rw [hD2a, hD1a2, List.append_assoc]
      · rw [hD2b, hD1b, List.append_assoc]
    · obtain ⟨S1, hS1a, hS1b⟩ := hS1
      obtain ⟨S2, hS2a, hS2b⟩ := hS2
      have hS1a2 : (ctrlExport t b).savedIds = t.savedIds ++ S1 := by
        unfold ctrlExport
        exact hS1a
      refine ⟨S1 ++ S2, ?_, fun i => ?_⟩
      · rw [hS2a, hS1a2, List.append_assoc]
      · rw [hS2b i, hS1b i, List.mem_append]
        tauto

/-- The empty store satisfies the dedup invariant. -/
theorem dbInv_empty : DBInv ({} : DB) :=
  ⟨List.nodup_nil, List.nodup_nil, List.nodup_nil, List.nodup_nil⟩

/-- A full replay on a fresh processor, projected onto the control run of
the same archives: the final state agrees with the control state, the
round-key trace grows by exactly the control's emitted keys, and the game
ids present are the initial ones plus the control's saved ids. -/
theorem proj_run (backups : List Backup) (db0 : DB) (ps' : PState)
    (hwf : wellFormed backups = true)
    (h : processArchives (freshPState db0) backups = .ok ps') :
    Agrees ps' (ctrlArchives {} backups) ∧
    ps'.db.rounds.map roundKey
      = db0.rounds.map roundKey ++ (ctrlArchives {} backups).emitted ∧
    (∀ i, i ∈ ps'.db.games.map Game.id ↔
      i ∈ db0.games.map Game.id ∨ i ∈ (ctrlArchives {} backups).savedIds) := by
  have hA0 : Agrees (freshPState db0) ({} : Ctrl) :=
    ⟨rfl, fun cid => ⟨rfl, rfl, rfl, rfl⟩⟩
  unfold wellFormed at hwf
  obtain ⟨hA, hD, hS⟩ :=
    proj_processArchives backups (freshPState db0) {} ps' hA0 ctrlInv_init hwf h
  refine ⟨hA, ?_, ?_⟩
  · obtain ⟨D, hD1, hD2⟩ := hD
    have hnil : ({} : Ctrl).emitted ++ D = D := rfl
    rw [hnil] at hD1
    rw [hD2, hD1]
    rfl
  · obtain ⟨S, hS1, hS2⟩ := hS
    have hnil : ({} : Ctrl).savedIds ++ S = S := rfl
    rw [hnil] at hS1
    intro i
    rw [hS1]
    exact hS2 i

/-- Per-game round numbers extracted from the pair view coincide with the
numbers extracted from the key trace. -/
theorem pairNums_eq (l : List Round) (g : Nat) :
    ((l.map fun r => (r.gameID, r.roundNumber)).filter (fun q => q.1 == g)).map
        (fun q => q.2)
      = ((l.map roundKey).filter (fun k => k.1 == g)).map (fun k => k.2.1) := by
  induction l with
  | nil => rfl
  | cons r rest ih =>
    by_cases hg : (r.gameID == g) = true <;> simp [roundKey, hg, ih]

/-! ## C2: per-game round numbering -/

/-- C2 counterexample: on the demo archive (countdown, start, one round
narrative) the single stored round of game 1 carries round number 0 - the
round context opened at countdown start is Round 0, not Round 1. -/
theorem claim_C2_counterexample :
    roundPairs (okOrDefault (processArchives (freshPState {}) demoArch)).db
      = [(1, 0)] := rfl

/-- C2 (corrected): for every game of a full replay of a well-formed
archive set over an empty store, the stored round numbers are contiguous
with no gaps - but they start at 0, the number createNewGame leaves in the
fresh round context, not at 1. -/
theorem claim_C2 (backups : List Backup) (ps' : PState)
    (hwf : wellFormed backups = true)
    (h : processArchives (freshPState {}) backups = .ok ps') :
    ∀ g, ∃ n, ((roundPairs ps'.db).filter (fun q => q.1 == g)).map (fun q => q.2)
      = List.range n := by
  obtain ⟨hA, hD, hS⟩ := proj_run backups {} ps' hwf h
  have hI : CtrlInv (ctrlArchives {} backups) := by
    unfold wellFormed at hwf
    exact ctrlInv_archives backups {} ctrlInv_init hwf
  intro g
  obtain ⟨n, hn⟩ := hI.2.2.2.2.2.2 g
  refine ⟨n, ?_⟩
  have htr : ps'.db.rounds.map roundKey = (ctrlArchives {} backups).emitted := by
    rw [hD]
    rfl
  have hp : ((roundPairs ps'.db).filter (fun q => q.1 == g)).map (fun q => q.2)
      = ctrlNums (ctrlArchives {} backups) g := by
    unfold roundPairs
    rw [pairNums_eq, htr]
    rfl
  rw [hp]
  exact hn

/-- Witness: the demo replay is well-formed and game 1's round numbers are
an initial segment of the naturals. -/
theorem claim_C2_witness :
    wellFormed demoArch = true ∧
    ∃ n, ((roundPairs (okOrDefault (processArchives (freshPState {}) demoArch)).db).filter
        (fun q => q.1 == 1)).map (fun q => q.2) = List.range n :=
  ⟨rfl, claim_C2 demoArch (okOrDefault (processArchives (freshPState {}) demoArch))
    rfl rfl 1⟩

/-! ## C3: replaying the same archives twice -/

/-- C3 counterexample: replaying the demo archive twice duplicates the
stored round of game 1 - the store contents differ from a single run. -/
theorem claim_C3_counterexample :
    roundPairs (okOrDefault (processArchives (freshPState
        (okOrDefault (processArchives (freshPState {}) demoArch)).db) demoArch)).db
      = [(1, 0), (1, 0)] ∧
    roundPairs (okOrDefault (processArchives (freshPState {}) demoArch)).db
      = [(1, 0)] := ⟨rfl, rfl⟩

/-- C3 (corrected): a second replay of a well-formed archive set is NOT
idempotent: every round row is Created again, doubling the round-key
trace. The game-id set and the user/item/interaction-message dedup
invariants are preserved. -/
theorem claim_C3 (backups : List Backup) (ps1 ps2 : PState)
    (hwf : wellFormed backups = true)
    (h1 : processArchives (freshPState {}) backups = .ok ps1)
    (h2 : processArchives (freshPState ps1.db) backups = .ok ps2) :
    ps2.db.rounds.map roundKey
      = ps1.db.rounds.map roundKey ++ ps1.db.rounds.map roundKey ∧
    (∀ i, i ∈ ps2.db.games.map Game.id ↔ i ∈ ps1.db.games.map Game.id) ∧
    DBInv ps2.db := by
  obtain ⟨hA1, hD1, hS1⟩ := proj_run backups {} ps1 hwf h1
  obtain ⟨hA2, hD2, hS2⟩ := proj_run backups ps1.db ps2 hwf h2
  have htr1 : ps1.db.rounds.map roundKey = (ctrlArchives {} backups).emitted := by
    rw [hD1]
    rfl
  refine ⟨?_, ?_, ?_⟩
  · rw [hD2, htr1]
  · have hmem : ∀ j, j ∈ ps1.db.games.map Game.id ↔
        j ∈ (ctrlArchives {} backups).savedIds := by
      intro j
      rw [hS1 j]
      simp [DB.games]
    intro i
    rw [hS2 i]
    constructor
    · rintro (hi | hi)
      · exact hi
      · exact (hmem i).mpr hi
    · intro hi
      exact Or.inl hi
  · exact dbInv_processArchives backups _ ps2 h2
      (dbInv_processArchives backups _ ps1 h1 dbInv_empty)

/-- Witness: on the demo archive the second run's round-key trace is the
first run's trace twice over. -/
theorem claim_C3_witness :
    (okOrDefault (processArchives (freshPState
        (okOrDefault (processArchives (freshPState {}) demoArch)).db) demoArch)).db.rounds.map
        roundKey
      = (okOrDefault (processArchives (freshPState {}) demoArch)).db.rounds.map roundKey
        ++ (okOrDefault (processArchives (freshPState {}) demoArch)).db.rounds.map roundKey :=
  (claim_C3 demoArch _ _ rfl rfl rfl).1

/-! ## C8: interaction-message dedup on (text, event) -/

/-- C8 (confirmed): after a full replay from an empty store no two stored
InteractionMessage rows share the same (text, event) pair, and on any
store whose (text, event) pairs are distinct, looking up an existing pair
returns the stored record unchanged, creating nothing. -/
theorem claim_C8 (backups : List Backup) (ps' : PState)
    (h : processArchives (freshPState {}) backups = .ok ps') :
    (ps'.db.interactionMessages.map fun i => (i.text, i.event)).Nodup ∧
    (∀ (db : DB) (text event : String) (im : InteractionMessage),
      (db.interactionMessages.map fun i => (i.text, i.event)).Nodup →
      im ∈ db.interactionMessages → im.text = text → im.event = event →
      lookupInteractionMessage db text event = (im, db)) := by
  constructor
  · exact (dbInv_processArchives backups (freshPState {}) ps' h dbInv_empty).2.2.1
  · intro db text event im hnd him ht he
    unfold lookupInteractionMessage
    cases hfind : db.interactionMessages.find? (fun i => i.text == text && i.event == event) with
    | none =>
      exfalso
      have := List.find?_eq_none.mp hfind im him
      simp [ht, he] at this
    | some x =>
      have hx := List.find?_some hfind
      have hxm := List.mem_of_find?_eq_some hfind
      have hkey : x.text = text ∧ x.event = event := by
        simpa using hx
      have hxi : x = im := by
        have hinj := List.inj_on_of_nodup_map hnd
        exact hinj hxm him (by simp [hkey.1, hkey.2, ht, he])
      rw [hxi]

/-- Witness: the demo replay yields pairwise-distinct (text, event) pairs. -/
theorem claim_C8_witness :
    ((okOrDefault (processArchives (freshPState {}) demoArch)).db.interactionMessages.map
      fun i => (i.text, i.event)).Nodup :=
  (claim_C8 demoArch (okOrDefault (processArchives (freshPState {}) demoArch)) rfl).1

end Bettel
